import Mathlib

/-!
Verification development for the taiko-web songs scanner
(`songs_scanner.py`).  The Python source is shallowly embedded: text is
`List Char` (Unicode code points), pure helper functions are translated
one-to-one, the MongoDB-backed scan pipeline is modelled as explicit
state passing over association-list documents.

Modelling notes, used consistently below:
* `md5Text` abstracts the MD5 digest.  No claim depends on the internals
  of MD5; every proof uses only that it is a function (equal inputs give
  equal digests).
* `nfcModel` models `unicodedata.normalize("NFC", s)`.  It is the
  identity, which is exact on NFC-invariant strings; every theorem below
  applies it only to ASCII plus the scanner's special whitespace and
  zero-width characters, on which real NFC is the identity.
* `asciiCasefold` models `str.casefold` exactly on ASCII (and on
  characters without case mappings, which covers every theorem input).
* Unicode categories `Zs` and `Cf` are given by explicit code-point
  tables covering the whole `Zs` category and the `Cf` ranges.
-/

set_option maxHeartbeats 1000000
set_option maxRecDepth 4000

abbrev Txt := List Char

def tx (s : String) : Txt := s.toList

/-- ASCII decimal digit test, matching the regex `[0-9]`. -/
def isAsciiDigitC (c : Char) : Bool := decide (48 ≤ c.toNat ∧ c.toNat ≤ 57)

/-- Characters matched by Python's `\s` (and stripped by `str.strip()`):
the `str.isspace` set. -/
def isPyWsC (c : Char) : Bool :=
  let n := c.toNat
  decide ((9 ≤ n ∧ n ≤ 13) ∨ (28 ≤ n ∧ n ≤ 32) ∨ n = 133 ∨ n = 160 ∨
    n = 0x1680 ∨ (0x2000 ≤ n ∧ n ≤ 0x200A) ∨ n = 0x2028 ∨ n = 0x2029 ∨
    n = 0x202F ∨ n = 0x205F ∨ n = 0x3000)

/-- Unicode category `Zs` (space separators), complete table. -/
def isZsC (c : Char) : Bool :=
  let n := c.toNat
  decide (n = 32 ∨ n = 160 ∨ n = 0x1680 ∨ (0x2000 ≤ n ∧ n ≤ 0x200A) ∨
    n = 0x202F ∨ n = 0x205F ∨ n = 0x3000)

/-- Unicode category `Cf` (format characters), by code-point ranges. -/
def isCfC (c : Char) : Bool :=
  let n := c.toNat
  decide (n = 0xAD ∨ (0x600 ≤ n ∧ n ≤ 0x605) ∨ n = 0x61C ∨ n = 0x6DD ∨
    n = 0x70F ∨ n = 0x890 ∨ n = 0x891 ∨ n = 0x8E2 ∨ n = 0x180E ∨
    (0x200B ≤ n ∧ n ≤ 0x200F) ∨ (0x202A ≤ n ∧ n ≤ 0x202E) ∨
    (0x2060 ≤ n ∧ n ≤ 0x2064) ∨ (0x2066 ≤ n ∧ n ≤ 0x206F) ∨ n = 0xFEFF ∨
    (0xFFF9 ≤ n ∧ n ≤ 0xFFFB) ∨ n = 0x110BD ∨ n = 0x110CD ∨
    (0x13430 ≤ n ∧ n ≤ 0x1343F) ∨ (0x1BCA0 ≤ n ∧ n ≤ 0x1BCA3) ∨
    (0x1D173 ≤ n ∧ n ≤ 0x1D17A) ∨ n = 0xE0001 ∨ (0xE0020 ≤ n ∧ n ≤ 0xE007F))

/-- The scanner's `ZERO_WIDTH_CHARACTERS` set. -/
def isZeroWidthC (c : Char) : Bool :=
  let n := c.toNat
  decide (n = 0x200B ∨ n = 0x200C ∨ n = 0x200D ∨ n = 0xFEFF ∨
    n = 0x2060 ∨ n = 0x180E)

/-- ASCII-exact model of `str.casefold`. -/
def asciiCasefold (c : Char) : Char :=
  if 65 ≤ c.toNat ∧ c.toNat ≤ 90 then Char.ofNat (c.toNat + 32) else c

/-- Helper of `collapseRuns`: `inRun` records whether the previous
character belonged to a `p`-run already replaced. -/
def collapseRunsAux (p : Char → Bool) (rep : Char) : Bool → Txt → Txt
  | _, [] => []
  | inRun, c :: t =>
    if p c then
      (if inRun then collapseRunsAux p rep true t
       else rep :: collapseRunsAux p rep true t)
    else c :: collapseRunsAux p rep false t

/-- Replace every maximal run of characters satisfying `p` by the single
character `rep`; models `re.sub(cls + "+", rep, s)`. -/
def collapseRuns (p : Char → Bool) (rep : Char) (l : Txt) : Txt :=
  collapseRunsAux p rep false l

def stripLeading (p : Char → Bool) (l : Txt) : Txt := l.dropWhile p

def stripTrailing (p : Char → Bool) (l : Txt) : Txt :=
  (l.reverse.dropWhile p).reverse

/-- Model of Python `str.strip` with character class `p`. -/
def stripBoth (p : Char → Bool) (l : Txt) : Txt :=
  stripTrailing p (stripLeading p l)

def isHexDigitC (c : Char) : Bool :=
  decide ((48 ≤ c.toNat ∧ c.toNat ≤ 57) ∨ (97 ≤ c.toNat ∧ c.toNat ≤ 102) ∨
    (65 ≤ c.toNat ∧ c.toNat ≤ 70))

def hexDigitVal (c : Char) : Nat :=
  if 48 ≤ c.toNat ∧ c.toNat ≤ 57 then c.toNat - 48
  else if 97 ≤ c.toNat ∧ c.toNat ≤ 102 then c.toNat - 87
  else if 65 ≤ c.toNat ∧ c.toNat ≤ 70 then c.toNat - 55
  else 0

/-- First phase of `urllib.parse.unquote`: turn each valid `%XX` escape
into a byte, leave other characters (and invalid escapes) literal. -/
def tokenizePct : Txt → List (Char ⊕ Nat)
  | '%' :: h1 :: h2 :: rest =>
    if isHexDigitC h1 && isHexDigitC h2 then
      Sum.inr (16 * hexDigitVal h1 + hexDigitVal h2) :: tokenizePct rest
    else Sum.inl ('%') :: tokenizePct (h1 :: h2 :: rest)
  | c :: rest => Sum.inl c :: tokenizePct rest
  | [] => []

def isByteTok : Char ⊕ Nat → Bool
  | Sum.inr _ => true
  | Sum.inl _ => false

def tokByte : Char ⊕ Nat → Nat
  | Sum.inr b => b
  | Sum.inl _ => 0

/-- UTF-8 decoding with U+FFFD replacement on malformed input, as
`bytes.decode("utf-8", errors="replace")`.  Exact on ASCII bytes, which
is all the theorems below exercise. -/
def utf8DecodeReplace : List Nat → Txt
  | [] => []
  | b :: rest =>
    if b < 128 then Char.ofNat b :: utf8DecodeReplace rest
    else if 194 ≤ b ∧ b ≤ 223 then
      match rest with
      | b2 :: r2 =>
        if 128 ≤ b2 ∧ b2 ≤ 191 then
          Char.ofNat ((b - 192) * 64 + (b2 - 128)) :: utf8DecodeReplace r2
        else Char.ofNat 0xFFFD :: utf8DecodeReplace (b2 :: r2)
      | [] => [Char.ofNat 0xFFFD]
    else if 224 ≤ b ∧ b ≤ 239 then
      match rest with
      | b2 :: b3 :: r3 =>
        if 128 ≤ b2 ∧ b2 ≤ 191 ∧ 128 ≤ b3 ∧ b3 ≤ 191 then
          Char.ofNat ((b - 224) * 4096 + (b2 - 128) * 64 + (b3 - 128)) ::
            utf8DecodeReplace r3
        else Char.ofNat 0xFFFD :: utf8DecodeReplace (b2 :: b3 :: r3)
      | _ => [Char.ofNat 0xFFFD]
    else if 240 ≤ b ∧ b ≤ 244 then
      match rest with
      | b2 :: b3 :: b4 :: r4 =>
        if 128 ≤ b2 ∧ b2 ≤ 191 ∧ 128 ≤ b3 ∧ b3 ≤ 191 ∧ 128 ≤ b4 ∧ b4 ≤ 191 then
          Char.ofNat ((b - 240) * 262144 + (b2 - 128) * 4096 +
            (b3 - 128) * 64 + (b4 - 128)) :: utf8DecodeReplace r4
        else Char.ofNat 0xFFFD :: utf8DecodeReplace (b2 :: b3 :: b4 :: r4)
      | _ => [Char.ofNat 0xFFFD]
    else Char.ofNat 0xFFFD :: utf8DecodeReplace rest

/-- Helper of `pctDecodeTokens`: `bytes` holds the reversed escape run
collected so far, flushed through the UTF-8 decoder at run boundaries. -/
def pctDecodeAux : List (Char ⊕ Nat) → List Nat → Txt
  | [], bytes => utf8DecodeReplace bytes.reverse
  | Sum.inr b :: rest, bytes => pctDecodeAux rest (b :: bytes)
  | Sum.inl c :: rest, bytes =>
    utf8DecodeReplace bytes.reverse ++ c :: pctDecodeAux rest []

/-- Second phase of `unquote`: decode each maximal run of escape bytes
as UTF-8, pass literal characters through. -/
def pctDecodeTokens (toks : List (Char ⊕ Nat)) : Txt :=
  pctDecodeAux toks []

/-- Model of `urllib.parse.unquote` (UTF-8, errors="replace"). -/
def unquoteModel (l : Txt) : Txt := pctDecodeTokens (tokenizePct l)

/-- Model of `unicodedata.normalize("NFC", s)`: the identity, exact on
NFC-invariant strings (see module comment). -/
def nfcModel (l : Txt) : Txt := l

def bsSlash (c : Char) : Char := if c = '\\' then '/' else c

def collapseSlashes : Txt → Txt := collapseRuns (fun c => c = '/') '/'

def collapseWsRun : Txt → Txt := collapseRuns isPyWsC ' '

/-- Character class of the regex `[\t\f\v ]` used by
`_normalise_invisible_whitespace`. -/
def isHorizWsC (c : Char) : Bool :=
  decide (c.toNat = 9 ∨ c.toNat = 11 ∨ c.toNat = 12 ∨ c.toNat = 32)

def collapseHorizWs : Txt → Txt := collapseRuns isHorizWsC ' '

/-- Per-character step of `_normalise_invisible_whitespace`. -/
def invisibleStep (c : Char) : Option Char :=
  if isZeroWidthC c then none
  else if isCfC c then none
  else if isZsC c ∧ c ≠ ' ' then some (' ')
  else if c.toNat = 160 then some (' ')
  else some c

/-- Model of `_normalise_invisible_whitespace`. -/
def normalise_invisible_whitespace (l : Txt) : Txt :=
  collapseHorizWs (l.filterMap invisibleStep)

/-- Model of `_clean_metadata_value`. -/
def clean_metadata_value (l : Txt) : Txt :=
  normalise_invisible_whitespace (l.filter (fun c => c ≠ Char.ofNat 0))

/-- Model of `_normalise_group_text`. -/
def normalise_group_text (value : Txt) (casefoldValue : Bool)
    (stripSlashes : Bool) : Txt :=
  if value = [] then [] else
  let t := unquoteModel value
  let t := nfcModel t
  let t := t.map bsSlash
  let t := collapseSlashes t
  let t := if stripSlashes then stripBoth (fun c => c = '/') t else t
  let t := stripBoth isPyWsC t
  let t := collapseWsRun t
  let t := clean_metadata_value t
  if casefoldValue then t.map asciiCasefold else t

/-- Model of `_sanitise_group_token`. -/
def sanitise_group_token (token : Txt) (fallback : Txt) : Txt :=
  let c := token.map (fun ch => if ch = ':' then '_' else ch)
  let c := stripBoth isPyWsC c
  let c := collapseWsRun c
  if c = [] then fallback else c

/-- Digest model standing for `hashlib.md5(text).hexdigest()`.  The
claims use only functionality of the digest (equal inputs, equal
outputs), never its internals, so the identity is a sound stand-in. -/
def md5Text (l : Txt) : Txt := l

def joinSep (sep : Char) : List Txt → Txt
  | [] => []
  | [x] => x
  | x :: xs => x ++ sep :: joinSep sep xs

def isAsciiAlphaC (c : Char) : Bool :=
  decide ((65 ≤ c.toNat ∧ c.toNat ≤ 90) ∨ (97 ≤ c.toNat ∧ c.toNat ≤ 122))

def isSchemeC (c : Char) : Bool :=
  isAsciiAlphaC c || isAsciiDigitC c || decide (c = '+' ∨ c = '-' ∨ c = '.')

def headIsAlpha : Txt → Bool
  | c :: _ => isAsciiAlphaC c
  | [] => false

/-- Model of `urllib.parse.urlparse(u).path`: cut fragment and query,
strip a leading valid scheme and a `//netloc` part. -/
def urlPathOf (u : Txt) : Txt :=
  let u1 := u.takeWhile (fun c => c ≠ '#')
  let u2 := u1.takeWhile (fun c => c ≠ '?')
  let pre := u2.takeWhile (fun c => c ≠ ':')
  let rest :=
    if pre.length < u2.length ∧ pre ≠ [] ∧ headIsAlpha pre ∧
        pre.all isSchemeC then
      u2.drop (pre.length + 1)
    else u2
  match rest with
  | '/' :: '/' :: r => r.dropWhile (fun c => c ≠ '/')
  | _ => rest

/-- Model of the Python substring test `needle in hay`. -/
def isInfixTxt (needle : Txt) : Txt → Bool
  | [] => needle.isEmpty
  | c :: t => needle.isPrefixOf (c :: t) || isInfixTxt needle t

/-- Model of Python `hay.endswith(needle)`. -/
def isSuffixTxt (needle hay : Txt) : Bool :=
  needle.reverse.isPrefixOf hay.reverse

/-- Model of `Path(p).parent.as_posix()` for a POSIX relative path. -/
def parentPosix (p : Txt) : Txt :=
  let r := p.reverse.dropWhile (fun c => c ≠ '/')
  let r := r.dropWhile (fun c => c = '/')
  if r = [] then ['.'] else r.reverse

structure SegmentM where
  audio : Option Txt
  start_measure : Nat
  end_measure : Option Nat
  bpm_map : List (Nat × Int)
  gogo_ranges : List (Nat × Nat)
deriving DecidableEq

structure ChartRecordM where
  course : Txt
  raw_course : Txt
  normalised : Txt
  level : Option Int
  branch : Bool
  valid : Bool
  issues : List Txt
  mode : Txt
  display_course : Option Txt
  segments : List SegmentM
  unknown_directives : Nat
  coerced : Bool
  hit_notes : Nat
  total_notes : Nat
  measures : Nat
  first_note_preview : Option Txt
deriving DecidableEq

structure CourseInfoM where
  canonical : Txt
  raw_name : Txt
  normalised : Txt
  mode : Txt
  display_course : Option Txt
  segments : List SegmentM
  unknown_directives : Nat
  stars : Option Int
  branch : Bool
  branch_sections : List Txt
  start_blocks : Nat
  end_blocks : Nat
  issues : List Txt
  hit_notes : Nat
  total_notes : Nat
  measures : Nat
  first_note_preview : Option Txt
deriving DecidableEq

structure TjaImportRecord where
  relative_path : Txt
  relative_dir : Txt
  tja_url : Txt
  dir_url : Txt
  audio_url : Option Txt
  audio_path : Option Txt
  audio_hash : Option Txt
  audio_mtime_ns : Option Nat
  audio_size : Option Nat
  music_type : Option Txt
  diagnostics : List Txt
  title : Txt
  title_ja : Option Txt
  subtitle : Txt
  subtitle_ja : Option Txt
  locale : List (Txt × Txt × Txt)
  offset : Int
  preview : Int
  fingerprint : Txt
  tja_hash : Txt
  wave : Option Txt
  song_id : Option Txt
  genre : Option Txt
  category_id : Nat
  category_title : Txt
  charts : List ChartRecordM
  import_issues : List Txt
  normalized_title : Txt
deriving DecidableEq

/-- The `folder_source` selection at the top of
`_folder_token_from_record`: the directory-URL path when present,
else `relative_dir`, else the parent of `relative_path`. -/
def folder_source (r : TjaImportRecord) : Txt :=
  let fs0 := if r.dir_url = [] then [] else urlPathOf r.dir_url
  let fs1 := if fs0 = [] then r.relative_dir else fs0
  if fs1 = [] ∧ r.relative_path ≠ [] then parentPosix r.relative_path
  else fs1

/-- Model of `_folder_token_from_record`. -/
def folder_token_from_record (r : TjaImportRecord) : Txt :=
  let normalised0 := normalise_group_text (folder_source r) true true
  let normalised := if normalised0 = [] ∨ normalised0 = ['.'] then []
                    else normalised0
  let firstSegment := if normalised = [] then []
                      else normalised.takeWhile (fun c => c ≠ '/')
  let relativeNormalised := normalise_group_text r.relative_dir true true
  let relativeFirst :=
    if relativeNormalised ≠ [] ∧ relativeNormalised ≠ ['.'] then
      relativeNormalised.takeWhile (fun c => c ≠ '/')
    else []
  let firstSegment :=
    if relativeFirst ≠ [] ∧ firstSegment ≠ relativeFirst then
      (if firstSegment = [] ∨ isInfixTxt ('/' :: relativeFirst) normalised ∨
          isSuffixTxt relativeFirst normalised then relativeFirst
       else firstSegment)
    else firstSegment
  let token := sanitise_group_token firstSegment (tx ("_root"))
  if token = [] then tx ("_root") else token

/-- Model of `_stable_path_hash`. -/
def stable_path_hash (r : TjaImportRecord) : Txt :=
  let rd := normalise_group_text r.relative_dir true true
  let rp := normalise_group_text r.relative_path true false
  let components := [rd, rp].filter (fun c => c ≠ [])
  let combined := joinSep '/' components
  let combined :=
    if combined = [] then
      (if r.relative_path ≠ [] then r.relative_path
       else if r.relative_dir ≠ [] then r.relative_dir
       else if r.tja_hash ≠ [] then r.tja_hash
       else if r.fingerprint ≠ [] then r.fingerprint
       else tx ("missing"))
    else combined
  md5Text combined

/-- Model of `_normalise_title_key`. -/
def normalise_title_key (v : Txt) : Txt :=
  collapseWsRun ((stripBoth isPyWsC v).map asciiCasefold)

/-- Model of `compute_group_key`. -/
def compute_group_key (r : TjaImportRecord) : Txt :=
  let folderToken := folder_token_from_record r
  match r.audio_hash with
  | some h =>
    if h = [] then
      let fallbackTitle := if r.normalized_title ≠ [] then r.normalized_title
                           else normalise_title_key r.title
      let titleToken := sanitise_group_token
        (normalise_group_text fallbackTitle true false) (tx ("untitled"))
      tx ("missing:") ++ folderToken ++ ':' :: titleToken ++
        ':' :: stable_path_hash r
    else
      let audioToken := sanitise_group_token
        (normalise_group_text h false false) (tx ("missing-hash"))
      tx ("audio:") ++ audioToken ++ ':' :: folderToken
  | none =>
    let fallbackTitle := if r.normalized_title ≠ [] then r.normalized_title
                         else normalise_title_key r.title
    let titleToken := sanitise_group_token
      (normalise_group_text fallbackTitle true false) (tx ("untitled"))
    tx ("missing:") ++ folderToken ++ ':' :: titleToken ++
      ':' :: stable_path_hash r

structure NoteCounts where
  hit_notes : Nat
  total_notes : Nat
  measures : Nat
deriving DecidableEq

/-- Model of Python `line.split(",")`. -/
def splitOnComma : Txt → List Txt
  | [] => [[]]
  | c :: t =>
    if c = ',' then [] :: splitOnComma t
    else match splitOnComma t with
      | h :: rest => (c :: h) :: rest
      | [] => [[c]]

def HIT_NOTE_VALUES : List Nat := [1, 2, 3, 4, 5, 6]

/-- Per-token step of the measure-line handling in `parse_tja` (lines
615-632): discard non-digits, count hits, notes and one measure for a
token that still holds digits. -/
def process_note_token (acc : NoteCounts) (token : Txt) : NoteCounts :=
  let cleaned := token.filter isAsciiDigitC
  if cleaned = [] then acc
  else
    { hit_notes := acc.hit_notes +
        cleaned.countP (fun ch => decide ((ch.toNat - 48) ∈ HIT_NOTE_VALUES)),
      total_notes := acc.total_notes + cleaned.length,
      measures := acc.measures + 1 }

/-- Model of the measure-line loop of `parse_tja`: split the
comment-stripped line on commas and process each token. -/
def process_note_line (acc : NoteCounts) (line : Txt) : NoteCounts :=
  (splitOnComma line).foldl process_note_token acc

/-- Model of `NOTE_LINE_RE` (`^[0-9,\s\|]+$`). -/
def is_note_line (l : Txt) : Bool :=
  decide (l ≠ []) &&
    l.all (fun c => isAsciiDigitC c || decide (c = ',') || isPyWsC c ||
      decide (c = '|'))

def COURSE_ORDER : List Txt :=
  [tx ("Easy"), tx ("Normal"), tx ("Hard"), tx ("Oni"), tx ("UraOni")]

def COURSE_LEGACY_PAIRS : List (Txt × Txt) :=
  [(tx ("Easy"), tx ("easy")), (tx ("Normal"), tx ("normal")),
   (tx ("Hard"), tx ("hard")), (tx ("Oni"), tx ("oni")),
   (tx ("UraOni"), tx ("ura"))]

/-- Strict lexicographic order on text, as Python string `<`. -/
def txtLt : Txt → Txt → Bool
  | [], [] => false
  | [], _ :: _ => true
  | _ :: _, [] => false
  | a :: as, b :: bs => if a < b then true else if b < a then false else txtLt as bs

def txtLe : Txt → Txt → Bool
  | [], _ => true
  | _ :: _, [] => false
  | a :: as, b :: bs => if a < b then true else if b < a then false else txtLe as bs

/-- Stable insertion into a sorted list: the new element goes after every
element that is `le` it. -/
def sInsert {α : Type} (le : α → α → Bool) (x : α) : List α → List α
  | [] => [x]
  | h :: t => if le h x then h :: sInsert le x t else x :: h :: t

/-- Stable insertion sort, modelling Python's stable `sorted`. -/
def sSort {α : Type} (le : α → α → Bool) (l : List α) : List α :=
  l.foldl (fun acc x => sInsert le x acc) []

def dedupKeepFirstAux : List Txt → List Txt → List Txt
  | [], _ => []
  | x :: t, seen =>
    if x ∈ seen then dedupKeepFirstAux t seen
    else x :: dedupKeepFirstAux t (x :: seen)

/-- Model of Python `sorted(set(l))` for lists of strings. -/
def sortedDedup (l : List Txt) : List Txt := sSort txtLe (dedupKeepFirstAux l [])

/-- Model of the `_compute_display_course` closure in
`_build_chart_records`: scan path components in reverse, then metadata
strings, for a cleaned candidate containing "dan" or "kyuu". -/
def find_dan_candidate : List Txt → List Txt → Option Txt
  | [], _ => none
  | cand :: rest, seen =>
    let cc := clean_metadata_value cand
    let lowered := cc.map asciiCasefold
    if lowered ∈ seen then find_dan_candidate rest seen
    else if isInfixTxt (tx ("dan")) lowered || isInfixTxt (tx ("kyuu")) lowered then
      some cc
    else find_dan_candidate rest (lowered :: seen)

def compute_display_course (parts : List Txt) (title subtitle : Txt)
    (titleJa subtitleJa : Option Txt) (course : CourseInfoM) : Option Txt :=
  if (course.display_course.getD []) ≠ [] then course.display_course
  else
    let pathCands := ((parts.dropLast).reverse.map clean_metadata_value).filter
      (fun c => c ≠ [])
    let metaCands := [title, subtitle, titleJa.getD [], subtitleJa.getD []].filter
      (fun v => v ≠ [])
    match find_dan_candidate (pathCands ++ metaCands) [] with
    | some v => some v
    | none =>
      let fallback := if course.raw_name ≠ [] then clean_metadata_value course.raw_name
                      else []
      if fallback ≠ [] then some fallback
      else if course.normalised ≠ [] then some (clean_metadata_value course.normalised)
      else none

/-- Model of the per-course body of `_build_chart_records` (lines
847-945), split into its successive local updates: `chart_mode` is the
mode fallback, `chart_issues0`-`chart_issues5` are the successive states
of the mutated `issues` list, `chart_valid1`-`chart_valid3` the
successive states of the `valid` flag, and `build_chart_record` the
resulting `ChartRecord`. -/
def chart_mode (course : CourseInfoM) : Txt :=
  if course.mode = [] then tx ("standard") else course.mode

def chart_unk (course : CourseInfoM) : Bool :=
  decide (course.canonical = tx ("Unknown") ∧ chart_mode course = tx ("standard"))

def chart_course_name (coerce : Option Txt) (course : CourseInfoM) : Txt :=
  if chart_unk course then
    (match coerce with | some cc => cc | none => course.canonical)
  else course.canonical

def chart_issues0 (coerce : Option Txt) (course : CourseInfoM) : List Txt :=
  if chart_unk course ∧ coerce.isNone then
    course.issues ++ [tx ("unknown-course")]
  else course.issues

def chart_issues1 (coerce : Option Txt) (course : CourseInfoM) : List Txt :=
  if course.start_blocks = 0 ∨ course.end_blocks = 0 ∨
      course.end_blocks < course.start_blocks then
    chart_issues0 coerce course ++ [tx ("missing-chart-content")]
  else chart_issues0 coerce course

def chart_issues2 (coerce : Option Txt) (course : CourseInfoM) : List Txt :=
  if course.total_notes = 0 ∨ course.hit_notes = 0 then
    chart_issues1 coerce course ++ [tx ("empty-chart")]
  else chart_issues1 coerce course

def chart_issues3 (coerce : Option Txt) (course : CourseInfoM) : List Txt :=
  if course.branch ∧ ¬ ((tx ("N")) ∈ course.branch_sections ∧
      (tx ("E")) ∈ course.branch_sections ∧
      (tx ("M")) ∈ course.branch_sections) then
    chart_issues2 coerce course ++ [tx ("invalid-branch-sections")]
  else chart_issues2 coerce course

def chart_issues4 (coerce : Option Txt) (course : CourseInfoM) : List Txt :=
  if chart_mode course = tx ("standard") ∧ course.stars = none then
    chart_issues3 coerce course ++ [tx ("missing-level")]
  else chart_issues3 coerce course

def chart_issues5 (coerce : Option Txt) (course : CourseInfoM) : List Txt :=
  if chart_mode course = tx ("dojo") ∧ course.segments = [] then
    chart_issues4 coerce course ++ [tx ("dojo_no_segments")]
  else chart_issues4 coerce course

def chart_valid1 (coerce : Option Txt) (course : CourseInfoM) : Bool :=
  if chart_mode course = tx ("standard") then
    decide (chart_course_name coerce course ∈ COURSE_ORDER) &&
    !(decide ((tx ("missing-chart-content")) ∈ chart_issues4 coerce course)) &&
    !(decide ((tx ("unknown-course")) ∈ chart_issues4 coerce course)) &&
    decide (0 < course.total_notes) && decide (0 < course.hit_notes)
  else decide (0 < course.total_notes) && decide (0 < course.hit_notes)

def chart_valid2 (coerce : Option Txt) (course : CourseInfoM) : Bool :=
  if course.branch ∧
      (tx ("invalid-branch-sections")) ∈ chart_issues4 coerce course then false
  else chart_valid1 coerce course

def chart_valid3 (coerce : Option Txt) (course : CourseInfoM) : Bool :=
  if chart_mode course = tx ("dojo") ∧ course.segments = [] then false
  else chart_valid2 coerce course

def build_chart_record (coerce : Option Txt) (parts : List Txt)
    (title subtitle : Txt) (titleJa subtitleJa : Option Txt)
    (course : CourseInfoM) : ChartRecordM :=
  { course := chart_course_name coerce course, raw_course := course.raw_name,
    normalised := course.normalised, level := some (course.stars.getD 0),
    branch := course.branch, valid := chart_valid3 coerce course,
    issues := sortedDedup (chart_issues5 coerce course),
    mode := chart_mode course,
    display_course := if chart_mode course = tx ("dojo") then
      compute_display_course parts title subtitle titleJa subtitleJa course
      else course.display_course,
    segments := course.segments,
    unknown_directives := course.unknown_directives,
    coerced := if chart_unk course then coerce.isSome else false,
    hit_notes := course.hit_notes, total_notes := course.total_notes,
    measures := course.measures,
    first_note_preview := course.first_note_preview }

structure ChartEntry where
  course : Txt
  raw_course : Txt
  mode : Txt
  display_course : Option Txt
  level : Option Int
  branch : Bool
  valid : Bool
  issues : List Txt
  coerced : Bool
  hit_notes : Nat
  total_notes : Nat
  measures : Nat
  first_note_preview : Option Txt
  segments : List SegmentM
  unknown_directives : Nat
  tja_path : Txt
  tja_url : Txt
  updatedAt : Option Nat
deriving DecidableEq

instance : Inhabited ChartEntry :=
  ⟨{ course := [], raw_course := [], mode := [], display_course := none,
     level := none, branch := false, valid := false, issues := [],
     coerced := false, hit_notes := 0, total_notes := 0, measures := 0,
     first_note_preview := none, segments := [], unknown_directives := 0,
     tja_path := [], tja_url := [], updatedAt := none }⟩

/-- Model of the `_dedup_key` closure in `_build_song_document`. -/
def dedup_key (c : ChartRecordM) : Txt × Option Txt :=
  if c.mode ≠ tx ("standard") then
    let label := if (c.display_course.getD []) ≠ [] then c.display_course.getD []
      else if c.raw_course ≠ [] then c.raw_course
      else if c.normalised ≠ [] then c.normalised
      else c.course
    (c.mode ++ ':' :: c.course, some label)
  else if c.course = tx ("Unknown") then
    let raw := if c.raw_course ≠ [] then c.raw_course
      else if c.normalised ≠ [] then c.normalised
      else []
    (c.course, some raw)
  else (c.course, none)

/-- Chart entry as written into the charts payload by
`_build_song_document` (lines 1420-1439). -/
def entry_of_chart (r : TjaImportRecord) (c : ChartRecordM) : ChartEntry :=
  { course := c.course, raw_course := c.raw_course, mode := c.mode,
    display_course := c.display_course, level := c.level, branch := c.branch,
    valid := c.valid, issues := sortedDedup c.issues, coerced := c.coerced,
    hit_notes := c.hit_notes, total_notes := c.total_notes,
    measures := c.measures, first_note_preview := c.first_note_preview,
    segments := c.segments, unknown_directives := c.unknown_directives,
    tja_path := r.relative_path, tja_url := r.tja_url, updatedAt := none }

def lookupAssocD (m : List ((Txt × Option Txt) × ChartEntry))
    (k : Txt × Option Txt) : Option ChartEntry :=
  (m.find? (fun kv => decide (kv.1 = k))).map (·.2)

def updateAssocD (m : List ((Txt × Option Txt) × ChartEntry))
    (k : Txt × Option Txt) (v : ChartEntry) :
    List ((Txt × Option Txt) × ChartEntry) :=
  m.map (fun kv => if kv.1 = k then (k, v) else kv)

def markDup (e : ChartEntry) : ChartEntry :=
  { e with issues := sortedDedup (tx ("duplicate-course") :: e.issues) }

/-- Duplicate-course label recorded on a collision (lines 1445-1449). -/
def dup_label (c : ChartRecordM) : Txt :=
  let base := if c.course = tx ("Unknown") then
      tx ("Unknown:") ++ (if c.raw_course ≠ [] then c.raw_course
        else if c.normalised ≠ [] then c.normalised else [])
    else c.course
  if c.mode ≠ tx ("standard") then
    c.mode ++ ':' :: base ++ ':' ::
      (if (c.display_course.getD []) ≠ [] then c.display_course.getD []
       else if c.raw_course ≠ [] then c.raw_course
       else if c.normalised ≠ [] then c.normalised else [])
  else base

/-- One step of the chart dedup loop of `_build_song_document` (lines
1418-1456): insert the entry, or on a collision mark both entries with
`duplicate-course` and keep the valid one when exactly one is valid. -/
def chart_map_step
    (st : List ((Txt × Option Txt) × ChartEntry) × List Txt)
    (rc : TjaImportRecord × ChartRecordM) :
    List ((Txt × Option Txt) × ChartEntry) × List Txt :=
  let m := st.1
  let dups := st.2
  let r := rc.1
  let c := rc.2
  let entry := entry_of_chart r c
  let k := dedup_key c
  match lookupAssocD m k with
  | none => (m ++ [(k, entry)], dups)
  | some e =>
    let lbl := dup_label c
    let dups2 := if lbl ∈ dups then dups else dups ++ [lbl]
    let newVal := if ¬ e.valid ∧ c.valid then markDup entry else markDup e
    (updateAssocD m k newVal, dups2)

def courseRank (course : Txt) : Nat :=
  (COURSE_ORDER.findIdx? (fun x => decide (x = course))).getD COURSE_ORDER.length

def modeRank (mode : Txt) : Nat := if mode = tx ("standard") then 0 else 1

/-- Model of the `_chart_sort_key` comparator of `_build_song_document`. -/
def chartEntryLe (a b : ChartEntry) : Bool :=
  if modeRank a.mode ≠ modeRank b.mode then decide (modeRank a.mode < modeRank b.mode)
  else if courseRank a.course ≠ courseRank b.course then
    decide (courseRank a.course < courseRank b.course)
  else if a.course ≠ b.course then txtLt a.course b.course
  else txtLe a.tja_path b.tja_path

def chart_score (r : TjaImportRecord) : Nat × Nat × Nat :=
  (r.charts.countP (·.valid), r.charts.length,
   if (r.audio_url.getD []) ≠ [] then 1 else 0)

def scoreLtB (a b : Nat × Nat × Nat) : Bool :=
  decide (a.1 < b.1 ∨ (a.1 = b.1 ∧ (a.2.1 < b.2.1 ∨
    (a.2.1 = b.2.1 ∧ a.2.2 < b.2.2))))

/-- Model of `_select_base_record`: Python `max` keeps the first record
with the maximal score. -/
def select_base_record (r0 : TjaImportRecord) (rs : List TjaImportRecord) :
    TjaImportRecord :=
  rs.foldl (fun best r =>
    if scoreLtB (chart_score best) (chart_score r) then r else best) r0

inductive Val where
  | vNull : Val
  | vStr : Txt → Val
  | vNat : Nat → Val
  | vInt : Int → Val
  | vBool : Bool → Val
  | vStrList : List Txt → Val
  | vCourses : List (Txt × Option (Int × Bool)) → Val
  | vCharts : List ChartEntry → Val
  | vPaths : Txt → Option Txt → Txt → Val
  | vLang : Txt → Val
  | vLocale : List (Txt × Txt × Txt) → Val
  | vTup : Txt → Option Txt → Val
deriving DecidableEq

def vOptStr : Option Txt → Val
  | some t => Val.vStr t
  | none => Val.vNull

/-- Documents are insertion-ordered association lists, as Python dicts
and Mongo documents. -/
abbrev DocM := List (String × Val)

def getField (d : DocM) (k : String) : Option Val :=
  (d.find? (fun kv => decide (kv.1 = k))).map (·.2)

/-- Python dict assignment / Mongo `$set` of one field: replace in place
if present, append otherwise. -/
def setField (d : DocM) (k : String) (v : Val) : DocM :=
  if (d.find? (fun kv => decide (kv.1 = k))).isSome then
    d.map (fun kv => if kv.1 = k then (k, v) else kv)
  else d ++ [(k, v)]

def setFields (d : DocM) (upd : DocM) : DocM :=
  upd.foldl (fun acc kv => setField acc kv.1 kv.2) d

def first_audio_hash (records : List TjaImportRecord) : Option Txt :=
  records.findSome? (fun r => match r.audio_hash with
    | some h => if h ≠ [] then some h else none
    | none => none)

def first_audio_record (records : List TjaImportRecord) :
    Option TjaImportRecord :=
  records.find? (fun r => decide ((r.audio_url.getD []) ≠ []))

/-- The (record, chart) pairs `_build_song_document` iterates over: the
group members sorted by relative path, paired with each of their charts. -/
def group_chart_pairs (records : List TjaImportRecord) :
    List (TjaImportRecord × ChartRecordM) :=
  (sSort (fun a b => txtLe a.relative_path b.relative_path) records).flatMap
    (fun r => r.charts.map (fun c => (r, c)))

/-- The deduplicated chart map and duplicate-course label set of
`_build_song_document`. -/
def group_chart_map (records : List TjaImportRecord) :
    List ((Txt × Option Txt) × ChartEntry) × List Txt :=
  (group_chart_pairs records).foldl chart_map_step ([], [])

/-- The charts payload of `_build_song_document` for a group's members:
the deduplicated chart map's values, sorted by the chart sort key. -/
def group_charts_payload (records : List TjaImportRecord) : List ChartEntry :=
  sSort chartEntryLe ((group_chart_map records).1.map (·.2))

/-- Model of `_build_song_document`.  Note the faithful modelling of the
source's reuse of the local name `key`: inside the chart loop `key` is
rebound to the chart dedup tuple, so the dictionary's `group_key` field
holds the tuple of the last processed chart, not the group key string. -/
def build_song_document (key : Txt) (records : List TjaImportRecord) : DocM :=
  match records with
  | [] => []
  | r0 :: rs =>
    let base := select_base_record r0 rs
    let sortedRecords := sSort (fun a b => txtLe a.relative_path b.relative_path)
      (r0 :: rs)
    let pairs := group_chart_pairs (r0 :: rs)
    let md := group_chart_map (r0 :: rs)
    let chartsPayload := group_charts_payload (r0 :: rs)
    let groupKeyVal : Val := match pairs.getLast? with
      | none => Val.vStr key
      | some rc => Val.vTup (dedup_key rc.2).1 (dedup_key rc.2).2
    let canonicalMap := chartsPayload.foldl (fun acc e =>
      if decide (e.course ∈ COURSE_ORDER) then
        (if (acc.find? (fun kv => decide (kv.1 = e.course))).isSome then
          acc.map (fun kv => if kv.1 = e.course then (kv.1, e) else kv)
         else acc ++ [(e.course, e)])
      else acc) ([] : List (Txt × ChartEntry))
    let coursesDoc : List (Txt × Option (Int × Bool)) :=
      COURSE_LEGACY_PAIRS.map (fun p => (p.2,
        (canonicalMap.find? (fun kv => decide (kv.1 = p.1))).map
          (fun kv => (kv.2.level.getD 0, kv.2.branch))))
    let validChartCount := canonicalMap.countP (fun kv => kv.2.valid)
    let importIssues := sortedDedup ((sortedRecords.flatMap (·.import_issues)) ++
      (if md.2 ≠ [] then [tx ("duplicate_course")] else []))
    let diagnostics := sortedDedup (records.flatMap (·.diagnostics))
    let audioHash := first_audio_hash records
    let audioRec := first_audio_record records
    let audioUrl := audioRec.bind (·.audio_url)
    let musicType := audioRec.bind (·.music_type)
    let combinedHash := md5Text (joinSep '|'
      (sSort txtLe (records.map (·.tja_hash))))
    let combinedFp := md5Text (joinSep '|'
      (sSort txtLe (records.map (·.fingerprint))))
    let titleLangJa := if (base.title_ja.getD []) ≠ [] then base.title_ja.getD []
                       else base.title
    let subtitleLangJa := if (base.subtitle_ja.getD []) ≠ [] then
      base.subtitle_ja.getD [] else base.subtitle
    let enabled := (audioUrl.getD []) ≠ []
    let doc : DocM :=
      [(("title"), Val.vStr base.title),
       (("titleJa"), vOptStr base.title_ja),
       (("title_lang"), Val.vLang titleLangJa),
       (("subtitle"), Val.vStr base.subtitle),
       (("subtitleJa"), vOptStr base.subtitle_ja),
       (("subtitle_lang"), Val.vLang subtitleLangJa),
       (("locale"), Val.vLocale base.locale),
       (("courses"), Val.vCourses coursesDoc),
       (("charts"), Val.vCharts chartsPayload),
       (("import_issues"), Val.vStrList importIssues),
       (("valid_chart_count"), Val.vNat validChartCount),
       (("enabled"), Val.vBool enabled),
       (("category_id"), Val.vNat base.category_id),
       (("type"), Val.vStr (tx ("tja"))),
       (("offset"), Val.vInt base.offset),
       (("skin_id"), Val.vNat 0),
       (("preview"), Val.vInt base.preview),
       (("volume"), Val.vNat 1),
       (("maker_id"), Val.vNat 0),
       (("hash"), Val.vStr combinedHash),
       (("fingerprint"), Val.vStr combinedFp),
       (("order"), Val.vNull),
       (("paths"), Val.vPaths base.tja_url audioUrl base.dir_url),
       (("music_type"), vOptStr musicType),
       (("diagnostics"), Val.vStrList diagnostics),
       (("managed_by_scanner"), Val.vBool true),
       (("titleNormalized"), Val.vStr base.normalized_title),
       (("group_key"), groupKeyVal),
       (("genre"), vOptStr base.genre)]
    match audioHash with
    | some h => doc ++ [(("audioHash"), Val.vStr h)]
    | none => doc

def excluded_base_keys : List String := [("id"), ("order"), ("_id"), ("charts")]

/-- The base document written by `_upsert_song_document` (lines
1188-1191): the built document without `id`, `order`, `_id`, `charts`,
with `group_key` forced to the group key string. -/
def mkBaseDocument (doc : DocM) (key : Txt) : DocM :=
  setField (doc.filter (fun kv => decide (kv.1 ∉ excluded_base_keys)))
    ("group_key") (Val.vStr key)

/-- The `$setOnInsert` document (lines 1193-1194). -/
def mkInsertDocument (doc : DocM) (key : Txt) : DocM :=
  setField (mkBaseDocument doc key) ("charts") (Val.vCharts [])

structure StateRowM where
  tja_path : Txt
  tja_hash : Option Txt
  tja_mtime_ns : Option Nat
  tja_size : Option Nat
  audio_path : Option Txt
  audio_hash : Option Txt
  audio_mtime_ns : Option Nat
  audio_size : Option Nat
  song_id : Option Nat
  group_key : Option Txt
  fingerprint : Option Txt
  record : Option TjaImportRecord
deriving DecidableEq

/-- A `.tja` file on disk, abstracted to its stat signature together
with the import record that parsing it produces (parsing is a
deterministic function of the bytes, so the record stands for them). -/
structure FsFile where
  path : Txt
  mtimeNs : Nat
  size : Nat
  record : TjaImportRecord
deriving DecidableEq

/-- The filesystem: the `.tja` files plus the stat signatures of audio
files, looked up by the incremental-skip check. -/
structure FSModel where
  files : List FsFile
  audioFiles : List (Txt × Nat × Nat)
deriving DecidableEq

structure Summary where
  found : Nat
  inserted : Nat
  updated : Nat
  disabled : Nat
  errors : Nat
  skipped : Nat
deriving DecidableEq

/-- In-process scanner state surviving between passes (`_next_song_id`,
`_max_song_id`). -/
structure ScannerSt where
  nextSongId : Option Nat
  maxSongId : Nat
deriving DecidableEq

structure DBState where
  songs : List DocM
  states : List StateRowM
  seqVal : Nat
deriving DecidableEq

def lookupAudioStat (audioFiles : List (Txt × Nat × Nat)) (p : Txt) :
    Option (Nat × Nat) :=
  (audioFiles.find? (fun a => decide (a.1 = p))).map (·.2)

/-- The needs-processing decision of `_scan_impl` (lines 1776-1794):
a file is clean only when not in a full pass, its state row exists, the
tja signatures match, a stored audio path exists on disk and the audio
signatures match. -/
def file_needs_processing (full : Bool) (stateDoc : Option StateRowM)
    (tjaMtimeNs tjaSize : Nat) (audioFiles : List (Txt × Nat × Nat)) : Bool :=
  match stateDoc with
  | none => true
  | some sd =>
    if full then true
    else if sd.tja_mtime_ns ≠ some tjaMtimeNs ∨ sd.tja_size ≠ some tjaSize then
      true
    else
      match sd.audio_path with
      | some p =>
        if p = [] then true
        else
          match lookupAudioStat audioFiles p with
          | some stat =>
            decide (sd.audio_mtime_ns ≠ some stat.1) ||
              decide (sd.audio_size ≠ some stat.2)
          | none => true
      | none => true

structure FileOutcome where
  record : TjaImportRecord
  wasDirty : Bool
  skippedInc : Nat
  tjaHashOut : Txt
  fingerprintOut : Txt
deriving DecidableEq

/-- Per-file processing of `_scan_impl` (lines 1776-1874): reuse the
stored snapshot for clean files (counting `skipped`), otherwise
reprocess.  `wasDirty` is the source's `was_dirty` captured at line
1800, before a failed snapshot decode can flip `needs_processing`. -/
def process_file (full : Bool) (audioFiles : List (Txt × Nat × Nat))
    (stateDoc : Option StateRowM) (f : FsFile) : FileOutcome :=
  let needs := file_needs_processing full stateDoc f.mtimeNs f.size audioFiles
  if needs then
    { record := f.record, wasDirty := true, skippedInc := 0,
      tjaHashOut := f.record.tja_hash,
      fingerprintOut := f.record.fingerprint }
  else
    match stateDoc with
    | some sd =>
      match sd.record with
      | some rec =>
        { record := rec, wasDirty := false, skippedInc := 1,
          tjaHashOut := (match sd.tja_hash with
            | some h => if h ≠ [] then h else rec.tja_hash
            | none => rec.tja_hash),
          fingerprintOut := (match sd.fingerprint with
            | some fp => if fp ≠ [] then fp else rec.fingerprint
            | none => rec.fingerprint) }
      | none =>
        { record := f.record, wasDirty := false, skippedInc := 0,
          tjaHashOut := f.record.tja_hash,
          fingerprintOut := f.record.fingerprint }
    | none =>
      { record := f.record, wasDirty := true, skippedInc := 0,
        tjaHashOut := f.record.tja_hash,
        fingerprintOut := f.record.fingerprint }

def stampChart (now : Nat) (c : ChartEntry) : ChartEntry :=
  { c with updatedAt := some now }

/-- Array filter of the per-chart update in `_sync_song_charts`. -/
def chartMatchFilter (c e : ChartEntry) : Bool :=
  decide (e.course = c.course) &&
    (if c.course = tx ("Unknown") then decide (e.raw_course = c.raw_course)
     else true)

/-- One chart of the `_sync_song_charts` loop: positional update of the
filter-matching elements, then `$addToSet`. -/
def sync_chart_step (now : Nat) (cs : List ChartEntry) (c : ChartEntry) :
    List ChartEntry :=
  let cd := stampChart now c
  let cs1 := cs.map (fun e => if chartMatchFilter c e then cd else e)
  if cd ∈ cs1 then cs1 else cs1 ++ [cd]

/-- Model of `_sync_song_charts` as a function on the charts array. -/
def sync_song_charts (now : Nat) (cs : List ChartEntry)
    (payload : List ChartEntry) : List ChartEntry :=
  if payload = [] then []
  else
    let afterLoop := payload.foldl (sync_chart_step now) cs
    let desired := payload.map (·.course)
    let unknownRaws := (payload.filter
      (fun c => decide (c.course = tx ("Unknown")))).map (·.raw_course)
    let afterPull := afterLoop.filter (fun e =>
      (desired.find? (fun c => decide (c = e.course))).isSome)
    if unknownRaws ≠ [] then
      afterPull.filter (fun e =>
        !(decide (e.course = tx ("Unknown")) &&
          (unknownRaws.find? (fun c => decide (c = e.raw_course))).isNone))
    else afterPull

inductive RowFilter where
  | byKey : Txt → RowFilter
  | byIdVal : Val → RowFilter
deriving DecidableEq

def rowMatches (f : RowFilter) (d : DocM) : Bool :=
  match f with
  | RowFilter.byKey k => decide (getField d ("group_key") = some (Val.vStr k))
  | RowFilter.byIdVal v => decide (getField d ("id") = some v)

/-- Mongo `update_one`: rewrite the first matching document. -/
def updateFirstRow (p : DocM → Bool) (g : DocM → DocM) : List DocM → List DocM
  | [] => []
  | d :: t => if p d then g d :: t else d :: updateFirstRow p g t

def ensure_sequence (st : ScannerSt) (db : DBState) : ScannerSt :=
  match st.nextSongId with
  | some _ => st
  | none =>
    let maxId := db.songs.foldl (fun acc d => match getField d ("id") with
      | some (Val.vNat n) => max acc n
      | _ => acc) 0
    let current := max db.seqVal maxId
    { nextSongId := some (current + 1), maxSongId := current }

def get_next_song_id (st : ScannerSt) (db : DBState) : Nat × ScannerSt :=
  let st1 := ensure_sequence st db
  match st1.nextSongId with
  | some n => (n, { nextSongId := some (n + 1), maxSongId := max st1.maxSongId n })
  | none => (0, st1)

structure UpsertResult where
  songId : Option Nat
  summary : Summary
  db : DBState
  st : ScannerSt
deriving DecidableEq

def idOrderFields (n : Nat) : DocM :=
  [(("id"), Val.vNat n), (("order"), Val.vNat n)]

/-- Model of `_upsert_song_document`.  The duplicate-key retry loop and
driver failures are not modelled (the model database cannot conflict);
the atomic find-or-insert, id assignment, conditional refresh and chart
sync follow the source.  Model rows carry no `_id`, so the row filter
falls back from `_id` to `id` or to the group key exactly as the source
does when `_id` is absent. -/
def upsert_song_document (st : ScannerSt) (db : DBState) (summary : Summary)
    (key : Txt) (document : DocM) (chartsPayload : List ChartEntry)
    (dirtyGroups : List Txt) (now : Nat) : UpsertResult :=
  if key = [] then
    { songId := none,
      summary := { summary with errors := summary.errors + 1 },
      db := db, st := st }
  else
    let baseDocument := mkBaseDocument document key
    let insertDocument := setField baseDocument ("charts") (Val.vCharts [])
    let found := db.songs.find? (rowMatches (RowFilter.byKey key))
    let songs1 := match found with
      | some _ => db.songs
      | none => db.songs ++ [insertDocument]
    let db1 : DBState := { db with songs := songs1 }
    let resultDoc := match found with
      | some d => d
      | none => insertDocument
    let songFilter : RowFilter := match getField resultDoc ("id") with
      | some Val.vNull => RowFilter.byKey key
      | none => RowFilter.byKey key
      | some v => RowFilter.byIdVal v
    let existingId : Option Nat := match getField resultDoc ("id") with
      | some (Val.vNat n) => some n
      | _ => none
    let inserted := existingId.isNone
    let pair := get_next_song_id st db1
    let songId := if inserted then some pair.1 else existingId
    let st1 := if inserted then pair.2 else st
    let songs2 := if inserted then
        updateFirstRow (rowMatches songFilter)
          (fun d => setFields d (idOrderFields pair.1)) songs1
      else songs1
    let summary1 := if inserted then
      { summary with inserted := summary.inserted + 1 } else summary
    let needsRefresh := inserted ∨ key ∈ dirtyGroups
    if needsRefresh then
      let songs3 := updateFirstRow (rowMatches songFilter)
        (fun d => setFields d baseDocument) songs2
      let summary2 := if key ∈ dirtyGroups ∧ ¬ inserted then
        { summary1 with updated := summary1.updated + 1 } else summary1
      let songs4 := updateFirstRow (rowMatches songFilter)
        (fun d => setField d ("charts") (Val.vCharts
          (sync_song_charts now
            (match getField d ("charts") with
             | some (Val.vCharts l) => l
             | _ => []) chartsPayload))) songs3
      { songId := songId, summary := summary2,
        db := { db1 with songs := songs4 }, st := st1 }
    else
      { songId := songId, summary := summary1,
        db := { db1 with songs := songs2 }, st := st1 }

structure RecordMetaM where
  tja_hash : Txt
  tja_mtime_ns : Nat
  tja_size : Nat
  audio_hash : Option Txt
  audio_mtime_ns : Option Nat
  audio_size : Option Nat
  fingerprint : Txt
deriving DecidableEq

structure ScanAccum where
  summary : Summary
  aggregated : List (Txt × List TjaImportRecord)
  recordsByPath : List (Txt × TjaImportRecord)
  recordMeta : List (Txt × RecordMetaM)
  dirtyGroups : List Txt
  seenStatePaths : List Txt
deriving DecidableEq

def appendAggregated (agg : List (Txt × List TjaImportRecord)) (k : Txt)
    (r : TjaImportRecord) : List (Txt × List TjaImportRecord) :=
  if (agg.find? (fun kv => decide (kv.1 = k))).isSome then
    agg.map (fun kv => if kv.1 = k then (kv.1, kv.2 ++ [r]) else kv)
  else agg ++ [(k, [r])]

def updateOrAppendRec (m : List (Txt × TjaImportRecord)) (p : Txt)
    (r : TjaImportRecord) : List (Txt × TjaImportRecord) :=
  if (m.find? (fun kv => decide (kv.1 = p))).isSome then
    m.map (fun kv => if kv.1 = p then (p, r) else kv)
  else m ++ [(p, r)]

def updateOrAppendMeta (m : List (Txt × RecordMetaM)) (p : Txt)
    (v : RecordMetaM) : List (Txt × RecordMetaM) :=
  if (m.find? (fun kv => decide (kv.1 = p))).isSome then
    m.map (fun kv => if kv.1 = p then (p, v) else kv)
  else m ++ [(p, v)]

def updateOrAppendNB (m : List (Nat × Bool)) (k : Nat) (v : Bool) :
    List (Nat × Bool) :=
  if (m.find? (fun kv => decide (kv.1 = k))).isSome then
    m.map (fun kv => if kv.1 = k then (k, v) else kv)
  else m ++ [(k, v)]

/-- One file of the walk loop of `_scan_impl` (lines 1753-1899). -/
def scan_file_step (full : Bool) (fs : FSModel) (stateDocs : List StateRowM)
    (acc : ScanAccum) (f : FsFile) : ScanAccum :=
  let summary1 := { acc.summary with found := acc.summary.found + 1 }
  let stateDoc := stateDocs.find? (fun s => decide (s.tja_path = f.path))
  let outcome := process_file full fs.audioFiles stateDoc f
  let summary2 := { summary1 with
    skipped := summary1.skipped + outcome.skippedInc }
  let key := compute_group_key outcome.record
  let meta : RecordMetaM :=
    { tja_hash := outcome.tjaHashOut, tja_mtime_ns := f.mtimeNs,
      tja_size := f.size, audio_hash := outcome.record.audio_hash,
      audio_mtime_ns := outcome.record.audio_mtime_ns,
      audio_size := outcome.record.audio_size,
      fingerprint := outcome.fingerprintOut }
  { summary := summary2,
    aggregated := appendAggregated acc.aggregated key outcome.record,
    recordsByPath := updateOrAppendRec acc.recordsByPath f.path outcome.record,
    recordMeta := updateOrAppendMeta acc.recordMeta f.path meta,
    dirtyGroups := if outcome.wasDirty ∧ key ∉ acc.dirtyGroups then
      acc.dirtyGroups ++ [key] else acc.dirtyGroups,
    seenStatePaths := acc.seenStatePaths ++ [f.path] }

def emptyScanAccum : ScanAccum :=
  { summary := ⟨0, 0, 0, 0, 0, 0⟩, aggregated := [], recordsByPath := [],
    recordMeta := [], dirtyGroups := [], seenStatePaths := [] }

/-- File-collection phase of `_scan_impl` over the sorted file list. -/
def scan_files (full : Bool) (fs : FSModel) (stateDocs : List StateRowM) :
    ScanAccum :=
  (sSort (fun a b => txtLe a.path b.path) fs.files).foldl
    (scan_file_step full fs stateDocs) emptyScanAccum

structure UpsertLoopSt where
  summary : Summary
  db : DBState
  st : ScannerSt
  songIdByKey : List (Txt × Nat)
  seenSongIds : List Nat
deriving DecidableEq

/-- One group of the upsert loop of `_scan_impl` (lines 1901-1916). -/
def scan_upsert_step (acc : ScanAccum) (now : Nat) (u : UpsertLoopSt)
    (key : Txt) : UpsertLoopSt :=
  let records := ((acc.aggregated.find?
    (fun kv => decide (kv.1 = key))).map (·.2)).getD []
  let document := build_song_document key records
  let chartsPayload := match getField document ("charts") with
    | some (Val.vCharts l) => l
    | _ => []
  let res := upsert_song_document u.st u.db u.summary key document
    chartsPayload acc.dirtyGroups now
  match res.songId with
  | some sid =>
    { summary := res.summary, db := res.db, st := res.st,
      songIdByKey := u.songIdByKey ++ [(key, sid)],
      seenSongIds := if sid ∈ u.seenSongIds then u.seenSongIds
        else u.seenSongIds ++ [sid] }
  | none =>
    { u with summary := res.summary, db := res.db, st := res.st }

/-- Upsert phase of `_scan_impl`: groups in sorted key order. -/
def scan_upserts (st : ScannerSt) (db0 : DBState) (acc : ScanAccum)
    (now : Nat) : UpsertLoopSt :=
  (sSort txtLe (acc.aggregated.map (·.1))).foldl (scan_upsert_step acc now)
    { summary := acc.summary, db := db0, st := st, songIdByKey := [],
      seenSongIds := [] }

/-- State-row write for one processed file (lines 1918-1948). -/
def scan_state_step (acc : ScanAccum) (u : UpsertLoopSt)
    (sts : List StateRowM) (pr : Txt × TjaImportRecord) : List StateRowM :=
  let key := compute_group_key pr.2
  match (u.songIdByKey.find? (fun kv => decide (kv.1 = key))).map (·.2) with
  | none => sts
  | some sid =>
    let meta := (acc.recordMeta.find?
      (fun kv => decide (kv.1 = pr.1))).map (·.2)
    let payload : StateRowM :=
      { tja_path := pr.1, tja_hash := meta.map (·.tja_hash),
        tja_mtime_ns := meta.map (·.tja_mtime_ns),
        tja_size := meta.map (·.tja_size),
        audio_path := pr.2.audio_path,
        audio_hash := meta.bind (·.audio_hash),
        audio_mtime_ns := meta.bind (·.audio_mtime_ns),
        audio_size := meta.bind (·.audio_size),
        song_id := some sid, group_key := some key,
        fingerprint := meta.map (·.fingerprint), record := some pr.2 }
    if (sts.find? (fun s => decide (s.tja_path = pr.1))).isSome then
      sts.map (fun s => if s.tja_path = pr.1 then payload else s)
    else sts ++ [payload]

/-- Tombstoning of one missing managed id (lines 1972-1977). -/
def scan_disable_step (managed : List (Nat × Bool))
    (p : Summary × List DocM) (mid : Nat) : Summary × List DocM :=
  let songs2 := updateFirstRow (rowMatches (RowFilter.byIdVal (Val.vNat mid)))
    (fun d => setField d ("enabled") (Val.vBool false)) p.2
  let prevEnabled := ((managed.find?
    (fun kv => decide (kv.1 = mid))).map (·.2)).getD true
  (if prevEnabled then { p.1 with disabled := p.1.disabled + 1 } else p.1,
    songs2)

def boolOfEnabledVal : Option Val → Bool
  | some (Val.vBool b) => b
  | some Val.vNull => false
  | none => true
  | some _ => true

def managedOfSongs (songs : List DocM) : List (Nat × Bool) :=
  songs.foldl (fun acc d =>
    if getField d ("managed_by_scanner") = some (Val.vBool true) then
      match getField d ("id") with
      | some (Val.vNat n) =>
        updateOrAppendNB acc n (boolOfEnabledVal (getField d ("enabled")))
      | _ => acc
    else acc) []

/-- Model of `_scan_impl`.  Not modelled (irrelevant to the claims and
to the songs collection): the `categories` collection, metrics,
logging, hard-error paths (the model is total) and `duration_seconds`.
`now` is the clock read when stamping charts. -/
def scan_impl (st : ScannerSt) (full : Bool) (now : Nat) (fs : FSModel)
    (db : DBState) : Summary × DBState × ScannerSt :=
  let songs0 := db.songs.filter (fun d => match getField d ("group_key") with
    | some (Val.vStr _) => true
    | _ => false)
  let db0 : DBState := { db with songs := songs0 }
  let managed := managedOfSongs db0.songs
  let stateDocs := db0.states
  let acc := scan_files full fs stateDocs
  let u := scan_upserts st db0 acc now
  let statesAfter := acc.recordsByPath.foldl (scan_state_step acc u)
    u.db.states
  let seqVal1 := if 0 < u.st.maxSongId then u.st.maxSongId else u.db.seqVal
  let oldPaths : List Txt := stateDocs.map (·.tja_path)
  let statesPruned := statesAfter.filter (fun s =>
    !(decide (s.tja_path ∈ oldPaths) &&
      decide (s.tja_path ∉ acc.seenStatePaths)))
  let missingIds := (managed.filter
    (fun kv => decide (kv.1 ∉ u.seenSongIds))).map (·.1)
  let missingSorted := sSort (fun a b => decide (a ≤ b)) missingIds
  let final := missingSorted.foldl (scan_disable_step managed)
    (u.summary, u.db.songs)
  (final.1,
   { songs := final.2, states := statesPruned, seqVal := seqVal1 },
   u.st)

def emptySummary : Summary := ⟨0, 0, 0, 0, 0, 0⟩

def emptyDB : DBState := { songs := [], states := [], seqVal := 0 }

def freshScanner : ScannerSt := { nextSongId := none, maxSongId := 0 }

/-- Strip `updatedAt` stamps from a charts value, for comparing catalog
rows modulo timestamps. -/
def stripChartsVal : Val → Val
  | Val.vCharts l => Val.vCharts (l.map (fun e => { e with updatedAt := none }))
  | v => v

def stripDocTimes (d : DocM) : DocM :=
  d.map (fun kv => (kv.1, stripChartsVal kv.2))

/-- Concrete sample chart used by witnesses: the Oni chart of spec
scenario S1. -/
def sampleChart : ChartRecordM :=
  { course := tx ("Oni"), raw_course := tx ("Oni"), normalised := tx ("ONI"),
    level := some 7, branch := false, valid := true, issues := [],
    mode := tx ("standard"), display_course := none, segments := [],
    unknown_directives := 0, coerced := false, hit_notes := 1,
    total_notes := 2, measures := 2, first_note_preview := some (tx ("1,0")) }

/-- Concrete sample import record used by witnesses (scenario S1). -/
def sampleRecord : TjaImportRecord :=
  { relative_path := tx ("Pack/oni.tja"), relative_dir := tx ("Pack"),
    tja_url := tx ("/songs/Pack/oni.tja"), dir_url := tx ("/songs/Pack/"),
    audio_url := some (tx ("/songs/Pack/song.ogg")),
    audio_path := some (tx ("Pack/song.ogg")),
    audio_hash := some (tx ("abcd1234")), audio_mtime_ns := some 1,
    audio_size := some 5, music_type := some (tx ("ogg")), diagnostics := [],
    title := tx ("Merge"), title_ja := none, subtitle := tx ("Unknown"),
    subtitle_ja := none, locale := [], offset := 0, preview := 0,
    fingerprint := tx ("fp"), tja_hash := tx ("hh"),
    wave := some (tx ("song.ogg")), song_id := none, genre := some (tx ("Pack")),
    category_id := 0, category_title := tx ("Unsorted"), charts := [sampleChart],
    import_issues := [], normalized_title := tx ("merge") }

def sampleFile : FsFile := FsFile.mk (tx ("Pack/oni.tja")) 100 10 sampleRecord

def sampleFs : FSModel :=
  { files := [sampleFile], audioFiles := [(tx ("Pack/song.ogg"), 1, 5)] }

/-- Sample state row whose signatures match `sampleFile` but which
stores no audio path. -/
def sampleStateNoAudio : StateRowM :=
  { tja_path := tx ("Pack/oni.tja"), tja_hash := some (tx ("hh")),
    tja_mtime_ns := some 100, tja_size := some 10, audio_path := none,
    audio_hash := none, audio_mtime_ns := none, audio_size := none,
    song_id := some 1, group_key := some (tx ("k")),
    fingerprint := some (tx ("fp")), record := some sampleRecord }

/-- Sample record with no directory URL, so the folder token comes from
`relative_dir`; base for the C2 records. -/
def nbspRecordA : TjaImportRecord :=
  { sampleRecord with dir_url := [] }

/-- The same record with a no-break space (U+00A0) inserted inside the
folder name `Pack`. -/
def nbspRecordB : TjaImportRecord :=
  { sampleRecord with
    dir_url := []
    relative_dir := ('P' :: 'a' :: Char.ofNat 160 :: 'c' :: 'k' :: []) }

/-- Pointwise relation for the C2 substitution variant: the variant
character is either identical or a no-break space standing for a plain
space. -/
def nbspRel (c c2 : Char) : Prop := c2 = c ∨ (c = ' ' ∧ c2.toNat = 160)

/-- Insertion relation for the C2 zero-width variant: `zwIns s s2` holds
when `s2` is `s` with zero-width characters inserted at arbitrary
positions. -/
inductive zwIns : Txt → Txt → Prop
  | nil : zwIns [] []
  | keep (c : Char) (s s2 : Txt) : zwIns s s2 → zwIns (c :: s) (c :: s2)
  | ins (z : Char) (s s2 : Txt) : isZeroWidthC z = true → zwIns s s2 →
      zwIns s (z :: s2)

/-- Forward or backward slash (the separators unified by
`_normalise_group_text`). -/
def isSlashishC (c : Char) : Bool := decide (c = '/' ∨ c = '\\')

/-- Characters that must not sit at the edges of a folder text for the
strip stages of `_normalise_group_text` to leave it alone. -/
def isEdgeBadC (c : Char) : Bool :=
  isPyWsC c || decide (c = '/') || decide (c = '\\')

/-- No two adjacent characters of the list both satisfy `p`. -/
def noAdjPair (p : Char → Bool) : Txt → Bool
  | [] => true
  | [_] => true
  | a :: b :: t => (!(p a && p b)) && noAdjPair p (b :: t)

/-- First full scan over the sample filesystem from an empty database. -/
def c1Run1 : Summary × DBState × ScannerSt :=
  scan_impl freshScanner true 100 sampleFs emptyDB

/-- Second full scan over the unchanged sample filesystem. -/
def c1Run2 : Summary × DBState × ScannerSt :=
  scan_impl c1Run1.2.2 true 200 sampleFs c1Run1.2.1

/-- The catalog row created by the first sample scan, fetched by group
key. -/
def c1Row : DocM :=
  ((c1Run1.2.1).songs.find? (rowMatches
    (RowFilter.byKey (compute_group_key sampleRecord)))).getD []

/-- Lowercase hexadecimal digit, the alphabet of `hexdigest()`. -/
def isLowerHexC (c : Char) : Bool :=
  decide ((48 ≤ c.toNat ∧ c.toNat ≤ 57) ∨ (97 ≤ c.toNat ∧ c.toNat ≤ 102))

/-- Record in top-level folder `PACK`, distinct on disk from `Pack` but
casefolding to the same folder token; shares `sampleRecord`'s audio
hash. -/
def casedFolderRecord : TjaImportRecord :=
  { sampleRecord with
    relative_path := tx ("PACK/easy.tja"), relative_dir := tx ("PACK"),
    tja_url := tx ("/songs/PACK/easy.tja"), dir_url := tx ("/songs/PACK/") }

/-- Record in top-level folder `Other`, used to witness distinct folder
tokens. -/
def otherFolderRecord : TjaImportRecord :=
  { sampleRecord with
    relative_path := tx ("Other/oni.tja"), relative_dir := tx ("Other"),
    tja_url := tx ("/songs/Other/oni.tja"), dir_url := tx ("/songs/Other/") }

/-- A dojo course with branching but no branch sections: reachable from a
TJA file with `COURSE:Dan` containing `#BRANCHSTART` but no `#N`/`#E`/`#M`
section markers. -/
def dojoBranchCourse : CourseInfoM :=
  { canonical := tx ("Dan"), raw_name := tx ("Dan"), normalised := tx ("DAN"),
    mode := tx ("dojo"), display_course := none,
    segments := [{ audio := none, start_measure := 0, end_measure := some 2,
                   bpm_map := [], gogo_ranges := [] }],
    unknown_directives := 0, stars := some 1, branch := true,
    branch_sections := [], start_blocks := 1, end_blocks := 1, issues := [],
    hit_notes := 6, total_notes := 8, measures := 2,
    first_note_preview := none }

/-- The dedup key of a chart entry, recomputed from the fields the entry
copied out of its `ChartRecord`.  The entry does not store `normalised`,
so the label chain stops at `raw_course`; it agrees with `dedup_key`
whenever the chart satisfies `raw_course = [] -> normalised = []`, which
holds for every course the parser emits, and it is unchanged by
`markDup`. -/
def entry_dedup_key (e : ChartEntry) : Txt × Option Txt :=
  if e.mode ≠ tx ("standard") then
    let label := if (e.display_course.getD []) ≠ [] then e.display_course.getD []
      else if e.raw_course ≠ [] then e.raw_course
      else e.course
    (e.mode ++ ':' :: e.course, some label)
  else if e.course = tx ("Unknown") then (e.course, some e.raw_course)
  else (e.course, none)

theorem getField_cons (kv : String × Val) (d : DocM) (k : String) :
    getField (kv :: d) k = if kv.1 = k then some kv.2 else getField d k := by
  by_cases h : kv.1 = k <;> simp [getField, List.find?, h]

theorem getField_append_left (d d2 : DocM) (k : String) (v : Val)
    (h : getField d k = some v) : getField (d ++ d2) k = some v := by
  induction d with
  | nil => simp [getField] at h
  | cons kv t ih =>
    rw [List.cons_append, getField_cons]
    rw [getField_cons] at h
    by_cases hk : kv.1 = k
    · simpa [hk] using h
    · rw [if_neg hk] at h ⊢
      exact ih h

theorem getField_map_set_self (d : DocM) (k : String) (v : Val)
    (hf : ∃ kv ∈ d, kv.1 = k) :
    getField (d.map (fun kv => if kv.1 = k then (k, v) else kv)) k = some v := by
  induction d with
  | nil => simp at hf
  | cons kv t ih =>
    rw [List.map_cons, getField_cons]
    by_cases h : kv.1 = k
    · simp [h]
    · simp only [if_neg h]
      rcases hf with ⟨x, hx, hxk⟩
      rcases List.mem_cons.mp hx with rfl | hx2
      · exact absurd hxk h
      · exact ih ⟨x, hx2, hxk⟩

theorem getField_map_set_ne (d : DocM) (k k' : String) (v : Val)
    (h : k' ≠ k) :
    getField (d.map (fun kv => if kv.1 = k then (k, v) else kv)) k' =
      getField d k' := by
  induction d with
  | nil => simp
  | cons kv t ih =>
    rw [List.map_cons, getField_cons, getField_cons]
    by_cases hk : kv.1 = k
    · simp only [if_pos hk]
      have hne : ¬ (k = k') := fun hh => h hh.symm
      have hne2 : ¬ (kv.1 = k') := by rw [hk]; exact hne
      simp only [if_neg hne, if_neg hne2]
      exact ih
    · simp only [if_neg hk]
      by_cases hk' : kv.1 = k'
      · simp [hk']
      · simp only [if_neg hk']
        exact ih

theorem getField_append_ne (d : DocM) (k k' : String) (v : Val)
    (h : k' ≠ k) : getField (d ++ [(k, v)]) k' = getField d k' := by
  induction d with
  | nil => simp [getField_cons, getField, List.find?, Ne.symm h]
  | cons kv t ih =>
    rw [List.cons_append, getField_cons, getField_cons]
    by_cases hk' : kv.1 = k'
    · simp [hk']
    · simp only [if_neg hk']
      exact ih

theorem getField_none_of_no_key (d : DocM) (k : String)
    (h : ∀ kv ∈ d, kv.1 ≠ k) : getField d k = none := by
  induction d with
  | nil => rfl
  | cons kv t ih =>
    rw [getField_cons, if_neg (h kv (List.mem_cons_self kv t))]
    exact ih (fun x hx => h x (List.mem_cons_of_mem kv hx))

theorem find_isSome_iff_key (d : DocM) (k : String) :
    (d.find? (fun kv => decide (kv.1 = k))).isSome = true ↔
      ∃ kv ∈ d, kv.1 = k := by
  rw [List.find?_isSome]
  constructor
  · rintro ⟨x, hx, hp⟩
    exact ⟨x, hx, of_decide_eq_true hp⟩
  · rintro ⟨x, hx, hp⟩
    exact ⟨x, hx, decide_eq_true hp⟩

theorem getField_append_self_of_no_key (d : DocM) (k : String) (v : Val)
    (h : ∀ kv ∈ d, kv.1 ≠ k) : getField (d ++ [(k, v)]) k = some v := by
  induction d with
  | nil => simp [getField_cons]
  | cons kv t ih =>
    rw [List.cons_append, getField_cons,
      if_neg (h kv (List.mem_cons_self kv t))]
    exact ih (fun x hx => h x (List.mem_cons_of_mem kv hx))

theorem getField_setField_self (d : DocM) (k : String) (v : Val) :
    getField (setField d k v) k = some v := by
  unfold setField
  by_cases hf : (d.find? (fun kv => decide (kv.1 = k))).isSome
  · rw [if_pos hf]
    exact getField_map_set_self d k v ((find_isSome_iff_key d k).mp hf)
  · rw [if_neg hf]
    have hno : ∀ kv ∈ d, kv.1 ≠ k := by
      intro kv hkv heq
      exact hf ((find_isSome_iff_key d k).mpr ⟨kv, hkv, heq⟩)
    exact getField_append_self_of_no_key d k v hno

theorem getField_setField_ne (d : DocM) (k k' : String) (v : Val)
    (h : k' ≠ k) : getField (setField d k v) k' = getField d k' := by
  unfold setField
  by_cases hf : (d.find? (fun kv => decide (kv.1 = k))).isSome
  · rw [if_pos hf]
    exact getField_map_set_ne d k k' v h
  · rw [if_neg hf]
    exact getField_append_ne d k k' v h

theorem getField_setFields_not_mem (row upd : DocM) (k : String)
    (h : ∀ kv ∈ upd, kv.1 ≠ k) :
    getField (setFields row upd) k = getField row k := by
  induction upd generalizing row with
  | nil => rfl
  | cons kv t ih =>
    show getField (setFields (setField row kv.1 kv.2) t) k = _
    rw [ih (setField row kv.1 kv.2) (fun x hx => h x (List.mem_cons_of_mem kv hx))]
    exact getField_setField_ne row kv.1 k kv.2
      (fun hc => h kv (List.mem_cons_self kv t) hc.symm)

theorem mem_setField (d : DocM) (k : String) (v : Val) (kv : String × Val)
    (h : kv ∈ setField d k v) : kv = (k, v) ∨ kv ∈ d := by
  unfold setField at h
  by_cases hf : (d.find? (fun x => decide (x.1 = k))).isSome
  · rw [if_pos hf] at h
    rcases List.mem_map.mp h with ⟨x, hx, hfx⟩
    by_cases hk : x.1 = k
    · left; rw [← hfx, if_pos hk]
    · right; rw [← hfx, if_neg hk]; exact hx
  · rw [if_neg hf] at h
    rcases List.mem_append.mp h with hx | hx
    · right; exact hx
    · left; simpa using hx

theorem map_set_id_of_no_key (d : DocM) (k : String) (v : Val)
    (h : ∀ x ∈ d, x.1 ≠ k) :
    d.map (fun kv => if kv.1 = k then (k, v) else kv) = d := by
  induction d with
  | nil => rfl
  | cons kv t ih =>
    rw [List.map_cons, if_neg (h kv (List.mem_cons_self kv t))]
    rw [ih (fun x hx => h x (List.mem_cons_of_mem kv hx))]

theorem setField_self (d : DocM) (k : String) (v : Val)
    (hnd : (d.map Prod.fst).Nodup) (h : getField d k = some v) :
    setField d k v = d := by
  have hf : (d.find? (fun kv => decide (kv.1 = k))).isSome := by
    unfold getField at h
    cases hfind : d.find? (fun kv => decide (kv.1 = k)) with
    | none => rw [hfind] at h; simp at h
    | some x => simp [hfind]
  unfold setField
  rw [if_pos hf]
  clear hf
  induction d with
  | nil => rfl
  | cons kv t ih =>
    rw [getField_cons] at h
    rw [List.map_cons]
    rw [List.map_cons, List.nodup_cons] at hnd
    by_cases hk : kv.1 = k
    · rw [if_pos hk] at h
      have hkv : (if kv.1 = k then (k, v) else kv) = kv := by
        rw [if_pos hk]
        cases kv with
        | mk a b =>
          simp only at hk
          simp only [Option.some.injEq] at h
          rw [hk, h]
      rw [hkv]
      have hno : ∀ x ∈ t, x.1 ≠ k := by
        intro x hx hc
        apply hnd.1
        rw [hk, ← hc]
        exact List.mem_map.mpr ⟨x, hx, rfl⟩
      rw [map_set_id_of_no_key t k v hno]
    · rw [if_neg hk] at h
      rw [if_neg hk, ih hnd.2 h]

theorem setFields_self (d : DocM) (upd : DocM)
    (hnd : (d.map Prod.fst).Nodup)
    (h : ∀ kv ∈ upd, getField d kv.1 = some kv.2) : setFields d upd = d := by
  induction upd with
  | nil => rfl
  | cons kv t ih =>
    show setFields (setField d kv.1 kv.2) t = d
    rw [setField_self d kv.1 kv.2 hnd (h kv (List.mem_cons_self kv t))]
    exact ih (fun x hx => h x (List.mem_cons_of_mem kv hx))

/-- C7: once a catalog row has a numeric id, no refresh changes it.  The
base document written by `_upsert_song_document` on a refresh never
contains the fields `id`, `order`, `_id` or `charts` (first conjunct),
so applying the `$set` of that base document to any existing row leaves
those four fields of the row unchanged (second conjunct). -/
theorem c7_refresh_never_touches_id :
    (∀ (d : DocM) (key : Txt) (kv : String × Val), kv ∈ mkBaseDocument d key →
      kv.1 ≠ ("id") ∧ kv.1 ≠ ("order") ∧ kv.1 ≠ ("_id") ∧ kv.1 ≠ ("charts")) ∧
    (∀ (d row : DocM) (key : Txt),
      getField (setFields row (mkBaseDocument d key)) ("id") =
        getField row ("id") ∧
      getField (setFields row (mkBaseDocument d key)) ("order") =
        getField row ("order") ∧
      getField (setFields row (mkBaseDocument d key)) ("_id") =
        getField row ("_id") ∧
      getField (setFields row (mkBaseDocument d key)) ("charts") =
        getField row ("charts")) := by
  have hmem : ∀ (d : DocM) (key : Txt) (kv : String × Val),
      kv ∈ mkBaseDocument d key →
      kv.1 ≠ ("id") ∧ kv.1 ≠ ("order") ∧ kv.1 ≠ ("_id") ∧ kv.1 ≠ ("charts") := by
    intro d key kv hkv
    rcases mem_setField _ _ _ _ hkv with rfl | hin
    · refine ⟨?_, ?_, ?_, ?_⟩ <;> simp
    · have := (List.mem_filter.mp hin).2
      have hnot : kv.1 ∉ excluded_base_keys := of_decide_eq_true this
      simp [excluded_base_keys] at hnot
      exact ⟨hnot.1, hnot.2.1, hnot.2.2.1, hnot.2.2.2⟩
  refine ⟨hmem, ?_⟩
  intro d row key
  refine ⟨?_, ?_, ?_, ?_⟩ <;>
    exact getField_setFields_not_mem row (mkBaseDocument d key) _
      (fun kv hkv => by
        have h4 := hmem d key kv hkv
        first
          | exact h4.1
          | exact h4.2.1
          | exact h4.2.2.1
          | exact h4.2.2.2)

/-- C10: regardless of the `group_key` value inside the dictionary
returned by `_build_song_document` (whose local variable `key` is
rebound to a chart dedup tuple inside the chart loop, witnessed by the
third conjunct), the base document actually written to the songs
collection on refresh and on insert carries `group_key` equal to the
group's string key. -/
theorem c10_written_group_key_is_string :
    (∀ (d : DocM) (key : Txt),
      getField (mkBaseDocument d key) ("group_key") = some (Val.vStr key)) ∧
    (∀ (d : DocM) (key : Txt),
      getField (mkInsertDocument d key) ("group_key") = some (Val.vStr key)) ∧
    (∀ (key : Txt) (r : TjaImportRecord) (c : ChartRecordM),
      r.charts.getLast? = some c →
      getField (build_song_document key [r]) ("group_key") =
        some (Val.vTup (dedup_key c).1 (dedup_key c).2)) := by
  refine ⟨?_, ?_, ?_⟩
  · intro d key
    exact getField_setField_self _ _ _
  · intro d key
    rw [mkInsertDocument, getField_setField_ne _ _ _ _ (by simp)]
    exact getField_setField_self _ _ _
  · intro key r c hc
    have hsort : sSort (fun a b => txtLe a.relative_path b.relative_path) [r]
        = [r] := rfl
    have hpairs : ([r].flatMap (fun r => r.charts.map (fun c => (r, c))))
        = r.charts.map (fun c => (r, c)) := by simp
    have hlast : (group_chart_pairs [r]).getLast? = some (r, c) := by
      unfold group_chart_pairs
      rw [hsort, hpairs, List.getLast?_map, hc]
      rfl
    show getField (build_song_document key [r]) ("group_key") = _
    unfold build_song_document
    simp only [hlast]
    cases hah : first_audio_hash [r] with
    | none =>
      simp only [hah]
      rfl
    | some h =>
      simp only [hah]
      rfl

theorem foldl_note_tokens (tokens : List Txt) (acc : NoteCounts) :
    tokens.foldl process_note_token acc =
      { hit_notes := acc.hit_notes + (tokens.map (fun t =>
          (t.filter isAsciiDigitC).countP
            (fun ch => decide ((ch.toNat - 48) ∈ HIT_NOTE_VALUES)))).sum,
        total_notes := acc.total_notes + (tokens.map (fun t =>
          (t.filter isAsciiDigitC).length)).sum,
        measures := acc.measures + (tokens.filter (fun t =>
          !((t.filter isAsciiDigitC).isEmpty))).length } := by
  induction tokens generalizing acc with
  | nil => simp
  | cons t ts ih =>
    rw [List.foldl_cons, ih]
    unfold process_note_token
    by_cases h : t.filter isAsciiDigitC = []
    · simp only [h, if_pos rfl]
      simp [h, List.filter_cons]
    · rw [if_neg h]
      have hne : ((t.filter isAsciiDigitC).isEmpty) = false := by
        cases hfe : t.filter isAsciiDigitC with
        | nil => exact absurd hfe h
        | cons a l => rfl
      simp only [List.map_cons, List.sum_cons, List.filter_cons, hne,
        Bool.not_false, if_true, NoteCounts.mk.injEq, List.length_cons]
      refine ⟨by omega, by omega, by omega⟩

/-- C6: for every measure line inside a `#START`/`#END` block (a line of
digits, commas, whitespace and bars, with no colon), the counting loop
of `parse_tja` adds, over the comma-split tokens with non-digits
discarded: one `hit_notes` per digit in 1..6, one `total_notes` per
digit, and one `measures` per token that retains at least one digit;
and the token `90001` contributes 5 notes and 1 hit. -/
theorem c6_measure_line_counts :
    (∀ (line : Txt) (acc : NoteCounts),
      is_note_line (stripBoth isPyWsC line) = true → (':') ∉ line →
      process_note_line acc line =
        { hit_notes := acc.hit_notes + ((splitOnComma line).map (fun t =>
            (t.filter isAsciiDigitC).countP
              (fun ch => decide ((ch.toNat - 48) ∈ HIT_NOTE_VALUES)))).sum,
          total_notes := acc.total_notes + ((splitOnComma line).map (fun t =>
            (t.filter isAsciiDigitC).length)).sum,
          measures := acc.measures + ((splitOnComma line).filter (fun t =>
            !((t.filter isAsciiDigitC).isEmpty))).length }) ∧
    process_note_line ⟨0, 0, 0⟩ (tx ("90001")) = ⟨1, 5, 1⟩ := by
  constructor
  · intro line acc _ _
    exact foldl_note_tokens (splitOnComma line) acc
  · decide

/-- Witness for `c6_measure_line_counts`: the measure line `1,0` seen
from zero counts. -/
theorem c6_measure_line_counts_witness :
    process_note_line ⟨0, 0, 0⟩ (tx ("1,0")) =
      { hit_notes := 0 + (((splitOnComma (tx ("1,0"))).map (fun t =>
          (t.filter isAsciiDigitC).countP
            (fun ch => decide ((ch.toNat - 48) ∈ HIT_NOTE_VALUES)))).sum),
        total_notes := 0 + (((splitOnComma (tx ("1,0"))).map (fun t =>
          (t.filter isAsciiDigitC).length)).sum),
        measures := 0 + (((splitOnComma (tx ("1,0"))).filter (fun t =>
          !((t.filter isAsciiDigitC).isEmpty))).length) } :=
  c6_measure_line_counts.1 (tx ("1,0")) ⟨0, 0, 0⟩ (by decide) (by decide)

/-- C9: on an incremental (non-full) scan, a TJA file whose state row
stores no audio path (or an empty one), or whose stored audio file no
longer exists on disk, is reprocessed (its outcome is the freshly
parsed record, marked dirty) and is never counted in the skipped
summary, even when the stored tja mtime-ns and size signatures match
the file on disk. -/
theorem c9_missing_audio_forces_reprocessing
    (sd : StateRowM) (f : FsFile) (audioFiles : List (Txt × Nat × Nat))
    (hmt : sd.tja_mtime_ns = some f.mtimeNs) (hsz : sd.tja_size = some f.size)
    (haud : sd.audio_path = none ∨ sd.audio_path = some [] ∨
      (∃ p, sd.audio_path = some p ∧ lookupAudioStat audioFiles p = none)) :
    file_needs_processing false (some sd) f.mtimeNs f.size audioFiles = true ∧
    process_file false audioFiles (some sd) f =
      { record := f.record, wasDirty := true, skippedInc := 0,
        tjaHashOut := f.record.tja_hash,
        fingerprintOut := f.record.fingerprint } := by
  have hneeds : file_needs_processing false (some sd) f.mtimeNs f.size
      audioFiles = true := by
    rcases haud with hn | he | ⟨p, hp, hlk⟩
    · simp [file_needs_processing, hmt, hsz, hn]
    · simp [file_needs_processing, hmt, hsz, he]
    · by_cases hpe : p = []
      · simp [file_needs_processing, hmt, hsz, hp, hpe]
      · simp [file_needs_processing, hmt, hsz, hp, hpe, hlk]
  refine ⟨hneeds, ?_⟩
  simp [process_file, hneeds]

/-- Witness for `c9_missing_audio_forces_reprocessing`: the sample file
with a matching state row that stores no audio path. -/
theorem c9_missing_audio_forces_reprocessing_witness :
    file_needs_processing false (some sampleStateNoAudio) sampleFile.mtimeNs
      sampleFile.size sampleFs.audioFiles = true ∧
    process_file false sampleFs.audioFiles (some sampleStateNoAudio)
      sampleFile =
      { record := sampleFile.record, wasDirty := true, skippedInc := 0,
        tjaHashOut := sampleFile.record.tja_hash,
        fingerprintOut := sampleFile.record.fingerprint } :=
  c9_missing_audio_forces_reprocessing sampleStateNoAudio sampleFile
    sampleFs.audioFiles (by decide) (by decide) (Or.inl (by decide))

/-- Witness for `c7_refresh_never_touches_id` at concrete documents. -/
theorem c7_refresh_never_touches_id_witness :
    (("group_key") : String) ≠ ("id") ∧
    getField (setFields [(("id"), Val.vNat 5)]
      (mkBaseDocument [(("title"), Val.vStr (tx ("t")))] (tx ("k")))) ("id") =
      getField [(("id"), Val.vNat 5)] ("id") :=
  ⟨(c7_refresh_never_touches_id.1 [(("title"), Val.vStr (tx ("t")))] (tx ("k"))
      (("group_key"), Val.vStr (tx ("k"))) (by decide)).1,
   (c7_refresh_never_touches_id.2 [(("title"), Val.vStr (tx ("t")))]
      [(("id"), Val.vNat 5)] (tx ("k"))).1⟩

/-- Witness for `c10_written_group_key_is_string`: the sample record's
built document leaks the dedup tuple, yet the base document written
with it carries the string key. -/
theorem c10_written_group_key_is_string_witness :
    getField (build_song_document (tx ("k")) [sampleRecord]) ("group_key") =
      some (Val.vTup (dedup_key sampleChart).1 (dedup_key sampleChart).2) :=
  c10_written_group_key_is_string.2.2 (tx ("k")) sampleRecord sampleChart
    (by decide)

theorem tokenizePct_cons_ne (c : Char) (rest : Txt) (hc : c ≠ '%') :
    tokenizePct (c :: rest) = Sum.inl c :: tokenizePct rest := by
  cases rest with
  | nil => simp [tokenizePct, hc]
  | cons h1 t1 =>
    cases t1 with
    | nil => simp [tokenizePct, hc]
    | cons h2 t2 => simp [tokenizePct, hc]

theorem pctDecodeAux_all_inl (l : Txt) :
    pctDecodeAux (l.map Sum.inl) [] = l := by
  induction l with
  | nil => rfl
  | cons c t ih =>
    show utf8DecodeReplace [].reverse ++ c :: pctDecodeAux (t.map Sum.inl) [] = _
    rw [ih]
    rfl

theorem unquote_id_of_no_pct (l : Txt) (h : ('%') ∉ l) :
    unquoteModel l = l := by
  have htok : tokenizePct l = l.map Sum.inl := by
    induction l with
    | nil => rfl
    | cons c t ih =>
      have hc : c ≠ '%' := fun hh => h (hh ▸ List.mem_cons_self c t)
      rw [tokenizePct_cons_ne c t hc, List.map_cons,
        ih (fun hh => h (List.mem_cons_of_mem c hh))]
  unfold unquoteModel pctDecodeTokens
  rw [htok]
  exact pctDecodeAux_all_inl l

theorem mapIdOn (l : Txt) (f : Char → Char) (h : ∀ c ∈ l, f c = c) :
    l.map f = l := by
  induction l with
  | nil => rfl
  | cons c t ih =>
    rw [List.map_cons, h c (List.mem_cons_self c t),
      ih (fun x hx => h x (List.mem_cons_of_mem c hx))]

theorem filterIdOn (l : Txt) (p : Char → Bool) (h : ∀ c ∈ l, p c = true) :
    l.filter p = l := by
  induction l with
  | nil => rfl
  | cons c t ih =>
    rw [List.filter_cons, if_pos (h c (List.mem_cons_self c t)),
      ih (fun x hx => h x (List.mem_cons_of_mem c hx))]

theorem filterMapIdOn (l : Txt) (f : Char → Option Char)
    (h : ∀ c ∈ l, f c = some c) : l.filterMap f = l := by
  induction l with
  | nil => rfl
  | cons c t ih =>
    rw [List.filterMap_cons, h c (List.mem_cons_self c t),
      ih (fun x hx => h x (List.mem_cons_of_mem c hx))]

theorem collapseRunsAux_id_of_not (p : Char → Bool) (rep : Char) (b : Bool)
    (l : Txt) (h : ∀ c ∈ l, p c = false) : collapseRunsAux p rep b l = l := by
  induction l generalizing b with
  | nil => rfl
  | cons c t ih =>
    show collapseRunsAux p rep b (c :: t) = c :: t
    unfold collapseRunsAux
    rw [h c (List.mem_cons_self c t)]
    simp only [Bool.false_eq_true, if_false]
    rw [ih false (fun x hx => h x (List.mem_cons_of_mem c hx))]

theorem collapseRuns_id_of_not (p : Char → Bool) (rep : Char) (l : Txt)
    (h : ∀ c ∈ l, p c = false) : collapseRuns p rep l = l :=
  collapseRunsAux_id_of_not p rep false l h

theorem dropWhile_id_of_head_not (p : Char → Bool) (l : Txt)
    (h : ∀ c ∈ l, p c = false) : l.dropWhile p = l := by
  cases l with
  | nil => rfl
  | cons c t => simp [List.dropWhile, h c (List.mem_cons_self c t)]

theorem stripBoth_id_of_not (p : Char → Bool) (l : Txt)
    (h : ∀ c ∈ l, p c = false) : stripBoth p l = l := by
  unfold stripBoth stripLeading stripTrailing
  rw [dropWhile_id_of_head_not p l h]
  rw [dropWhile_id_of_head_not p l.reverse
    (fun c hc => h c (List.mem_reverse.mp hc))]
  exact List.reverse_reverse l

theorem lowerHex_codepoint (c : Char) (h : isLowerHexC c = true) :
    (48 ≤ c.toNat ∧ c.toNat ≤ 57) ∨ (97 ≤ c.toNat ∧ c.toNat ≤ 102) := by
  simpa [isLowerHexC] using h

theorem lowerHex_ne_of_code (c : Char) (d : Char) (h : isLowerHexC c = true)
    (hd : d.toNat < 48 ∨ (57 < d.toNat ∧ d.toNat < 97) ∨ 102 < d.toNat) :
    c ≠ d := by
  intro hc
  subst hc
  rcases lowerHex_codepoint c h with h1 | h1 <;> omega

theorem lowerHex_not_pyws (c : Char) (h : isLowerHexC c = true) :
    isPyWsC c = false := by
  rcases lowerHex_codepoint c h with h1 | h1 <;> (simp [isPyWsC]; omega)

theorem lowerHex_not_horizws (c : Char) (h : isLowerHexC c = true) :
    isHorizWsC c = false := by
  rcases lowerHex_codepoint c h with h1 | h1 <;> (simp [isHorizWsC]; omega)

theorem lowerHex_invisibleStep (c : Char) (h : isLowerHexC c = true) :
    invisibleStep c = some c := by
  have hzw : isZeroWidthC c = false := by
    rcases lowerHex_codepoint c h with h1 | h1 <;> (simp [isZeroWidthC]; omega)
  have hcf : isCfC c = false := by
    rcases lowerHex_codepoint c h with h1 | h1 <;> (simp [isCfC]; omega)
  have hzs : isZsC c = false := by
    rcases lowerHex_codepoint c h with h1 | h1 <;> (simp [isZsC]; omega)
  have hnb : ¬ (c.toNat = 160) := by
    rcases lowerHex_codepoint c h with h1 | h1 <;> omega
  simp [invisibleStep, hzw, hcf, hzs, hnb]

theorem clean_metadata_value_id_on (l : Txt)
    (h : ∀ c ∈ l, isLowerHexC c = true) : clean_metadata_value l = l := by
  unfold clean_metadata_value normalise_invisible_whitespace
  rw [filterIdOn l _ (fun c hc => by
    have h1 := lowerHex_codepoint c (h c hc)
    have hz : (Char.ofNat 0).toNat = 0 := by decide
    have : c ≠ Char.ofNat 0 := by
      intro heq
      rw [heq, hz] at h1
      omega
    exact decide_eq_true this)]
  rw [filterMapIdOn l invisibleStep
    (fun c hc => lowerHex_invisibleStep c (h c hc))]
  unfold collapseHorizWs
  exact collapseRuns_id_of_not _ _ l
    (fun c hc => lowerHex_not_horizws c (h c hc))

theorem normalise_group_text_id_on_hex (l : Txt) (hne : l ≠ [])
    (h : ∀ c ∈ l, isLowerHexC c = true) :
    normalise_group_text l false false = l := by
  have h1 : unquoteModel l = l := unquote_id_of_no_pct l (fun hc => by
    have hmem := lowerHex_codepoint ('%') (h ('%') hc)
    have h37 : ('%').toNat = 37 := by decide
    rw [h37] at hmem
    omega)
  have h2 : l.map bsSlash = l := mapIdOn l bsSlash (fun c hc => by
    unfold bsSlash
    rw [if_neg (lowerHex_ne_of_code c ('\\') (h c hc) (by right; left; decide))])
  have h3 : collapseSlashes l = l := collapseRuns_id_of_not _ _ l
    (fun c hc => decide_eq_false
      (lowerHex_ne_of_code c ('/') (h c hc) (by left; decide)))
  have h4 : stripBoth isPyWsC l = l := stripBoth_id_of_not _ l
    (fun c hc => lowerHex_not_pyws c (h c hc))
  have h5 : collapseWsRun l = l := collapseRuns_id_of_not _ _ l
    (fun c hc => lowerHex_not_pyws c (h c hc))
  have h6 : clean_metadata_value l = l := clean_metadata_value_id_on l h
  unfold normalise_group_text
  rw [if_neg hne]
  simp only [nfcModel, h1, h2, h3, h4, h5, h6, Bool.false_eq_true, if_false]

theorem sanitise_group_token_id_on_hex (l : Txt) (fallback : Txt)
    (hne : l ≠ []) (h : ∀ c ∈ l, isLowerHexC c = true) :
    sanitise_group_token l fallback = l := by
  have h0 : l.map (fun ch => if ch = (':') then ('_') else ch) = l :=
    mapIdOn l _ (fun c hc => by
      rw [if_neg (lowerHex_ne_of_code c (':') (h c hc) (by right; left; decide))])
  have h4 : stripBoth isPyWsC l = l := stripBoth_id_of_not _ l
    (fun c hc => lowerHex_not_pyws c (h c hc))
  have h5 : collapseWsRun l = l := collapseRuns_id_of_not _ _ l
    (fun c hc => lowerHex_not_pyws c (h c hc))
  unfold sanitise_group_token
  simp only [h0, h4, h5]
  rw [if_neg hne]

/-- C4: for every import record carrying an audio content hash (a
nonempty lowercase-hex digest, as `hashlib.md5(...).hexdigest()`
produces), `compute_group_key` returns `audio:` ++ hash ++ `:` ++
folder token; and for the S1-shaped record (a file under `Pack/` with
`dir_url` `/songs/Pack/`) the key is `audio:` ++ hash ++ `:pack`. -/
theorem c4_audio_key_format :
    (∀ (r : TjaImportRecord) (hsh : Txt), r.audio_hash = some hsh →
      hsh ≠ [] → (∀ c ∈ hsh, isLowerHexC c = true) →
      compute_group_key r =
        tx ("audio:") ++ hsh ++ (':') :: folder_token_from_record r) ∧
    (∀ (hsh : Txt), hsh ≠ [] → (∀ c ∈ hsh, isLowerHexC c = true) →
      compute_group_key { sampleRecord with audio_hash := some hsh } =
        tx ("audio:") ++ hsh ++ (':') :: tx ("pack")) := by
  have hmain : ∀ (r : TjaImportRecord) (hsh : Txt), r.audio_hash = some hsh →
      hsh ≠ [] → (∀ c ∈ hsh, isLowerHexC c = true) →
      compute_group_key r =
        tx ("audio:") ++ hsh ++ (':') :: folder_token_from_record r := by
    intro r hsh hr hne hhex
    simp only [compute_group_key, hr]
    rw [if_neg hne]
    rw [normalise_group_text_id_on_hex hsh hne hhex,
      sanitise_group_token_id_on_hex hsh _ hne hhex]
  refine ⟨hmain, ?_⟩
  intro hsh hne hhex
  rw [hmain _ hsh rfl hne hhex]
  have hgen : folder_token_from_record
      { sampleRecord with audio_hash := some hsh } =
      folder_token_from_record sampleRecord := rfl
  rw [hgen]
  have hft : folder_token_from_record sampleRecord = tx ("pack") := by decide
  rw [hft]

/-- Witness for `c4_audio_key_format` at the sample hash. -/
theorem c4_audio_key_format_witness :
    compute_group_key
        { sampleRecord with audio_hash := some (tx ("abcd1234")) } =
      tx ("audio:") ++ tx ("abcd1234") ++ (':') :: tx ("pack") :=
  c4_audio_key_format.2 (tx ("abcd1234")) (by decide) (by decide)

theorem mem_collapseRunsAux (p : Char → Bool) (rep : Char) (b : Bool)
    (l : Txt) (c : Char) (h : c ∈ collapseRunsAux p rep b l) :
    c = rep ∨ c ∈ l := by
  induction l generalizing b with
  | nil => simp [collapseRunsAux] at h
  | cons x t ih =>
    unfold collapseRunsAux at h
    by_cases hx : p x = true
    · rw [if_pos hx] at h
      by_cases hb : b = true
      · rw [if_pos hb] at h
        rcases ih true h with hh | hh
        · exact Or.inl hh
        · exact Or.inr (List.mem_cons_of_mem x hh)
      · rw [if_neg hb] at h
        rcases List.mem_cons.mp h with rfl | h2
        · exact Or.inl rfl
        · rcases ih true h2 with hh | hh
          · exact Or.inl hh
          · exact Or.inr (List.mem_cons_of_mem x hh)
    · rw [if_neg hx] at h
      rcases List.mem_cons.mp h with rfl | h2
      · exact Or.inr (List.mem_cons_self c t)
      · rcases ih false h2 with hh | hh
        · exact Or.inl hh
        · exact Or.inr (List.mem_cons_of_mem x hh)

theorem mem_stripBoth (p : Char → Bool) (l : Txt) (c : Char)
    (h : c ∈ stripBoth p l) : c ∈ l := by
  unfold stripBoth stripLeading stripTrailing at h
  have h1 := List.mem_reverse.mp (List.mem_reverse.mpr h)
  rw [List.mem_reverse] at h1
  have h2 := (List.dropWhile_sublist p).subset h1
  rw [List.mem_reverse] at h2
  exact (List.dropWhile_sublist p).subset h2

theorem sanitise_no_colon (l : Txt) (fallback : Txt)
    (hfb : (':') ∉ fallback) : (':') ∉ sanitise_group_token l fallback := by
  unfold sanitise_group_token
  set m := l.map (fun ch => if ch = (':') then ('_') else ch) with hm
  intro hmem
  by_cases hc : collapseWsRun (stripBoth isPyWsC m) = []
  · rw [if_pos hc] at hmem
    exact hfb hmem
  · rw [if_neg hc] at hmem
    rcases mem_collapseRunsAux isPyWsC (' ') false _ _ hmem with h1 | h1
    · exact absurd h1.symm (by decide)
    · have h2 := mem_stripBoth isPyWsC m (':') h1
      rcases List.mem_map.mp h2 with ⟨x, _, hx⟩
      by_cases hxc : x = (':')
      · rw [if_pos hxc] at hx
        exact absurd hx (by decide)
      · rw [if_neg hxc] at hx
        exact hxc hx

theorem append_colon_inj (a a' t t' : Txt) (ha : (':') ∉ a)
    (ha' : (':') ∉ a') (h : a ++ (':') :: t = a' ++ (':') :: t') :
    a = a' ∧ t = t' := by
  induction a generalizing a' with
  | nil =>
    cases a' with
    | nil => simpa using h
    | cons c s =>
      rw [List.nil_append, List.cons_append, List.cons.injEq] at h
      exact absurd (h.1 ▸ List.mem_cons_self c s) ha'
  | cons c s ih =>
    cases a' with
    | nil =>
      rw [List.nil_append, List.cons_append, List.cons.injEq] at h
      exact absurd (h.1.symm ▸ List.mem_cons_self c s) ha
    | cons c' s' =>
      rw [List.cons_append, List.cons_append, List.cons.injEq] at h
      have hs := ih s' (fun hmem => ha (List.mem_cons_of_mem c hmem))
        (fun hmem => ha' (List.mem_cons_of_mem c' hmem)) h.2
      exact ⟨by rw [h.1, hs.1], hs.2⟩

/-- C3 counterexample: `Pack` and `PACK` are different top-level folders
(the records' relative paths and directories differ), both records carry
the same audio content hash, yet `compute_group_key` gives them the same
key, because folder tokens are casefolded. -/
theorem c3_counterexample_casefolded_folders :
    sampleRecord.relative_dir ≠ casedFolderRecord.relative_dir ∧
    sampleRecord.relative_path ≠ casedFolderRecord.relative_path ∧
    sampleRecord.audio_hash = casedFolderRecord.audio_hash ∧
    sampleRecord.audio_hash ≠ none ∧
    compute_group_key sampleRecord = compute_group_key casedFolderRecord := by
  refine ⟨by decide, by decide, by decide, by decide, by decide⟩

/-- C3 amended: two records with audio content hashes whose *folder
tokens* differ (in particular, top-level folders that stay different
after casefolding and cleaning) never share a group key, even when the
audio hashes are equal. -/
theorem c3_distinct_folder_tokens_distinct_keys
    (r1 r2 : TjaImportRecord) (h1 h2 : Txt)
    (ha1 : r1.audio_hash = some h1) (hne1 : h1 ≠ [])
    (ha2 : r2.audio_hash = some h2) (hne2 : h2 ≠ [])
    (hft : folder_token_from_record r1 ≠ folder_token_from_record r2) :
    compute_group_key r1 ≠ compute_group_key r2 := by
  intro heq
  have e1 : compute_group_key r1 = tx ("audio:") ++
      (sanitise_group_token (normalise_group_text h1 false false)
        (tx ("missing-hash"))) ++ (':') :: folder_token_from_record r1 := by
    simp only [compute_group_key, ha1]
    rw [if_neg hne1]
  have e2 : compute_group_key r2 = tx ("audio:") ++
      (sanitise_group_token (normalise_group_text h2 false false)
        (tx ("missing-hash"))) ++ (':') :: folder_token_from_record r2 := by
    simp only [compute_group_key, ha2]
    rw [if_neg hne2]
  rw [e1, e2, List.append_assoc, List.append_assoc] at heq
  have heq2 := List.append_cancel_left heq
  have hsplit := append_colon_inj _ _ _ _
    (sanitise_no_colon _ _ (by decide)) (sanitise_no_colon _ _ (by decide))
    heq2
  exact hft hsplit.2

/-- Witness for `c3_distinct_folder_tokens_distinct_keys`: the sample
record against a record in top-level folder `Other`. -/
theorem c3_distinct_folder_tokens_distinct_keys_witness :
    compute_group_key sampleRecord ≠ compute_group_key otherFolderRecord :=
  c3_distinct_folder_tokens_distinct_keys sampleRecord otherFolderRecord
    (tx ("abcd1234")) (tx ("abcd1234")) (by decide) (by decide) (by decide)
    (by decide) (by decide)

theorem sInsert_perm {α : Type} (le : α → α → Bool) (x : α) (l : List α) :
    (sInsert le x l).Perm (x :: l) := by
  induction l with
  | nil => exact List.Perm.refl _
  | cons h t ih =>
    unfold sInsert
    by_cases hle : le h x = true
    · rw [if_pos hle]
      exact (List.Perm.cons h ih).trans (List.Perm.swap x h t)
    · rw [if_neg hle]

theorem sSort_foldl_perm {α : Type} (le : α → α → Bool) (l acc : List α) :
    (l.foldl (fun acc x => sInsert le x acc) acc).Perm (acc ++ l) := by
  induction l generalizing acc with
  | nil => simp
  | cons x t ih =>
    rw [List.foldl_cons]
    refine (ih (sInsert le x acc)).trans ?_
    have h1 : (sInsert le x acc ++ t).Perm ((x :: acc) ++ t) :=
      (sInsert_perm le x acc).append_right t
    refine h1.trans ?_
    rw [List.cons_append]
    exact (List.perm_middle).symm

theorem sSort_perm {α : Type} (le : α → α → Bool) (l : List α) :
    (sSort le l).Perm l := by
  have := sSort_foldl_perm le l []
  simpa [sSort] using this

theorem mem_sSort {α : Type} (le : α → α → Bool) (l : List α) (x : α) :
    x ∈ sSort le l ↔ x ∈ l :=
  (sSort_perm le l).mem_iff

theorem mem_dedupKeepFirstAux (l seen : List Txt) (x : Txt) :
    x ∈ dedupKeepFirstAux l seen ↔ (x ∈ l ∧ x ∉ seen) := by
  induction l generalizing seen with
  | nil => simp [dedupKeepFirstAux]
  | cons c t ih =>
    unfold dedupKeepFirstAux
    by_cases hc : c ∈ seen
    · rw [if_pos hc, ih]
      constructor
      · rintro ⟨h1, h2⟩
        exact ⟨List.mem_cons_of_mem c h1, h2⟩
      · rintro ⟨h1, h2⟩
        rcases List.mem_cons.mp h1 with rfl | h3
        · exact absurd hc h2
        · exact ⟨h3, h2⟩
    · rw [if_neg hc]
      constructor
      · intro h1
        rcases List.mem_cons.mp h1 with rfl | h3
        · exact ⟨List.mem_cons_self x t, hc⟩
        · have := (ih (c :: seen)).mp h3
          exact ⟨List.mem_cons_of_mem c this.1,
            fun hx => this.2 (List.mem_cons_of_mem c hx)⟩
      · rintro ⟨h1, h2⟩
        rcases List.mem_cons.mp h1 with rfl | h3
        · exact List.mem_cons_self x _
        · by_cases hxc : x = c
          · subst hxc
            exact List.mem_cons_self x _
          · exact List.mem_cons_of_mem c ((ih (c :: seen)).mpr
              ⟨h3, fun hx => (List.mem_cons.mp hx).elim hxc h2⟩)

theorem mem_sortedDedup (l : List Txt) (x : Txt) :
    x ∈ sortedDedup l ↔ x ∈ l := by
  unfold sortedDedup
  rw [mem_sSort, mem_dedupKeepFirstAux]
  simp

theorem mem_ite_append (x a : Txt) (P : Prop) [inst : Decidable P]
    (l : List Txt) :
    (x ∈ (if P then l ++ [a] else l)) ↔ (x ∈ l ∨ (P ∧ x = a)) := by
  split_ifs with h <;> simp [List.mem_append, h]

theorem mcc_mem_issues4 (co : Option Txt) (c : CourseInfoM) :
    ((tx ("missing-chart-content")) ∈ chart_issues4 co c) ↔
      ((tx ("missing-chart-content")) ∈ c.issues ∨
        (c.start_blocks = 0 ∨ c.end_blocks = 0 ∨
          c.end_blocks < c.start_blocks)) := by
  unfold chart_issues4 chart_issues3 chart_issues2 chart_issues1 chart_issues0
  simp only [mem_ite_append]
  have h1 : tx ("missing-chart-content") ≠ tx ("unknown-course") := by decide
  have h2 : tx ("missing-chart-content") ≠ tx ("empty-chart") := by decide
  have h3 : tx ("missing-chart-content") ≠ tx ("invalid-branch-sections") := by
    decide
  have h4 : tx ("missing-chart-content") ≠ tx ("missing-level") := by decide
  simp [h1, h2, h3, h4]

theorem uc_mem_issues4 (co : Option Txt) (c : CourseInfoM) :
    ((tx ("unknown-course")) ∈ chart_issues4 co c) ↔
      ((tx ("unknown-course")) ∈ c.issues ∨
        (chart_unk c = true ∧ co.isNone = true)) := by
  unfold chart_issues4 chart_issues3 chart_issues2 chart_issues1 chart_issues0
  simp only [mem_ite_append]
  have h1 : tx ("unknown-course") ≠ tx ("missing-chart-content") := by decide
  have h2 : tx ("unknown-course") ≠ tx ("empty-chart") := by decide
  have h3 : tx ("unknown-course") ≠ tx ("invalid-branch-sections") := by decide
  have h4 : tx ("unknown-course") ≠ tx ("missing-level") := by decide
  simp [h1, h2, h3, h4]

theorem ibs_mem_issues4 (co : Option Txt) (c : CourseInfoM) :
    ((tx ("invalid-branch-sections")) ∈ chart_issues4 co c) ↔
      ((tx ("invalid-branch-sections")) ∈ c.issues ∨
        (c.branch = true ∧ ¬ ((tx ("N")) ∈ c.branch_sections ∧
          (tx ("E")) ∈ c.branch_sections ∧
          (tx ("M")) ∈ c.branch_sections))) := by
  unfold chart_issues4 chart_issues3 chart_issues2 chart_issues1 chart_issues0
  simp only [mem_ite_append]
  have h1 : tx ("invalid-branch-sections") ≠ tx ("missing-chart-content") := by
    decide
  have h2 : tx ("invalid-branch-sections") ≠ tx ("empty-chart") := by decide
  have h3 : tx ("invalid-branch-sections") ≠ tx ("unknown-course") := by decide
  have h4 : tx ("invalid-branch-sections") ≠ tx ("missing-level") := by decide
  simp [h1, h2, h3, h4]

theorem mcc_mem_issues5 (co : Option Txt) (c : CourseInfoM) :
    ((tx ("missing-chart-content")) ∈ chart_issues5 co c) ↔
      ((tx ("missing-chart-content")) ∈ chart_issues4 co c) := by
  unfold chart_issues5
  rw [mem_ite_append]
  have h : tx ("missing-chart-content") ≠ tx ("dojo_no_segments") := by decide
  simp [h]

theorem uc_mem_issues5 (co : Option Txt) (c : CourseInfoM) :
    ((tx ("unknown-course")) ∈ chart_issues5 co c) ↔
      ((tx ("unknown-course")) ∈ chart_issues4 co c) := by
  unfold chart_issues5
  rw [mem_ite_append]
  have h : tx ("unknown-course") ≠ tx ("dojo_no_segments") := by decide
  simp [h]

/-- C5 (amended): when the incoming course issues do not already contain
the `invalid-branch-sections` marker (true of every course produced by the
parser, which only emits it in `_build_chart_records` itself), a
standard-mode chart record is valid iff its course is one of the five
canonical courses, its final issues contain neither `missing-chart-content`
nor `unknown-course`, it has `total_notes > 0` and `hit_notes > 0`, and,
when the branch flag is set, all of the `N`, `E`, `M` branch sections are
present; a dojo-mode chart is valid iff it has `total_notes > 0` and
`hit_notes > 0`, at least one segment, and, when the branch flag is set,
all of the `N`, `E`, `M` branch sections are present.  The claim's dojo
clause omits the branch-section requirement (see the counterexample). -/
theorem c5_validity_characterisation (coerce : Option Txt) (parts : List Txt)
    (title subtitle : Txt) (titleJa subtitleJa : Option Txt)
    (course : CourseInfoM)
    (hclean : (tx ("invalid-branch-sections")) ∉ course.issues) :
    ((course.mode = [] ∨ course.mode = tx ("standard")) →
      ((build_chart_record coerce parts title subtitle titleJa subtitleJa
          course).valid = true ↔
        ((build_chart_record coerce parts title subtitle titleJa subtitleJa
            course).course ∈ COURSE_ORDER ∧
         (tx ("missing-chart-content")) ∉
           (build_chart_record coerce parts title subtitle titleJa subtitleJa
             course).issues ∧
         (tx ("unknown-course")) ∉
           (build_chart_record coerce parts title subtitle titleJa subtitleJa
             course).issues ∧
         0 < course.total_notes ∧ 0 < course.hit_notes ∧
         (course.branch = true → ((tx ("N")) ∈ course.branch_sections ∧
           (tx ("E")) ∈ course.branch_sections ∧
           (tx ("M")) ∈ course.branch_sections))))) ∧
    (course.mode = tx ("dojo") →
      ((build_chart_record coerce parts title subtitle titleJa subtitleJa
          course).valid = true ↔
        (0 < course.total_notes ∧ 0 < course.hit_notes ∧
         course.segments ≠ [] ∧
         (course.branch = true → ((tx ("N")) ∈ course.branch_sections ∧
           (tx ("E")) ∈ course.branch_sections ∧
           (tx ("M")) ∈ course.branch_sections))))) := by
  have hvalid : (build_chart_record coerce parts title subtitle titleJa
      subtitleJa course).valid = chart_valid3 coerce course := rfl
  have hissues : (build_chart_record coerce parts title subtitle titleJa
      subtitleJa course).issues = sortedDedup (chart_issues5 coerce course) :=
    rfl
  have hcourse : (build_chart_record coerce parts title subtitle titleJa
      subtitleJa course).course = chart_course_name coerce course := rfl
  have hsd : tx ("standard") ≠ tx ("dojo") := by decide
  constructor
  · intro hm
    have hmode : chart_mode course = tx ("standard") := by
      unfold chart_mode
      rcases hm with h | h <;> simp [h]
    rw [hvalid, hissues, hcourse]
    unfold chart_valid3 chart_valid2 chart_valid1
    rw [hmode]
    rw [if_neg (by simp [hsd])]
    rw [if_pos rfl]
    by_cases hib : ((tx ("invalid-branch-sections")) ∈
        chart_issues4 coerce course)
    · have hib2 := (ibs_mem_issues4 coerce course).mp hib
      rcases hib2 with hib2 | hib2
      · exact absurd hib2 hclean
      · rw [if_pos ⟨hib2.1, hib⟩]
        refine iff_of_false (by simp) ?_
        intro hcontra
        exact hib2.2 (hcontra.2.2.2.2.2 hib2.1)
    · rw [if_neg (fun hx => hib hx.2)]
      have hbr : course.branch = true →
          ((tx ("N")) ∈ course.branch_sections ∧
           (tx ("E")) ∈ course.branch_sections ∧
           (tx ("M")) ∈ course.branch_sections) := by
        intro hb
        by_contra hn
        exact hib ((ibs_mem_issues4 coerce course).mpr (Or.inr ⟨hb, hn⟩))
      simp only [Bool.and_eq_true, Bool.not_eq_true', decide_eq_true_eq,
        decide_eq_false_iff_not]
      simp only [mem_sortedDedup, mcc_mem_issues5, uc_mem_issues5,
        mcc_mem_issues4, uc_mem_issues4]
      constructor
      · rintro ⟨⟨⟨⟨ho, hmc⟩, huc⟩, ht⟩, hh⟩
        exact ⟨ho, hmc, huc, ht, hh, hbr⟩
      · rintro ⟨ho, hmc, huc, ht, hh, h6⟩
        exact ⟨⟨⟨⟨ho, hmc⟩, huc⟩, ht⟩, hh⟩
  · intro hm
    have hmode : chart_mode course = tx ("dojo") := by
      unfold chart_mode
      have hd : tx ("dojo") ≠ ([] : Txt) := by decide
      simp [hm, hd]
    rw [hvalid]
    unfold chart_valid3 chart_valid2 chart_valid1
    rw [hmode]
    by_cases hseg : course.segments = []
    · rw [if_pos ⟨rfl, hseg⟩]
      simp [hseg]
    · rw [if_neg (fun hx => hseg hx.2)]
      by_cases hib : ((tx ("invalid-branch-sections")) ∈
          chart_issues4 coerce course)
      · have hib2 := (ibs_mem_issues4 coerce course).mp hib
        rcases hib2 with hib2 | hib2
        · exact absurd hib2 hclean
        · rw [if_pos ⟨hib2.1, hib⟩]
          refine iff_of_false (by simp) ?_
          intro hcontra
          exact hib2.2 (hcontra.2.2.2 hib2.1)
      · rw [if_neg (fun hx => hib hx.2)]
        rw [if_neg (fun hx => hsd hx.symm)]
        have hbr : course.branch = true →
            ((tx ("N")) ∈ course.branch_sections ∧
             (tx ("E")) ∈ course.branch_sections ∧
             (tx ("M")) ∈ course.branch_sections) := by
          intro hb
          by_contra hn
          exact hib ((ibs_mem_issues4 coerce course).mpr (Or.inr ⟨hb, hn⟩))
        simp only [Bool.and_eq_true, decide_eq_true_eq]
        constructor
        · rintro ⟨ht, hh⟩
          exact ⟨ht, hh, hseg, hbr⟩
        · rintro ⟨ht, hh, h3, h4⟩
          exact ⟨ht, hh⟩

/-- C5 counterexample: a dojo chart with notes and one segment, but with
the branch flag set and no `N`/`E`/`M` branch sections, is marked invalid
by `_build_chart_records`, contradicting the claim that a dojo-mode chart
is valid if and only if it has notes and at least one segment. -/
theorem c5_counterexample_dojo_branch :
    (build_chart_record none [] (tx ("")) (tx ("")) none none
      dojoBranchCourse).mode = tx ("dojo") ∧
    0 < dojoBranchCourse.total_notes ∧ 0 < dojoBranchCourse.hit_notes ∧
    dojoBranchCourse.segments ≠ [] ∧
    (build_chart_record none [] (tx ("")) (tx ("")) none none
      dojoBranchCourse).valid = false := by
  decide

/-- Witness for C5: the amended characterisation applied to the concrete
dojo course with branching and no branch sections. -/
theorem c5_validity_characterisation_witness :
    ((build_chart_record none [] (tx ("")) (tx ("")) none none
        dojoBranchCourse).valid = true ↔
      (0 < dojoBranchCourse.total_notes ∧ 0 < dojoBranchCourse.hit_notes ∧
       dojoBranchCourse.segments ≠ [] ∧
       (dojoBranchCourse.branch = true →
         ((tx ("N")) ∈ dojoBranchCourse.branch_sections ∧
          (tx ("E")) ∈ dojoBranchCourse.branch_sections ∧
          (tx ("M")) ∈ dojoBranchCourse.branch_sections)))) :=
  (c5_validity_characterisation none [] (tx ("")) (tx ("")) none none
    dojoBranchCourse (by decide)).2 (by decide)

theorem entry_key_of_chart (r : TjaImportRecord) (c : ChartRecordM)
    (h : c.raw_course = [] → c.normalised = []) :
    entry_dedup_key (entry_of_chart r c) = dedup_key c := by
  simp only [entry_dedup_key, dedup_key, entry_of_chart]
  by_cases hm : c.mode = tx ("standard")
  · simp only [hm, ne_eq, not_true_eq_false, if_false, ite_false]
    by_cases hu : c.course = tx ("Unknown")
    · simp only [hu, if_true, ite_true]
      by_cases hr : c.raw_course = []
      · simp [hr, h hr]
      · simp [hr]
    · simp [hu]
  · simp only [ne_eq, hm, not_false_eq_true, if_true, ite_true]
    by_cases hd : (c.display_course.getD []) = []
    · by_cases hr : c.raw_course = []
      · simp [hd, hr, h hr]
      · simp [hd, hr]
    · simp [hd]

theorem entry_key_markDup (e : ChartEntry) :
    entry_dedup_key (markDup e) = entry_dedup_key e := rfl

theorem markDup_valid (e : ChartEntry) : (markDup e).valid = e.valid := rfl

theorem mem_markDup (e : ChartEntry) :
    (tx ("duplicate-course")) ∈ (markDup e).issues := by
  simp [markDup, mem_sortedDedup]

theorem lookupAssocD_eq_none (m : List ((Txt × Option Txt) × ChartEntry))
    (k : Txt × Option Txt) :
    lookupAssocD m k = none ↔ ∀ kv ∈ m, kv.1 ≠ k := by
  unfold lookupAssocD
  cases hf : m.find? (fun kv => decide (kv.1 = k)) with
  | none =>
    simp only [Option.map_none', true_iff]
    intro kv hkv
    have := List.find?_eq_none.mp hf kv hkv
    simpa using this
  | some kv =>
    refine iff_of_false (by simp) ?_
    intro hall
    have hp := List.find?_some hf
    have hk : kv.1 = k := by simpa using hp
    exact hall kv (List.mem_of_find?_eq_some hf) hk

theorem lookupAssocD_some_mem (m : List ((Txt × Option Txt) × ChartEntry))
    (k : Txt × Option Txt) (e : ChartEntry)
    (h : lookupAssocD m k = some e) : (k, e) ∈ m := by
  unfold lookupAssocD at h
  cases hf : m.find? (fun kv => decide (kv.1 = k)) with
  | none => rw [hf] at h; exact Option.noConfusion h
  | some kv =>
    rw [hf] at h
    have hmem := List.mem_of_find?_eq_some hf
    have hp := List.find?_some hf
    have hk : kv.1 = k := by simpa using hp
    have he : kv.2 = e := Option.some.inj h
    have hkv : kv = (k, e) := by
      rw [← hk, ← he]
    rw [hkv] at hmem
    exact hmem

theorem lookupAssocD_update_self (m : List ((Txt × Option Txt) × ChartEntry))
    (k : Txt × Option Txt) (e v : ChartEntry)
    (h : lookupAssocD m k = some e) :
    lookupAssocD (updateAssocD m k v) k = some v := by
  induction m with
  | nil => exact Option.noConfusion h
  | cons kv t ih =>
    by_cases hk : kv.1 = k
    · have hupd : updateAssocD (kv :: t) k v =
          (k, v) :: (t.map fun kv => if kv.1 = k then (k, v) else kv) := by
        simp only [updateAssocD, List.map_cons, if_pos hk]
      rw [hupd]
      unfold lookupAssocD
      rw [List.find?_cons_of_pos _ (by simp)]
      rfl
    · have hh : lookupAssocD t k = some e := by
        unfold lookupAssocD at h ⊢
        rw [List.find?_cons_of_neg _ (by simp [hk])] at h
        exact h
      have hrec := ih hh
      have hupd : updateAssocD (kv :: t) k v = kv :: updateAssocD t k v := by
        simp only [updateAssocD, List.map_cons, if_neg hk]
      rw [hupd]
      unfold lookupAssocD at hrec ⊢
      rw [List.find?_cons_of_neg _ (by simp [hk])]
      exact hrec

theorem chart_map_step_inv
    (st : List ((Txt × Option Txt) × ChartEntry) × List Txt)
    (rc : TjaImportRecord × ChartRecordM)
    (hwf : entry_dedup_key (entry_of_chart rc.1 rc.2) = dedup_key rc.2)
    (h1 : ∀ kv ∈ st.1, entry_dedup_key kv.2 = kv.1)
    (h2 : st.1.Pairwise (fun a b => a.1 ≠ b.1)) :
    (∀ kv ∈ (chart_map_step st rc).1, entry_dedup_key kv.2 = kv.1) ∧
    (chart_map_step st rc).1.Pairwise (fun a b => a.1 ≠ b.1) := by
  rcases rc with ⟨r, c⟩
  cases hl : lookupAssocD st.1 (dedup_key c) with
  | none =>
    have hres : (chart_map_step st (r, c)).1 =
        st.1 ++ [(dedup_key c, entry_of_chart r c)] := by
      simp only [chart_map_step, hl]
    rw [hres]
    constructor
    · intro kv hkv
      rcases List.mem_append.mp hkv with hin | hin
      · exact h1 kv hin
      · have hkv2 : kv = (dedup_key c, entry_of_chart r c) := by simpa using hin
        rw [hkv2]
        exact hwf
    · rw [List.pairwise_append]
      refine ⟨h2, by simp, ?_⟩
      intro a ha b hb
      have hbk : b = (dedup_key c, entry_of_chart r c) := by simpa using hb
      rw [hbk]
      exact (lookupAssocD_eq_none st.1 (dedup_key c)).mp hl a ha
  | some e =>
    have hres : (chart_map_step st (r, c)).1 =
        updateAssocD st.1 (dedup_key c)
          (if ¬ e.valid ∧ c.valid then markDup (entry_of_chart r c)
           else markDup e) := by
      simp only [chart_map_step, hl]
    rw [hres]
    have heq : entry_dedup_key e = dedup_key c :=
      h1 (dedup_key c, e) (lookupAssocD_some_mem st.1 (dedup_key c) e hl)
    constructor
    · intro kv hkv
      unfold updateAssocD at hkv
      rcases List.mem_map.mp hkv with ⟨kv0, hkv0, hmap⟩
      by_cases hk : kv0.1 = dedup_key c
      · rw [if_pos hk] at hmap
        rw [← hmap]
        by_cases hv : ¬ e.valid ∧ c.valid
        · simp only [if_pos hv]
          rw [entry_key_markDup, hwf]
        · simp only [if_neg hv]
          rw [entry_key_markDup, heq]
      · rw [if_neg hk] at hmap
        rw [← hmap]
        exact h1 kv0 hkv0
    · unfold updateAssocD
      rw [List.pairwise_map]
      refine h2.imp ?_
      intro a b hne
      by_cases hka : a.1 = dedup_key c
      · by_cases hkb : b.1 = dedup_key c
        · exact absurd (hka.trans hkb.symm) hne
        · rw [if_pos hka, if_neg hkb]
          exact fun h => hkb h.symm
      · by_cases hkb : b.1 = dedup_key c
        · rw [if_neg hka, if_pos hkb]
          exact fun h => hka h
        · rw [if_neg hka, if_neg hkb]
          exact hne

theorem chart_map_fold_inv (pairs : List (TjaImportRecord × ChartRecordM))
    (st : List ((Txt × Option Txt) × ChartEntry) × List Txt)
    (hwf : ∀ rc ∈ pairs,
      entry_dedup_key (entry_of_chart rc.1 rc.2) = dedup_key rc.2)
    (h1 : ∀ kv ∈ st.1, entry_dedup_key kv.2 = kv.1)
    (h2 : st.1.Pairwise (fun a b => a.1 ≠ b.1)) :
    (∀ kv ∈ (pairs.foldl chart_map_step st).1, entry_dedup_key kv.2 = kv.1) ∧
    (pairs.foldl chart_map_step st).1.Pairwise (fun a b => a.1 ≠ b.1) := by
  induction pairs generalizing st with
  | nil => exact ⟨h1, h2⟩
  | cons rc rest ih =>
    rw [List.foldl_cons]
    have step := chart_map_step_inv st rc
      (hwf rc (List.mem_cons_self rc rest)) h1 h2
    exact ih (chart_map_step st rc)
      (fun rc2 h => hwf rc2 (List.mem_cons_of_mem rc h)) step.1 step.2

theorem group_charts_payload_pairwise (records : List TjaImportRecord)
    (hwf : ∀ r ∈ records, ∀ c ∈ r.charts,
      c.raw_course = [] → c.normalised = []) :
    (group_charts_payload records).Pairwise
      (fun a b => entry_dedup_key a ≠ entry_dedup_key b) := by
  unfold group_charts_payload group_chart_map
  have hwfp : ∀ rc ∈ group_chart_pairs records,
      entry_dedup_key (entry_of_chart rc.1 rc.2) = dedup_key rc.2 := by
    intro rc hrc
    unfold group_chart_pairs at hrc
    rcases List.mem_flatMap.mp hrc with ⟨r, hr, hrc2⟩
    rcases List.mem_map.mp hrc2 with ⟨c, hc, heqc⟩
    have hrmem : r ∈ records :=
      ((sSort_perm (fun a b => txtLe a.relative_path b.relative_path)
        records).mem_iff).mp hr
    rw [← heqc]
    exact entry_key_of_chart r c (hwf r hrmem c hc)
  have hinv := chart_map_fold_inv (group_chart_pairs records) ([], [])
    hwfp (by simp) (by simp)
  refine ((sSort_perm chartEntryLe _).pairwise_iff
    (fun {x y} h => fun he => h he.symm)).mpr ?_
  rw [List.pairwise_map]
  refine hinv.2.imp_of_mem ?_
  intro a b ha hb hne
  rw [hinv.1 a ha, hinv.1 b hb]
  exact hne

theorem build_song_document_charts_eq (key : Txt) (r0 : TjaImportRecord)
    (rs : List TjaImportRecord) :
    getField (build_song_document key (r0 :: rs)) ("charts") =
      some (Val.vCharts (group_charts_payload (r0 :: rs))) := by
  unfold build_song_document
  cases hah : first_audio_hash (r0 :: rs) with
  | none => simp [hah, getField_cons]
  | some h => simp [hah, getField_cons]

/-- C8: for every group whose member charts satisfy the parser invariant
that an empty raw course name has an empty normalised name, the charts
array in the built song document contains at most one entry per dedup
key (course, raw-course-if-Unknown, mode, display-course-if-dojo); and
on a collision the surviving entry carries the `duplicate-course` issue,
is valid iff either colliding chart was valid, and is the marked copy of
the valid one whenever exactly one of the two is valid. -/
theorem c8_charts_dedup_and_collision :
    (∀ (key : Txt) (r0 : TjaImportRecord) (rs : List TjaImportRecord)
       (v : List ChartEntry),
       (∀ r ∈ r0 :: rs, ∀ c ∈ r.charts,
         c.raw_course = [] → c.normalised = []) →
       getField (build_song_document key (r0 :: rs)) ("charts") =
         some (Val.vCharts v) →
       v.Pairwise (fun a b => entry_dedup_key a ≠ entry_dedup_key b)) ∧
    (∀ (st : List ((Txt × Option Txt) × ChartEntry) × List Txt)
       (r : TjaImportRecord) (c : ChartRecordM) (e : ChartEntry),
       lookupAssocD st.1 (dedup_key c) = some e →
       ∃ keep,
         lookupAssocD (chart_map_step st (r, c)).1 (dedup_key c) =
           some keep ∧
         (tx ("duplicate-course")) ∈ keep.issues ∧
         keep.valid = (e.valid || c.valid) ∧
         (e.valid = false → c.valid = true →
           keep = markDup (entry_of_chart r c)) ∧
         (e.valid = true → c.valid = false → keep = markDup e)) := by
  constructor
  · intro key r0 rs v hwf hv
    have hlink := build_song_document_charts_eq key r0 rs
    have h2 : Val.vCharts (group_charts_payload (r0 :: rs)) = Val.vCharts v :=
      Option.some.inj (hlink.symm.trans hv)
    have h3 : group_charts_payload (r0 :: rs) = v := by
      injection h2
    rw [← h3]
    exact group_charts_payload_pairwise (r0 :: rs) hwf
  · intro st r c e hl
    refine ⟨if ¬ e.valid ∧ c.valid then markDup (entry_of_chart r c)
      else markDup e, ?_, ?_, ?_, ?_, ?_⟩
    · have hres : (chart_map_step st (r, c)).1 =
          updateAssocD st.1 (dedup_key c)
            (if ¬ e.valid ∧ c.valid then markDup (entry_of_chart r c)
             else markDup e) := by
        simp only [chart_map_step, hl]
      rw [hres]
      exact lookupAssocD_update_self st.1 (dedup_key c) e _ hl
    · by_cases hv : ¬ e.valid ∧ c.valid
      · rw [if_pos hv]
        exact mem_markDup _
      · rw [if_neg hv]
        exact mem_markDup _
    · by_cases he : e.valid = true <;> by_cases hc : c.valid = true <;>
        simp [markDup, entry_of_chart, he, hc]
    · intro h1 h2
      rw [if_pos ⟨by simp [h1], h2⟩]
    · intro h1 h2
      rw [if_neg (fun hx => by rw [h2] at hx; exact Bool.false_ne_true hx.2)]

/-- Witness for C8: the dedup theorem applied to the one-record sample
group, and the collision theorem applied to a concrete collision between
an invalid stored entry and the valid sample chart, where the valid
chart's marked entry survives. -/
theorem c8_charts_dedup_and_collision_witness :
    ((group_charts_payload [sampleRecord]).Pairwise
      (fun a b => entry_dedup_key a ≠ entry_dedup_key b)) ∧
    (lookupAssocD (chart_map_step
        ([(dedup_key sampleChart,
           entry_of_chart sampleRecord { sampleChart with valid := false })],
          ([] : List Txt))
        (sampleRecord, sampleChart)).1 (dedup_key sampleChart) =
      some (markDup (entry_of_chart sampleRecord sampleChart))) := by
  constructor
  · exact (c8_charts_dedup_and_collision).1 (tx ("k")) sampleRecord []
      (group_charts_payload [sampleRecord]) (by decide) (by decide)
  · obtain ⟨keep, hk1, hk2, hk3, hk4, hk5⟩ :=
      (c8_charts_dedup_and_collision).2
        ([(dedup_key sampleChart,
           entry_of_chart sampleRecord { sampleChart with valid := false })],
          ([] : List Txt))
        sampleRecord sampleChart
        (entry_of_chart sampleRecord { sampleChart with valid := false })
        (by decide)
    have hkeep := hk4 (by decide) (by decide)
    rw [hkeep] at hk1
    exact hk1

/-- C2 counterexample: two records identical except that one has a
no-break space inserted inside the `Pack` folder component (first two
conjuncts) produce different group keys: `_normalise_invisible_whitespace`
maps U+00A0 to a plain space instead of deleting it, so the folder token
becomes `pa ck` rather than `pack`. -/
theorem c2_counterexample_nbsp_insertion :
    nbspRecordB.relative_dir.filter (fun c => decide (c.toNat ≠ 160)) =
      nbspRecordA.relative_dir ∧
    { nbspRecordA with relative_dir := nbspRecordB.relative_dir } =
      nbspRecordB ∧
    compute_group_key nbspRecordA ≠ compute_group_key nbspRecordB := by
  decide

theorem casefold_nonletter (c : Char) (h : ¬ (65 ≤ c.toNat ∧ c.toNat ≤ 90)) :
    asciiCasefold c = c := by
  unfold asciiCasefold
  rw [if_neg h]

theorem casefold_letter (c : Char) (h : 65 ≤ c.toNat ∧ c.toNat ≤ 90) :
    (asciiCasefold c).toNat = c.toNat + 32 := by
  unfold asciiCasefold
  rw [if_pos h]
  have hv : (c.toNat + 32).isValidChar := Or.inl (by omega)
  unfold Char.ofNat
  rw [dif_pos hv]
  rfl

theorem casefold_toNat_cases (c : Char) :
    ((asciiCasefold c).toNat = c.toNat + 32 ∧ 65 ≤ c.toNat ∧ c.toNat ≤ 90) ∨
    (asciiCasefold c = c) := by
  by_cases h : 65 ≤ c.toNat ∧ c.toNat ≤ 90
  · exact Or.inl ⟨casefold_letter c h, h⟩
  · exact Or.inr (casefold_nonletter c h)

theorem pyws_casefold (c : Char) : isPyWsC (asciiCasefold c) = isPyWsC c := by
  rcases casefold_toNat_cases c with ⟨h1, h2, h3⟩ | h1
  · simp only [isPyWsC, h1]
    exact decide_eq_decide.mpr (by constructor <;> (intro h4; omega))
  · rw [h1]

theorem horizws_casefold (c : Char) :
    isHorizWsC (asciiCasefold c) = isHorizWsC c := by
  rcases casefold_toNat_cases c with ⟨h1, h2, h3⟩ | h1
  · simp only [isHorizWsC, h1]
    exact decide_eq_decide.mpr (by constructor <;> (intro h4; omega))
  · rw [h1]

theorem zs_casefold (c : Char) : isZsC (asciiCasefold c) = isZsC c := by
  rcases casefold_toNat_cases c with ⟨h1, h2, h3⟩ | h1
  · simp only [isZsC, h1]
    exact decide_eq_decide.mpr (by constructor <;> (intro h4; omega))
  · rw [h1]

theorem cfclass_casefold (c : Char) : isCfC (asciiCasefold c) = isCfC c := by
  rcases casefold_toNat_cases c with ⟨h1, h2, h3⟩ | h1
  · simp only [isCfC, h1]
    exact decide_eq_decide.mpr (by constructor <;> (intro h4; omega))
  · rw [h1]

theorem zw_casefold (c : Char) :
    isZeroWidthC (asciiCasefold c) = isZeroWidthC c := by
  rcases casefold_toNat_cases c with ⟨h1, h2, h3⟩ | h1
  · simp only [isZeroWidthC, h1]
    exact decide_eq_decide.mpr (by constructor <;> (intro h4; omega))
  · rw [h1]

theorem toNat_injC {c d : Char} (h : c.toNat = d.toNat) : c = d := by
  rcases c with ⟨⟨bv1⟩, h1⟩
  rcases d with ⟨⟨bv2⟩, h2⟩
  simp only [Char.toNat, UInt32.toNat] at h
  congr 2
  exact BitVec.toNat_injective h

theorem casefold_eq_code (c : Char) (d : Char)
    (hd : ¬ (97 ≤ d.toNat ∧ d.toNat ≤ 122))
    (hd2 : ¬ (65 ≤ d.toNat ∧ d.toNat ≤ 90)) :
    (asciiCasefold c = d) ↔ (c = d) := by
  rcases casefold_toNat_cases c with ⟨h1, h2, h3⟩ | h1
  · constructor
    · intro h4
      have h5 : (asciiCasefold c).toNat = d.toNat := by rw [h4]
      omega
    · intro h4
      have h5 : c.toNat = d.toNat := by rw [h4]
      omega
  · rw [h1]

theorem bsSlash_casefold (c : Char) :
    bsSlash (asciiCasefold c) = asciiCasefold (bsSlash c) := by
  by_cases hc : c = '\\'
  · subst hc
    decide
  · have h1 : bsSlash c = c := by
      unfold bsSlash
      rw [if_neg hc]
    rw [h1]
    have h2 : asciiCasefold c ≠ '\\' := by
      intro h3
      exact hc ((casefold_eq_code c ('\\') (by decide) (by decide)).mp h3)
    unfold bsSlash
    rw [if_neg h2]

theorem map_casefold_bsSlash (l : Txt) :
    (l.map bsSlash).map asciiCasefold = (l.map asciiCasefold).map bsSlash := by
  simp only [List.map_map]
  congr 1
  funext c
  exact (bsSlash_casefold c).symm

theorem collapseRunsAux_casefold (p : Char → Bool) (rep : Char)
    (hp : ∀ c, p (asciiCasefold c) = p c) (hrep : asciiCasefold rep = rep)
    (flag : Bool) (l : Txt) :
    (collapseRunsAux p rep flag l).map asciiCasefold =
      collapseRunsAux p rep flag (l.map asciiCasefold) := by
  induction l generalizing flag with
  | nil => rfl
  | cons c t ih =>
    by_cases hc : p c = true
    · cases flag
      · simp [collapseRunsAux, hc, hp c, hrep, ih]
      · simp [collapseRunsAux, hc, hp c, ih]
    · have hc2 : p c = false := by simpa using hc
      simp [collapseRunsAux, hc2, hp c, ih]

theorem collapseRuns_casefold (p : Char → Bool) (rep : Char)
    (hp : ∀ c, p (asciiCasefold c) = p c) (hrep : asciiCasefold rep = rep)
    (l : Txt) :
    (collapseRuns p rep l).map asciiCasefold =
      collapseRuns p rep (l.map asciiCasefold) :=
  collapseRunsAux_casefold p rep hp hrep false l

theorem dropWhile_casefold (p : Char → Bool)
    (hp : ∀ c, p (asciiCasefold c) = p c) (l : Txt) :
    (l.dropWhile p).map asciiCasefold = (l.map asciiCasefold).dropWhile p := by
  rw [List.dropWhile_map, show (p ∘ asciiCasefold) = p from funext hp]

theorem stripBoth_casefold (p : Char → Bool)
    (hp : ∀ c, p (asciiCasefold c) = p c) (l : Txt) :
    (stripBoth p l).map asciiCasefold = stripBoth p (l.map asciiCasefold) := by
  unfold stripBoth stripLeading stripTrailing
  rw [List.map_reverse, dropWhile_casefold p hp, List.map_reverse,
    dropWhile_casefold p hp]

theorem invisibleStep_casefold (c : Char) :
    invisibleStep (asciiCasefold c) =
      (invisibleStep c).map asciiCasefold := by
  have hsp : (asciiCasefold c = ' ') ↔ (c = ' ') :=
    casefold_eq_code c (' ') (by decide) (by decide)
  have h160 : ((asciiCasefold c).toNat = 160) ↔ (c.toNat = 160) := by
    rcases casefold_toNat_cases c with ⟨h1, h2, h3⟩ | h1
    · constructor <;> (intro h4; omega)
    · rw [h1]
  by_cases hzw : isZeroWidthC c = true
  · simp [invisibleStep, zw_casefold, hzw]
  · by_cases hcf2 : isCfC c = true
    · simp [invisibleStep, zw_casefold, cfclass_casefold, hzw, hcf2]
    · by_cases hzs : isZsC c = true
      · by_cases hsp2 : c = ' '
        · subst hsp2
          decide
        · have hsp3 : asciiCasefold c ≠ ' ' := fun h => hsp2 (hsp.mp h)
          have hspc : asciiCasefold (' ') = ' ' := by decide
          simp [invisibleStep, zw_casefold, cfclass_casefold, zs_casefold,
            hzw, hcf2, hzs, hsp2, hsp3, hspc]
      · by_cases h1602 : c.toNat = 160
        · have hspc : asciiCasefold (' ') = ' ' := by decide
          simp [invisibleStep, zw_casefold, cfclass_casefold, zs_casefold,
            hzw, hcf2, hzs, h160, h1602, hspc]
        · have h1603 : (asciiCasefold c).toNat ≠ 160 := fun h => h1602 (h160.mp h)
          simp [invisibleStep, zw_casefold, cfclass_casefold, zs_casefold,
            hzw, hcf2, hzs, h1602, h1603]

theorem filterMap_invisible_casefold (l : Txt) :
    (l.filterMap invisibleStep).map asciiCasefold =
      (l.map asciiCasefold).filterMap invisibleStep := by
  rw [List.filterMap_map, List.map_filterMap]
  congr 1
  funext c
  exact (invisibleStep_casefold c).symm

theorem filter_zero_casefold (l : Txt) :
    (l.filter (fun c => c ≠ Char.ofNat 0)).map asciiCasefold =
      (l.map asciiCasefold).filter (fun c => c ≠ Char.ofNat 0) := by
  rw [List.filter_map]
  have hfn : ((fun c => decide (c ≠ Char.ofNat 0)) ∘ asciiCasefold) =
      (fun c : Char => decide (c ≠ Char.ofNat 0)) := by
    funext c
    have h := casefold_eq_code c (Char.ofNat 0) (by decide) (by decide)
    simp only [Function.comp]
    exact decide_eq_decide.mpr (not_congr h)
  rw [hfn]

theorem clean_metadata_value_casefold (l : Txt) :
    (clean_metadata_value l).map asciiCasefold =
      clean_metadata_value (l.map asciiCasefold) := by
  unfold clean_metadata_value normalise_invisible_whitespace collapseHorizWs
  rw [collapseRuns_casefold isHorizWsC (' ') horizws_casefold (by decide),
    filterMap_invisible_casefold, filter_zero_casefold]

theorem slash_pred_casefold (c : Char) :
    (decide (asciiCasefold c = '/')) = (decide (c = '/')) :=
  decide_eq_decide.mpr (casefold_eq_code c ('/') (by decide) (by decide))

theorem normalise_casefold_invariant (s s' : Txt) (b2 : Bool)
    (h1 : ('%') ∉ s) (h2 : ('%') ∉ s')
    (h : s.map asciiCasefold = s'.map asciiCasefold) :
    normalise_group_text s true b2 = normalise_group_text s' true b2 := by
  have hnil : s = [] ↔ s' = [] := by
    constructor
    · intro h0
      rw [h0] at h
      exact List.map_eq_nil.mp h.symm
    · intro h0
      rw [h0] at h
      exact List.map_eq_nil.mp h
  by_cases hs : s = []
  · rw [hs, hnil.mp hs]
  · have hs' : s' ≠ [] := fun h0 => hs (hnil.mpr h0)
    have e3 : (s.map bsSlash).map asciiCasefold =
        (s'.map bsSlash).map asciiCasefold := by
      rw [map_casefold_bsSlash, map_casefold_bsSlash, h]
    have e4 : (collapseSlashes (s.map bsSlash)).map asciiCasefold =
        (collapseSlashes (s'.map bsSlash)).map asciiCasefold := by
      unfold collapseSlashes
      rw [collapseRuns_casefold _ _ slash_pred_casefold (by decide),
        collapseRuns_casefold _ _ slash_pred_casefold (by decide), e3]
    have e5 : ((if b2 then stripBoth (fun c => c = '/')
          (collapseSlashes (s.map bsSlash))
        else collapseSlashes (s.map bsSlash))).map asciiCasefold =
        ((if b2 then stripBoth (fun c => c = '/')
          (collapseSlashes (s'.map bsSlash))
        else collapseSlashes (s'.map bsSlash))).map asciiCasefold := by
      cases b2
      · simpa using e4
      · simp only [if_true]
        rw [stripBoth_casefold _ slash_pred_casefold,
          stripBoth_casefold _ slash_pred_casefold, e4]
    have e6 : (stripBoth isPyWsC ((if b2 then stripBoth (fun c => c = '/')
          (collapseSlashes (s.map bsSlash))
        else collapseSlashes (s.map bsSlash)))).map asciiCasefold =
        (stripBoth isPyWsC ((if b2 then stripBoth (fun c => c = '/')
          (collapseSlashes (s'.map bsSlash))
        else collapseSlashes (s'.map bsSlash)))).map asciiCasefold := by
      rw [stripBoth_casefold _ pyws_casefold,
        stripBoth_casefold _ pyws_casefold, e5]
    have e7 : (collapseWsRun (stripBoth isPyWsC
          ((if b2 then stripBoth (fun c => c = '/')
            (collapseSlashes (s.map bsSlash))
          else collapseSlashes (s.map bsSlash))))).map asciiCasefold =
        (collapseWsRun (stripBoth isPyWsC
          ((if b2 then stripBoth (fun c => c = '/')
            (collapseSlashes (s'.map bsSlash))
          else collapseSlashes (s'.map bsSlash))))).map asciiCasefold := by
      unfold collapseWsRun
      rw [collapseRuns_casefold _ _ pyws_casefold (by decide),
        collapseRuns_casefold _ _ pyws_casefold (by decide), e6]
    have e8 : (clean_metadata_value (collapseWsRun (stripBoth isPyWsC
          ((if b2 then stripBoth (fun c => c = '/')
            (collapseSlashes (s.map bsSlash))
          else collapseSlashes (s.map bsSlash)))))).map asciiCasefold =
        (clean_metadata_value (collapseWsRun (stripBoth isPyWsC
          ((if b2 then stripBoth (fun c => c = '/')
            (collapseSlashes (s'.map bsSlash))
          else collapseSlashes (s'.map bsSlash)))))).map asciiCasefold := by
      rw [clean_metadata_value_casefold, clean_metadata_value_casefold, e7]
    unfold normalise_group_text
    rw [if_neg hs, if_neg hs']
    rw [unquote_id_of_no_pct s h1, unquote_id_of_no_pct s' h2]
    simp only [nfcModel, if_true, ite_true]
    exact e8

theorem normalise_pct_invariant (s s' : Txt) (b1 b2 : Bool)
    (hs : s ≠ []) (hs' : s' ≠ [])
    (h : unquoteModel s = unquoteModel s') :
    normalise_group_text s b1 b2 = normalise_group_text s' b1 b2 := by
  unfold normalise_group_text
  rw [if_neg hs, if_neg hs', h]

theorem normalise_slash_invariant (s s' : Txt) (b1 b2 : Bool)
    (h1 : ('%') ∉ s) (h2 : ('%') ∉ s') (hs : s ≠ []) (hs' : s' ≠ [])
    (h : collapseSlashes (s.map bsSlash) = collapseSlashes (s'.map bsSlash)) :
    normalise_group_text s b1 b2 = normalise_group_text s' b1 b2 := by
  unfold normalise_group_text
  rw [if_neg hs, if_neg hs']
  rw [unquote_id_of_no_pct s h1, unquote_id_of_no_pct s' h2]
  simp only [nfcModel]
  rw [h]

theorem pyws_ne_pct (c : Char) (h : isPyWsC c = true) : c ≠ '%' := by
  intro he
  rw [he] at h
  exact absurd h (by decide)

theorem pyws_bsSlash (c : Char) (h : isPyWsC c = true) : bsSlash c = c := by
  unfold bsSlash
  rw [if_neg]
  intro he
  rw [he] at h
  exact absurd h (by decide)

theorem pyws_not_slash (c : Char) (h : isPyWsC c = true) :
    (decide (c = '/')) = false := by
  simp only [decide_eq_false_iff_not]
  intro he
  rw [he] at h
  exact absurd h (by decide)

theorem collapseRunsAux_cons_neg (p : Char → Bool) (rep : Char) (c : Char)
    (t : Txt) (hc : p c = false) :
    collapseRunsAux p rep false (c :: t) = c :: collapseRunsAux p rep false t := by
  cases t with
  | nil => simp [collapseRunsAux, hc]
  | cons d r => simp [collapseRunsAux, hc]

theorem collapseRunsAux_prefix_not (p : Char → Bool) (rep : Char) (a b : Txt)
    (ha : ∀ c ∈ a, p c = false) :
    collapseRunsAux p rep false (a ++ b) =
      a ++ collapseRunsAux p rep false b := by
  induction a with
  | nil => rfl
  | cons c t ih =>
    rw [List.cons_append,
      collapseRunsAux_cons_neg p rep c (t ++ b) (ha c (List.mem_cons_self c t)),
      ih (fun c2 h2 => ha c2 (List.mem_cons_of_mem c h2)), List.cons_append]

theorem collapseRunsAux_append_not (p : Char → Bool) (rep : Char) (a b : Txt)
    (hb : ∀ c ∈ b, p c = false) (flag : Bool) :
    collapseRunsAux p rep flag (a ++ b) =
      collapseRunsAux p rep flag a ++ b := by
  induction a generalizing flag with
  | nil =>
    simp only [List.nil_append]
    rw [collapseRunsAux_id_of_not p rep flag b hb]
    rfl
  | cons c t ih =>
    by_cases hc : p c = true
    · cases flag
      · simp [collapseRunsAux, hc, ih]
      · simp [collapseRunsAux, hc, ih]
    · have hc2 : p c = false := by simpa using hc
      simp [collapseRunsAux, hc2, ih]

theorem dropWhile_append_all (p : Char → Bool) (a b : Txt)
    (ha : ∀ c ∈ a, p c = true) :
    (a ++ b).dropWhile p = b.dropWhile p := by
  induction a with
  | nil => rfl
  | cons c t ih =>
    rw [List.cons_append, List.dropWhile_cons_of_pos (ha c (by simp))]
    exact ih (fun c2 h2 => ha c2 (List.mem_cons_of_mem c h2))

theorem stripBoth_id_of_edges (p : Char → Bool) (l : Txt)
    (hh : ∀ c, l.head? = some c → p c = false)
    (hl : ∀ c, l.getLast? = some c → p c = false) : stripBoth p l = l := by
  unfold stripBoth stripLeading stripTrailing
  cases hcl : l with
  | nil => rfl
  | cons c t =>
    have hc : p c = false := hh c (by rw [hcl]; rfl)
    rw [← hcl]
    have h1 : l.dropWhile p = l := by
      rw [hcl, List.dropWhile_cons_of_neg (by rw [hc]; simp)]
    rw [h1]
    cases hrev : l.reverse with
    | nil => simp at hrev; rw [hrev]; rfl
    | cons d r =>
      have hd : l.getLast? = some d := by
        rw [← List.head?_reverse, hrev]
        rfl
      have hdp : p d = false := hl d hd
      rw [List.dropWhile_cons_of_neg (by simp [hdp])]
      rw [← hrev]
      rw [List.reverse_reverse]

theorem normalise_outer_ws_invariant (s pre suf : Txt) (b1 b2 : Bool)
    (hpre : ∀ c ∈ pre, isPyWsC c = true)
    (hsuf : ∀ c ∈ suf, isPyWsC c = true)
    (hpct : ('%') ∉ s) (hs : s ≠ [])
    (hhead : ∀ c, s.head? = some c → isPyWsC c = false ∧ c ≠ '/' ∧ c ≠ '\\')
    (hlast : ∀ c, s.getLast? = some c →
      isPyWsC c = false ∧ c ≠ '/' ∧ c ≠ '\\') :
    normalise_group_text (pre ++ s ++ suf) b1 b2 =
      normalise_group_text s b1 b2 := by
  obtain ⟨chead, stail, hsc⟩ : ∃ c t, s = c :: t := by
    cases s with
    | nil => exact absurd rfl hs
    | cons c t => exact ⟨c, t, rfl⟩
  have hheadf := hhead chead (by rw [hsc]; rfl)
  have hlast2 : s.getLast? = some (s.getLast hs) := List.getLast?_eq_getLast s hs
  have hlastf := hlast (s.getLast hs) hlast2
  have hdecomp : s.dropLast ++ [s.getLast hs] = s :=
    List.dropLast_append_getLast hs
  have hwrapne : pre ++ s ++ suf ≠ [] := by
    rw [hsc]
    simp
  have hpct2 : ('%') ∉ pre ++ s ++ suf := by
    intro hmem
    rcases List.mem_append.mp hmem with hmem | hmem
    · rcases List.mem_append.mp hmem with hm2 | hm2
      · exact pyws_ne_pct _ (hpre _ hm2) rfl
      · exact hpct hm2
    · exact pyws_ne_pct _ (hsuf _ hmem) rfl
  have hmappre : pre.map bsSlash = pre :=
    mapIdOn pre bsSlash (fun c h => pyws_bsSlash c (hpre c h))
  have hmapsuf : suf.map bsSlash = suf :=
    mapIdOn suf bsSlash (fun c h => pyws_bsSlash c (hsuf c h))
  have hbshead : bsSlash chead = chead := by
    unfold bsSlash
    rw [if_neg hheadf.2.2]
  have hbslast : bsSlash (s.getLast hs) = s.getLast hs := by
    unfold bsSlash
    rw [if_neg hlastf.2.2]
  have hslashhead : (decide (chead = '/')) = false := by
    simp [hheadf.2.1]
  have hslashlast : (decide (s.getLast hs = '/')) = false := by
    simp [hlastf.2.1]
  have hM1 : s.map bsSlash = chead :: stail.map bsSlash := by
    rw [hsc, List.map_cons, hbshead]
  have hMlast : s.map bsSlash = s.dropLast.map bsSlash ++ [s.getLast hs] := by
    conv_lhs => rw [← hdecomp]
    rw [List.map_append, List.map_cons, List.map_nil, hbslast]
  have hB1 : collapseSlashes (s.map bsSlash) =
      chead :: collapseRunsAux (fun c => c = '/') ('/') false
        (stail.map bsSlash) := by
    rw [hM1]
    unfold collapseSlashes collapseRuns
    exact collapseRunsAux_cons_neg (fun c => c = '/') ('/') chead
      (stail.map bsSlash) hslashhead
  have hB2 : collapseSlashes (s.map bsSlash) =
      collapseRunsAux (fun c => c = '/') ('/') false (s.dropLast.map bsSlash)
        ++ [s.getLast hs] := by
    conv_lhs => rw [hMlast]
    unfold collapseSlashes collapseRuns
    exact collapseRunsAux_append_not _ _ _ _
      (fun c hc => by
        have : c = s.getLast hs := by simpa using hc
        rw [this]
        exact hslashlast) false
  have hA : collapseSlashes ((pre ++ s ++ suf).map bsSlash) =
      pre ++ collapseSlashes (s.map bsSlash) ++ suf := by
    rw [List.map_append, List.map_append, hmappre, hmapsuf]
    unfold collapseSlashes collapseRuns
    rw [List.append_assoc]
    rw [collapseRunsAux_prefix_not _ _ pre _
      (fun c h => pyws_not_slash c (hpre c h))]
    rw [collapseRunsAux_append_not _ _ _ suf
      (fun c h => pyws_not_slash c (hsuf c h)) false]
    rw [List.append_assoc]
  have hBne : collapseSlashes (s.map bsSlash) ≠ [] := by
    rw [hB1]
    simp
  have hBhead : ∀ c, (collapseSlashes (s.map bsSlash)).head? = some c →
      c = chead := by
    intro c hc
    rw [hB1] at hc
    simpa using hc.symm
  have hBlast : ∀ c, (collapseSlashes (s.map bsSlash)).getLast? = some c →
      c = s.getLast hs := by
    intro c hc
    rw [hB2, List.getLast?_concat] at hc
    simpa using hc.symm
  have hAhead : ∀ c,
      (pre ++ collapseSlashes (s.map bsSlash) ++ suf).head? = some c →
      isPyWsC c = true ∨ c = chead := by
    intro c hc
    cases pre with
    | nil =>
      rw [List.nil_append, hB1] at hc
      exact Or.inr (by simpa using hc.symm)
    | cons p0 pt =>
      have : c = p0 := by simpa using hc.symm
      rw [this]
      exact Or.inl (hpre p0 (List.mem_cons_self p0 pt))
  have hAlast : ∀ c,
      (pre ++ collapseSlashes (s.map bsSlash) ++ suf).getLast? = some c →
      isPyWsC c = true ∨ c = s.getLast hs := by
    intro c hc
    cases hsuf2 : suf with
    | nil =>
      rw [hsuf2, List.append_nil, List.getLast?_append_of_ne_nil _ hBne, hB2,
        List.getLast?_concat] at hc
      exact Or.inr (by simpa using hc.symm)
    | cons s0 st =>
      rw [hsuf2, List.getLast?_append_of_ne_nil _ (by simp)] at hc
      have hg : (s0 :: st).getLast? = some ((s0 :: st).getLast (by simp)) :=
        List.getLast?_eq_getLast _ (by simp)
      rw [hg] at hc
      have hceq : c = (s0 :: st).getLast (by simp) := (Option.some.inj hc).symm
      have hcm : c ∈ s0 :: st := by
        rw [hceq]
        exact List.getLast_mem _
      rw [← hsuf2] at hcm
      exact Or.inl (hsuf c hcm)
  have h5A : (if b2 then stripBoth (fun c => c = '/')
        (pre ++ collapseSlashes (s.map bsSlash) ++ suf)
      else pre ++ collapseSlashes (s.map bsSlash) ++ suf) =
      pre ++ collapseSlashes (s.map bsSlash) ++ suf := by
    cases b2
    · rfl
    · simp only [if_true, ite_true]
      apply stripBoth_id_of_edges
      · intro c hc
        rcases hAhead c hc with h | h
        · exact pyws_not_slash c h
        · rw [h]
          exact hslashhead
      · intro c hc
        rcases hAlast c hc with h | h
        · exact pyws_not_slash c h
        · rw [h]
          exact hslashlast
  have h5B : (if b2 then stripBoth (fun c => c = '/')
        (collapseSlashes (s.map bsSlash))
      else collapseSlashes (s.map bsSlash)) =
      collapseSlashes (s.map bsSlash) := by
    cases b2
    · rfl
    · simp only [if_true, ite_true]
      apply stripBoth_id_of_edges
      · intro c hc
        rw [hBhead c hc]
        exact hslashhead
      · intro c hc
        rw [hBlast c hc]
        exact hslashlast
  have h6A : stripBoth isPyWsC
      (pre ++ collapseSlashes (s.map bsSlash) ++ suf) =
      collapseSlashes (s.map bsSlash) := by
    unfold stripBoth stripLeading stripTrailing
    rw [List.append_assoc, dropWhile_append_all isPyWsC pre _ hpre]
    have hdw : (collapseSlashes (s.map bsSlash) ++ suf).dropWhile isPyWsC =
        collapseSlashes (s.map bsSlash) ++ suf := by
      rw [hB1, List.cons_append,
        List.dropWhile_cons_of_neg (by simp [hheadf.1])]
    rw [hdw, List.reverse_append,
      dropWhile_append_all isPyWsC suf.reverse _
        (fun c h => hsuf c (List.mem_reverse.mp h))]
    have hrevB : (collapseSlashes (s.map bsSlash)).reverse =
        s.getLast hs :: (collapseRunsAux (fun c => c = '/') ('/') false
          (s.dropLast.map bsSlash)).reverse := by
      rw [hB2, List.reverse_append]
      rfl
    rw [hrevB, List.dropWhile_cons_of_neg (by simp [hlastf.1]), ← hrevB,
      List.reverse_reverse]
  have h6B : stripBoth isPyWsC (collapseSlashes (s.map bsSlash)) =
      collapseSlashes (s.map bsSlash) := by
    apply stripBoth_id_of_edges
    · intro c hc
      rw [hBhead c hc]
      exact hheadf.1
    · intro c hc
      rw [hBlast c hc]
      exact hlastf.1
  unfold normalise_group_text
  rw [if_neg hwrapne, if_neg hs]
  rw [unquote_id_of_no_pct _ hpct2, unquote_id_of_no_pct s hpct]
  simp only [nfcModel]
  rw [hA, h5A, h6A, h5B, h6B]

theorem nbspRel_pyws {c c2 : Char} (h : nbspRel c c2) :
    isPyWsC c2 = isPyWsC c := by
  rcases h with rfl | ⟨h1, h2⟩
  · rfl
  · subst h1
    have h3 : isPyWsC c2 = true := by
      simp only [isPyWsC, h2]
      decide
    rw [h3]
    decide

theorem nbspRel_slash {c c2 : Char} (h : nbspRel c c2) :
    (decide (c2 = '/')) = (decide (c = '/')) := by
  rcases h with rfl | ⟨h1, h2⟩
  · rfl
  · subst h1
    have h3 : c2 ≠ '/' := by
      intro he
      rw [he] at h2
      exact absurd h2 (by decide)
    simp [h3]

theorem nbspRel_bsSlash {c c2 : Char} (h : nbspRel c c2) :
    nbspRel (bsSlash c) (bsSlash c2) := by
  rcases h with rfl | ⟨h1, h2⟩
  · exact Or.inl rfl
  · subst h1
    have h3 : c2 ≠ '\\' := by
      intro he
      rw [he] at h2
      exact absurd h2 (by decide)
    have h4 : bsSlash c2 = c2 := by
      unfold bsSlash
      rw [if_neg h3]
    have h5 : bsSlash (' ') = ' ' := by decide
    rw [h4, h5]
    exact Or.inr ⟨rfl, h2⟩

theorem nbspRel_eq_of_not_ws {c c2 : Char} (h : nbspRel c c2)
    (hw : isPyWsC c = false) : c2 = c := by
  rcases h with rfl | ⟨h1, h2⟩
  · rfl
  · rw [h1] at hw
    exact absurd hw (by decide)

theorem forall₂_map_bsSlash {s s2 : Txt} (h : List.Forall₂ nbspRel s s2) :
    List.Forall₂ nbspRel (s.map bsSlash) (s2.map bsSlash) := by
  induction h with
  | nil => exact List.Forall₂.nil
  | cons hab hrest ih => exact List.Forall₂.cons (nbspRel_bsSlash hab) ih

theorem forall₂_collapseAux (p : Char → Bool)
    (hp : ∀ {c c2 : Char}, nbspRel c c2 → p c2 = p c) (rep : Char)
    {s s2 : Txt} (h : List.Forall₂ nbspRel s s2) (flag : Bool) :
    List.Forall₂ nbspRel (collapseRunsAux p rep flag s)
      (collapseRunsAux p rep flag s2) := by
  induction h generalizing flag with
  | nil => exact List.Forall₂.nil
  | @cons a b l1 l2 hab hrest ih =>
    have hpe := hp hab
    by_cases hpa : p a = true
    · have hpb : p b = true := by rw [hpe, hpa]
      cases flag
      · simp only [collapseRunsAux, hpa, hpb, if_true, Bool.false_eq_true,
          if_false, ite_true, ite_false]
        exact List.Forall₂.cons (Or.inl rfl) (ih true)
      · simp only [collapseRunsAux, hpa, hpb, if_true, ite_true]
        exact ih true
    · have hpa2 : p a = false := by simpa using hpa
      have hpb : p b = false := by rw [hpe, hpa2]
      simp only [collapseRunsAux, hpa2, hpb, Bool.false_eq_true, if_false]
      exact List.Forall₂.cons hab (ih false)

theorem forall₂_dropWhile (p : Char → Bool)
    (hp : ∀ {c c2 : Char}, nbspRel c c2 → p c2 = p c)
    {s s2 : Txt} (h : List.Forall₂ nbspRel s s2) :
    List.Forall₂ nbspRel (s.dropWhile p) (s2.dropWhile p) := by
  induction h with
  | nil => exact List.Forall₂.nil
  | @cons a b l1 l2 hab hrest ih =>
    have hpe := hp hab
    by_cases hpa : p a = true
    · have hpb : p b = true := by rw [hpe, hpa]
      rw [List.dropWhile_cons_of_pos hpa, List.dropWhile_cons_of_pos hpb]
      exact ih
    · have hpa2 : ¬ p a = true := hpa
      have hpb : ¬ p b = true := by
        rw [hpe]
        exact hpa
      rw [List.dropWhile_cons_of_neg hpa2, List.dropWhile_cons_of_neg hpb]
      exact List.Forall₂.cons hab hrest

theorem forall₂_append_nbsp {l1 u1 l2 u2 : Txt}
    (h1 : List.Forall₂ nbspRel l1 l2) (h2 : List.Forall₂ nbspRel u1 u2) :
    List.Forall₂ nbspRel (l1 ++ u1) (l2 ++ u2) := by
  induction h1 with
  | nil => exact h2
  | cons hab hrest ih => exact List.Forall₂.cons hab ih

theorem forall₂_reverse {s s2 : Txt} (h : List.Forall₂ nbspRel s s2) :
    List.Forall₂ nbspRel s.reverse s2.reverse := by
  induction h with
  | nil => exact List.Forall₂.nil
  | @cons a b l1 l2 hab hrest ih =>
    rw [List.reverse_cons, List.reverse_cons]
    exact forall₂_append_nbsp ih
      (List.Forall₂.cons hab List.Forall₂.nil)

theorem forall₂_stripBoth (p : Char → Bool)
    (hp : ∀ {c c2 : Char}, nbspRel c c2 → p c2 = p c)
    {s s2 : Txt} (h : List.Forall₂ nbspRel s s2) :
    List.Forall₂ nbspRel (stripBoth p s) (stripBoth p s2) := by
  unfold stripBoth stripLeading stripTrailing
  exact forall₂_reverse (forall₂_dropWhile p hp
    (forall₂_reverse (forall₂_dropWhile p hp h)))

theorem collapseWs_eq_of_forall₂ {s s2 : Txt}
    (h : List.Forall₂ nbspRel s s2) (flag : Bool) :
    collapseRunsAux isPyWsC (' ') flag s =
      collapseRunsAux isPyWsC (' ') flag s2 := by
  induction h generalizing flag with
  | nil => rfl
  | @cons a b l1 l2 hab hrest ih =>
    have hpe := nbspRel_pyws hab
    by_cases hwa : isPyWsC a = true
    · have hwb : isPyWsC b = true := by rw [hpe, hwa]
      cases flag <;> simp [collapseRunsAux, hwa, hwb, ih]
    · have hwa2 : isPyWsC a = false := by simpa using hwa
      have heq : b = a := nbspRel_eq_of_not_ws hab hwa2
      have hwb : isPyWsC b = false := by rw [hpe, hwa2]
      simp [collapseRunsAux, hwa2, hwb, ih, heq]

theorem normalise_nbsp_sub_invariant (s s2 : Txt) (b1 b2 : Bool)
    (hpct : ('%') ∉ s) (hpct2 : ('%') ∉ s2)
    (h : List.Forall₂ nbspRel s s2) :
    normalise_group_text s b1 b2 = normalise_group_text s2 b1 b2 := by
  have hnil : s = [] ↔ s2 = [] := by
    cases h with
    | nil => simp
    | cons hab hrest => simp
  by_cases hs : s = []
  · rw [hs, hnil.mp hs]
  · have hs2 : s2 ≠ [] := fun h0 => hs (hnil.mpr h0)
    have f3 := forall₂_map_bsSlash h
    have f4 : List.Forall₂ nbspRel (collapseSlashes (s.map bsSlash))
        (collapseSlashes (s2.map bsSlash)) := by
      unfold collapseSlashes collapseRuns
      exact forall₂_collapseAux _ (fun hab => nbspRel_slash hab) ('/') f3 false
    have f5 : List.Forall₂ nbspRel
        (if b2 then stripBoth (fun c => c = '/')
          (collapseSlashes (s.map bsSlash))
        else collapseSlashes (s.map bsSlash))
        (if b2 then stripBoth (fun c => c = '/')
          (collapseSlashes (s2.map bsSlash))
        else collapseSlashes (s2.map bsSlash)) := by
      cases b2
      · simpa using f4
      · simp only [if_true, ite_true]
        exact forall₂_stripBoth _ (fun hab => nbspRel_slash hab) f4
    have f6 := forall₂_stripBoth isPyWsC (fun hab => nbspRel_pyws hab) f5
    have e7 : collapseWsRun (stripBoth isPyWsC
        (if b2 then stripBoth (fun c => c = '/')
          (collapseSlashes (s.map bsSlash))
        else collapseSlashes (s.map bsSlash))) =
        collapseWsRun (stripBoth isPyWsC
        (if b2 then stripBoth (fun c => c = '/')
          (collapseSlashes (s2.map bsSlash))
        else collapseSlashes (s2.map bsSlash))) := by
      unfold collapseWsRun collapseRuns
      exact collapseWs_eq_of_forall₂ f6 false
    unfold normalise_group_text
    rw [if_neg hs, if_neg hs2]
    rw [unquote_id_of_no_pct s hpct, unquote_id_of_no_pct s2 hpct2]
    simp only [nfcModel]
    rw [e7]

theorem takeWhile_all (p : Char → Bool) (l : Txt)
    (h : ∀ c ∈ l, p c = true) : l.takeWhile p = l := by
  induction l with
  | nil => rfl
  | cons c t ih =>
    rw [List.takeWhile_cons_of_pos (h c (List.mem_cons_self c t)),
      ih (fun d hd => h d (List.mem_cons_of_mem c hd))]

theorem urlPathOf_id_of_plain (u : Txt) (h1 : ('#') ∉ u) (h2 : ('?') ∉ u)
    (h3 : (':') ∉ u) (h4 : ∀ t, u ≠ '/' :: '/' :: t) :
    urlPathOf u = u := by
  have e1 : u.takeWhile (fun c => c ≠ '#') = u := by
    apply takeWhile_all
    intro c hc
    simp only [decide_eq_true_eq]
    intro he
    rw [he] at hc
    exact h1 hc
  have e2 : u.takeWhile (fun c => c ≠ '?') = u := by
    apply takeWhile_all
    intro c hc
    simp only [decide_eq_true_eq]
    intro he
    rw [he] at hc
    exact h2 hc
  have e3 : u.takeWhile (fun c => c ≠ ':') = u := by
    apply takeWhile_all
    intro c hc
    simp only [decide_eq_true_eq]
    intro he
    rw [he] at hc
    exact h3 hc
  unfold urlPathOf
  dsimp only
  rw [e1, e2, e3]
  rw [if_neg (fun hcon => absurd hcon.1 (Nat.lt_irrefl _))]
  split
  · exact absurd rfl (h4 _)
  · rfl

theorem folder_source_eq_dir_url (r : TjaImportRecord)
    (h0 : r.dir_url ≠ []) (hU : urlPathOf r.dir_url = r.dir_url) :
    folder_source r = r.dir_url := by
  unfold folder_source
  dsimp only
  rw [if_neg h0, hU, if_neg h0]
  rw [if_neg (fun hcon => h0 hcon.1)]

theorem folder_token_eq_of_normalise_eq (r r2 : TjaImportRecord)
    (h1 : normalise_group_text (folder_source r) true true =
      normalise_group_text (folder_source r2) true true)
    (h2 : normalise_group_text r.relative_dir true true =
      normalise_group_text r2.relative_dir true true) :
    folder_token_from_record r = folder_token_from_record r2 := by
  unfold folder_token_from_record
  rw [h1, h2]

theorem compute_group_key_eq_audio (r r2 : TjaImportRecord) (h : Txt)
    (hah : r.audio_hash = some h) (hah2 : r2.audio_hash = some h)
    (hne : h ≠ [])
    (h1 : normalise_group_text (folder_source r) true true =
      normalise_group_text (folder_source r2) true true)
    (h2 : normalise_group_text r.relative_dir true true =
      normalise_group_text r2.relative_dir true true) :
    compute_group_key r = compute_group_key r2 := by
  have hft := folder_token_eq_of_normalise_eq r r2 h1 h2
  unfold compute_group_key
  conv_lhs => rw [hah]
  conv_rhs => rw [hah2]
  dsimp only
  rw [if_neg hne, if_neg hne, hft]

theorem joinPair_ne_nil (a b : Txt) (h : a ≠ [] ∨ b ≠ []) :
    joinSep '/' ([a, b].filter (fun c => c ≠ [])) ≠ [] := by
  by_cases ha : a = []
  · have hb : b ≠ [] := by
      rcases h with h | h
      · exact absurd ha h
      · exact h
    subst ha
    rw [List.filter_cons_of_neg (by decide),
      List.filter_cons_of_pos (by simpa using hb), List.filter_nil]
    exact hb
  · by_cases hb : b = []
    · subst hb
      rw [List.filter_cons_of_pos (by simpa using ha),
        List.filter_cons_of_neg (by decide), List.filter_nil]
      exact ha
    · rw [List.filter_cons_of_pos (by simpa using ha),
        List.filter_cons_of_pos (by simpa using hb), List.filter_nil]
      show a ++ '/' :: b ≠ []
      simp

theorem stable_path_hash_eq_of_normalise_eq (r r2 : TjaImportRecord)
    (hrd : normalise_group_text r.relative_dir true true =
      normalise_group_text r2.relative_dir true true)
    (hrp : normalise_group_text r.relative_path true false =
      normalise_group_text r2.relative_path true false)
    (hne : normalise_group_text r.relative_dir true true ≠ [] ∨
      normalise_group_text r.relative_path true false ≠ []) :
    stable_path_hash r = stable_path_hash r2 := by
  have hne2 : normalise_group_text r2.relative_dir true true ≠ [] ∨
      normalise_group_text r2.relative_path true false ≠ [] := by
    rw [← hrd, ← hrp]
    exact hne
  unfold stable_path_hash
  dsimp only
  rw [if_neg (joinPair_ne_nil _ _ hne), if_neg (joinPair_ne_nil _ _ hne2),
    hrd, hrp]

theorem compute_group_key_missing_form (r : TjaImportRecord)
    (hah : r.audio_hash = none ∨ r.audio_hash = some []) :
    compute_group_key r =
      tx ("missing:") ++ folder_token_from_record r ++
        ':' :: sanitise_group_token
          (normalise_group_text
            (if r.normalized_title ≠ [] then r.normalized_title
             else normalise_title_key r.title) true false)
          (tx ("untitled")) ++
        ':' :: stable_path_hash r := by
  unfold compute_group_key
  rcases hah with hah | hah
  · conv_lhs => rw [hah]
  · conv_lhs => rw [hah]
    dsimp only
    rw [if_pos rfl]

theorem compute_group_key_eq_missing (r r2 : TjaImportRecord)
    (hah : r.audio_hash = none ∨ r.audio_hash = some [])
    (hah2 : r2.audio_hash = none ∨ r2.audio_hash = some [])
    (h1 : normalise_group_text (folder_source r) true true =
      normalise_group_text (folder_source r2) true true)
    (h2 : normalise_group_text r.relative_dir true true =
      normalise_group_text r2.relative_dir true true)
    (hrp : normalise_group_text r.relative_path true false =
      normalise_group_text r2.relative_path true false)
    (ht : r.normalized_title = r2.normalized_title)
    (ht2 : r.title = r2.title)
    (hne : normalise_group_text r.relative_dir true true ≠ [] ∨
      normalise_group_text r.relative_path true false ≠ []) :
    compute_group_key r = compute_group_key r2 := by
  have hft := folder_token_eq_of_normalise_eq r r2 h1 h2
  have hsp := stable_path_hash_eq_of_normalise_eq r r2 h2 hrp hne
  rw [compute_group_key_missing_form r hah,
    compute_group_key_missing_form r2 hah2, hft, hsp, ht, ht2]

theorem zw_cases (z : Char) (hz : isZeroWidthC z = true) :
    z = Char.ofNat 0x200B ∨ z = Char.ofNat 0x200C ∨ z = Char.ofNat 0x200D ∨
      z = Char.ofNat 0xFEFF ∨ z = Char.ofNat 0x2060 ∨
      z = Char.ofNat 0x180E := by
  have hz2 : z.toNat = 0x200B ∨ z.toNat = 0x200C ∨ z.toNat = 0x200D ∨
      z.toNat = 0xFEFF ∨ z.toNat = 0x2060 ∨ z.toNat = 0x180E := by
    simpa [isZeroWidthC] using hz
  rcases hz2 with h | h | h | h | h | h
  · exact Or.inl (toNat_injC (by rw [h]; decide))
  · exact Or.inr (Or.inl (toNat_injC (by rw [h]; decide)))
  · exact Or.inr (Or.inr (Or.inl (toNat_injC (by rw [h]; decide))))
  · exact Or.inr (Or.inr (Or.inr (Or.inl (toNat_injC (by rw [h]; decide)))))
  · exact Or.inr (Or.inr (Or.inr (Or.inr (Or.inl (toNat_injC
      (by rw [h]; decide))))))
  · exact Or.inr (Or.inr (Or.inr (Or.inr (Or.inr (toNat_injC
      (by rw [h]; decide))))))

theorem zw_not_bs (z : Char) (hz : isZeroWidthC z = true) : z ≠ '\\' := by
  rcases zw_cases z hz with rfl | rfl | rfl | rfl | rfl | rfl <;> decide

theorem zw_not_slash (z : Char) (hz : isZeroWidthC z = true) :
    decide (z = '/') = false := by
  rcases zw_cases z hz with rfl | rfl | rfl | rfl | rfl | rfl <;> decide

theorem zw_not_pyws (z : Char) (hz : isZeroWidthC z = true) :
    isPyWsC z = false := by
  rcases zw_cases z hz with rfl | rfl | rfl | rfl | rfl | rfl <;> decide

theorem zw_not_edgebad (z : Char) (hz : isZeroWidthC z = true) :
    isEdgeBadC z = false := by
  rcases zw_cases z hz with rfl | rfl | rfl | rfl | rfl | rfl <;> decide

theorem zw_invisible (z : Char) (hz : isZeroWidthC z = true) :
    invisibleStep z = none := by
  unfold invisibleStep
  rw [if_pos hz]

theorem zwIns_nil_right {a : Txt} (h : zwIns a []) : a = [] := by
  cases h
  rfl

theorem zwIns_ne_nil {a b : Txt} (h : zwIns a b) (ha : a ≠ []) : b ≠ [] := by
  cases h with
  | nil => exact ha
  | keep c s0 s2 hrec => simp
  | ins z s0 s2 hz hrec => simp

theorem zwIns_mem {a b : Txt} (h : zwIns a b) :
    ∀ c ∈ b, c ∈ a ∨ isZeroWidthC c = true := by
  induction h with
  | nil =>
    intro c hc
    exact absurd hc (by simp)
  | keep c0 s0 s2 hrec ih =>
    intro c hc
    rcases List.mem_cons.mp hc with rfl | hc2
    · exact Or.inl (List.mem_cons_self _ _)
    · rcases ih c hc2 with h2 | h2
      · exact Or.inl (List.mem_cons_of_mem _ h2)
      · exact Or.inr h2
  | ins z s0 s2 hz hrec ih =>
    intro c hc
    rcases List.mem_cons.mp hc with rfl | hc2
    · exact Or.inr hz
    · exact ih c hc2

theorem zwIns_head_cases {a b : Txt} (h : zwIns a b) :
    b.head? = a.head? ∨
      ∃ z, isZeroWidthC z = true ∧ b.head? = some z := by
  cases h with
  | nil => exact Or.inl rfl
  | keep c s0 s2 hrec => exact Or.inl rfl
  | ins z s0 s2 hz hrec => exact Or.inr ⟨z, hz, rfl⟩

theorem zwIns_head_pred (q : Char → Bool)
    (hq : ∀ z, isZeroWidthC z = true → q z = false) {a b : Txt}
    (h : zwIns a b) (ha : ∀ c, a.head? = some c → q c = false) :
    ∀ c, b.head? = some c → q c = false := by
  intro c hc
  rcases zwIns_head_cases h with h2 | ⟨z, hz, h2⟩
  · apply ha c
    rw [← h2]
    exact hc
  · rw [h2] at hc
    rw [← Option.some.inj hc]
    exact hq z hz

theorem zwIns_last_pred (q : Char → Bool)
    (hq : ∀ z, isZeroWidthC z = true → q z = false) {a b : Txt}
    (h : zwIns a b) :
    (∀ c, a.getLast? = some c → q c = false) →
    ∀ c, b.getLast? = some c → q c = false := by
  induction h with
  | nil =>
    intro _ c hc
    exact absurd hc (by simp)
  | keep c0 s0 s2 hrec ih =>
    intro ha c hc
    cases hs2 : s2 with
    | nil =>
      rw [hs2] at hc
      have hceq : c = c0 := by simpa using hc.symm
      rw [hs2] at hrec
      have h0 : s0 = [] := zwIns_nil_right hrec
      apply ha c
      rw [h0, hceq]
      simp
    | cons d t =>
      rw [hs2, List.getLast?_cons_cons, ← hs2] at hc
      have ha2 : ∀ c2, s0.getLast? = some c2 → q c2 = false := by
        intro c2 hc2
        apply ha c2
        cases hs0 : s0 with
        | nil =>
          rw [hs0] at hc2
          exact absurd hc2 (by simp)
        | cons e u =>
          rw [hs0] at hc2
          rw [List.getLast?_cons_cons]
          exact hc2
      exact ih ha2 c hc
  | ins z s0 s2 hz hrec ih =>
    intro ha c hc
    cases hs2 : s2 with
    | nil =>
      rw [hs2] at hc
      have hceq : c = z := by simpa using hc.symm
      rw [hceq]
      exact hq z hz
    | cons d t =>
      rw [hs2, List.getLast?_cons_cons, ← hs2] at hc
      exact ih ha c hc

theorem noAdjPair_cons (p : Char → Bool) (c : Char) (l : Txt) :
    noAdjPair p (c :: l) = true ↔
      ((∀ d, l.head? = some d → ¬(p c = true ∧ p d = true)) ∧
        noAdjPair p l = true) := by
  cases l with
  | nil =>
    constructor
    · intro _
      refine ⟨?_, rfl⟩
      intro d hd
      exact absurd hd (by simp)
    · intro _
      rfl
  | cons d t =>
    constructor
    · intro h
      have h0 : ((!(p c && p d)) && noAdjPair p (d :: t)) = true := h
      simp only [Bool.and_eq_true] at h0
      rcases h0 with ⟨h1, h2⟩
      refine ⟨?_, h2⟩
      intro d2 hd2
      have hde : d2 = d := by simpa using hd2.symm
      rw [hde]
      rintro ⟨hp1, hp2⟩
      rw [hp1, hp2] at h1
      exact absurd h1 (by decide)
    · rintro ⟨h1, h2⟩
      show ((!(p c && p d)) && noAdjPair p (d :: t)) = true
      simp only [Bool.and_eq_true]
      refine ⟨?_, h2⟩
      by_cases hpc : p c = true
      · by_cases hpd : p d = true
        · exact absurd ⟨hpc, hpd⟩ (h1 d rfl)
        · have hf : p d = false := by simpa using hpd
          rw [hf]
          simp
      · have hf : p c = false := by simpa using hpc
        rw [hf]
        simp

theorem zwIns_noAdjPair (p : Char → Bool)
    (hp : ∀ z, isZeroWidthC z = true → p z = false) {a b : Txt}
    (h : zwIns a b) : noAdjPair p a = true → noAdjPair p b = true := by
  induction h with
  | nil =>
    intro h2
    exact h2
  | keep c s0 s2 hrec ih =>
    intro ha
    rcases (noAdjPair_cons p c s0).mp ha with ⟨h1, h2⟩
    refine (noAdjPair_cons p c s2).mpr ⟨?_, ih h2⟩
    intro d hd
    rcases zwIns_head_cases hrec with hh | ⟨z, hz, hh⟩
    · apply h1 d
      rw [← hh]
      exact hd
    · have hzd : d = z := by
        rw [hh] at hd
        exact (Option.some.inj hd).symm
      rw [hzd]
      rintro ⟨_, hpz⟩
      rw [hp z hz] at hpz
      exact absurd hpz (by decide)
  | ins z s0 s2 hz hrec ih =>
    intro ha
    refine (noAdjPair_cons p z s2).mpr ⟨?_, ih ha⟩
    intro d _
    rintro ⟨hpz, _⟩
    rw [hp z hz] at hpz
    exact absurd hpz (by decide)

theorem zwIns_map_bsSlash {a b : Txt} (h : zwIns a b) :
    zwIns (a.map bsSlash) (b.map bsSlash) := by
  induction h with
  | nil => exact zwIns.nil
  | keep c s0 s2 hrec ih =>
    rw [List.map_cons, List.map_cons]
    exact zwIns.keep _ _ _ ih
  | ins z s0 s2 hz hrec ih =>
    rw [List.map_cons]
    have hbz : bsSlash z = z := by
      unfold bsSlash
      rw [if_neg (zw_not_bs z hz)]
    rw [hbz]
    exact zwIns.ins _ _ _ hz ih

theorem zwIns_filter_chr0 {a b : Txt} (h : zwIns a b) :
    zwIns (a.filter (fun c => c ≠ Char.ofNat 0))
      (b.filter (fun c => c ≠ Char.ofNat 0)) := by
  induction h with
  | nil => exact zwIns.nil
  | keep c s0 s2 hrec ih =>
    by_cases hc : c = Char.ofNat 0
    · rw [List.filter_cons_of_neg (by simp [hc]),
        List.filter_cons_of_neg (by simp [hc])]
      exact ih
    · rw [List.filter_cons_of_pos (by simpa using hc),
        List.filter_cons_of_pos (by simpa using hc)]
      exact zwIns.keep _ _ _ ih
  | ins z s0 s2 hz hrec ih =>
    have hzc : z ≠ Char.ofNat 0 := by
      rcases zw_cases z hz with rfl | rfl | rfl | rfl | rfl | rfl <;> decide
    rw [List.filter_cons_of_pos (by simpa using hzc)]
    exact zwIns.ins _ _ _ hz ih

theorem filterMap_invisible_eq_of_zwIns {a b : Txt} (h : zwIns a b) :
    a.filterMap invisibleStep = b.filterMap invisibleStep := by
  induction h with
  | nil => rfl
  | keep c s0 s2 hrec ih =>
    rw [List.filterMap_cons, List.filterMap_cons, ih]
  | ins z s0 s2 hz hrec ih =>
    rw [List.filterMap_cons, zw_invisible z hz, ih]

theorem clean_eq_of_zwIns {a b : Txt} (h : zwIns a b) :
    clean_metadata_value a = clean_metadata_value b := by
  unfold clean_metadata_value normalise_invisible_whitespace
  rw [filterMap_invisible_eq_of_zwIns (zwIns_filter_chr0 h)]

theorem collapseRunsAux_cons_neg2 (p : Char → Bool) (rep : Char)
    (flag : Bool) (c : Char) (t : Txt) (hc : p c = false) :
    collapseRunsAux p rep flag (c :: t) =
      c :: collapseRunsAux p rep false t := by
  cases t <;> simp [collapseRunsAux, hc]

theorem collapseRunsAux_id_of_noAdj (p : Char → Bool) (rep : Char) :
    ∀ (l : Txt) (flag : Bool),
    (∀ c ∈ l, p c = true → c = rep) → noAdjPair p l = true →
    (flag = true → ∀ c, l.head? = some c → p c = false) →
    collapseRunsAux p rep flag l = l := by
  intro l
  induction l with
  | nil =>
    intro flag _ _ _
    rfl
  | cons c t ih =>
    intro flag hrep hadj hflag
    by_cases hc : p c = true
    · cases flag with
      | true =>
        have h2 := hflag rfl c rfl
        rw [hc] at h2
        exact absurd h2 (by decide)
      | false =>
        have hcrep : c = rep := hrep c (List.mem_cons_self _ _) hc
        rcases (noAdjPair_cons p c t).mp hadj with ⟨h1, hadjt⟩
        have hheadt : ∀ d, t.head? = some d → p d = false := by
          intro d hd
          by_cases hpd : p d = true
          · exact absurd ⟨hc, hpd⟩ (h1 d hd)
          · simpa using hpd
        have ht := ih true
          (fun x hx hp => hrep x (List.mem_cons_of_mem _ hx) hp) hadjt
          (fun _ => hheadt)
        rw [show collapseRunsAux p rep false (c :: t) =
            rep :: collapseRunsAux p rep true t from by
          cases t <;> simp [collapseRunsAux, hc]]
        rw [ht, ← hcrep]
    · have hc2 : p c = false := by simpa using hc
      rw [collapseRunsAux_cons_neg2 p rep flag c t hc2]
      rcases (noAdjPair_cons p c t).mp hadj with ⟨_, hadjt⟩
      rw [ih false (fun x hx hp => hrep x (List.mem_cons_of_mem _ hx) hp)
        hadjt (fun hcon => absurd hcon (by decide))]

theorem collapseRuns_id_of_noAdj (p : Char → Bool) (rep : Char) (l : Txt)
    (hrep : ∀ c ∈ l, p c = true → c = rep)
    (hadj : noAdjPair p l = true) : collapseRuns p rep l = l :=
  collapseRunsAux_id_of_noAdj p rep l false hrep hadj
    (fun hcon => absurd hcon (by decide))

theorem noAdjPair_map (p q : Char → Bool) (f : Char → Char)
    (hf : ∀ c, q (f c) = p c) :
    ∀ l : Txt, noAdjPair p l = true → noAdjPair q (l.map f) = true := by
  intro l
  induction l with
  | nil =>
    intro _
    rfl
  | cons c t ih =>
    intro h
    rw [List.map_cons]
    rcases (noAdjPair_cons p c t).mp h with ⟨h1, h2⟩
    refine (noAdjPair_cons q (f c) (t.map f)).mpr ⟨?_, ih h2⟩
    intro d hd
    cases ht : t with
    | nil =>
      rw [ht] at hd
      exact absurd hd (by simp)
    | cons e u =>
      rw [ht, List.map_cons] at hd
      have hde : d = f e := by simpa using hd.symm
      rw [hde, hf c, hf e]
      intro hcon
      exact h1 e (by rw [ht]; rfl) hcon

theorem bsSlash_slash_decide (c : Char) :
    decide (bsSlash c = '/') = isSlashishC c := by
  unfold bsSlash isSlashishC
  by_cases h : c = '\\'
  · rw [if_pos h, h]
    decide
  · rw [if_neg h, decide_eq_decide]
    constructor
    · intro h2
      exact Or.inl h2
    · intro h2
      rcases h2 with h2 | h2
      · exact h2
      · exact absurd h2 h

theorem isPyWsC_bsSlash (c : Char) : isPyWsC (bsSlash c) = isPyWsC c := by
  unfold bsSlash
  by_cases h : c = '\\'
  · rw [if_pos h, h]
    decide
  · rw [if_neg h]

theorem edgebad_decomp (c : Char) (h : isEdgeBadC c = false) :
    isPyWsC c = false ∧ c ≠ '/' ∧ c ≠ '\\' := by
  unfold isEdgeBadC at h
  refine ⟨?_, ?_, ?_⟩
  · by_cases h2 : isPyWsC c = true
    · rw [h2] at h
      simp at h
    · simpa using h2
  · intro he
    rw [he] at h
    exact absurd h (by decide)
  · intro he
    rw [he] at h
    exact absurd h (by decide)

theorem decide_false_of_ne {c d : Char} (h : c ≠ d) :
    decide (c = d) = false := by
  simpa using h

theorem normalise_zw_insert_invariant (s s2 : Txt) (b1 b2 : Bool)
    (hz : zwIns s s2) (hpct : ('%') ∉ s) (hs : s ≠ [])
    (hhead : ∀ c, s.head? = some c → isEdgeBadC c = false)
    (hlast : ∀ c, s.getLast? = some c → isEdgeBadC c = false)
    (hadjS : noAdjPair isSlashishC s = true)
    (hadjW : noAdjPair isPyWsC s = true)
    (hsp : ∀ c ∈ s, isPyWsC c = true → c = ' ') :
    normalise_group_text s b1 b2 = normalise_group_text s2 b1 b2 := by
  have hs2 : s2 ≠ [] := zwIns_ne_nil hz hs
  have hpct2 : ('%') ∉ s2 := by
    intro hc
    rcases zwIns_mem hz ('%') hc with h | h
    · exact hpct h
    · exact absurd h (by decide)
  have hzM : zwIns (s.map bsSlash) (s2.map bsSlash) := zwIns_map_bsSlash hz
  obtain ⟨chead, stail, hsc⟩ : ∃ c t, s = c :: t := by
    cases s with
    | nil => exact absurd rfl hs
    | cons c t => exact ⟨c, t, rfl⟩
  have hheadf := edgebad_decomp chead (hhead chead (by rw [hsc]; rfl))
  have hlast2 : s.getLast? = some (s.getLast hs) :=
    List.getLast?_eq_getLast s hs
  have hlastf := edgebad_decomp _ (hlast _ hlast2)
  have hbshead : bsSlash chead = chead := by
    unfold bsSlash
    rw [if_neg hheadf.2.2]
  have hbslast : bsSlash (s.getLast hs) = s.getLast hs := by
    unfold bsSlash
    rw [if_neg hlastf.2.2]
  have hM1 : s.map bsSlash = chead :: stail.map bsSlash := by
    rw [hsc, List.map_cons, hbshead]
  have hdecomp : s.dropLast ++ [s.getLast hs] = s :=
    List.dropLast_append_getLast hs
  have hMlast : s.map bsSlash = s.dropLast.map bsSlash ++ [s.getLast hs] := by
    conv_lhs => rw [← hdecomp]
    rw [List.map_append, List.map_cons, List.map_nil, hbslast]
  have hheadM : ∀ c, (s.map bsSlash).head? = some c →
      isEdgeBadC c = false := by
    intro c hc
    rw [hM1] at hc
    have hce : c = chead := by simpa using hc.symm
    rw [hce]
    exact hhead chead (by rw [hsc]; rfl)
  have hlastM : ∀ c, (s.map bsSlash).getLast? = some c →
      isEdgeBadC c = false := by
    intro c hc
    rw [hMlast, List.getLast?_concat] at hc
    have hce : c = s.getLast hs := by simpa using hc.symm
    rw [hce]
    exact hlast _ hlast2
  have hheadM2 := zwIns_head_pred isEdgeBadC zw_not_edgebad hzM hheadM
  have hlastM2 := zwIns_last_pred isEdgeBadC zw_not_edgebad hzM hlastM
  have hadjSM : noAdjPair (fun c => c = '/') (s.map bsSlash) = true :=
    noAdjPair_map isSlashishC (fun c => c = '/') bsSlash
      bsSlash_slash_decide s hadjS
  have hadjSM2 : noAdjPair (fun c => c = '/') (s2.map bsSlash) = true :=
    zwIns_noAdjPair (fun c => c = '/') zw_not_slash hzM hadjSM
  have hadjWM : noAdjPair isPyWsC (s.map bsSlash) = true :=
    noAdjPair_map isPyWsC isPyWsC bsSlash isPyWsC_bsSlash s hadjW
  have hadjWM2 : noAdjPair isPyWsC (s2.map bsSlash) = true :=
    zwIns_noAdjPair isPyWsC zw_not_pyws hzM hadjWM
  have hspM : ∀ c ∈ s.map bsSlash, isPyWsC c = true → c = ' ' := by
    intro c hc hp
    rcases List.mem_map.mp hc with ⟨c0, hc0, rfl⟩
    rw [isPyWsC_bsSlash] at hp
    rw [hsp c0 hc0 hp]
    decide
  have hspM2 : ∀ c ∈ s2.map bsSlash, isPyWsC c = true → c = ' ' := by
    intro c hc hp
    rcases List.mem_map.mp hc with ⟨c0, hc0, rfl⟩
    rw [isPyWsC_bsSlash] at hp
    rcases zwIns_mem hz c0 hc0 with h | h
    · rw [hsp c0 h hp]
      decide
    · rw [zw_not_pyws c0 h] at hp
      exact absurd hp (by decide)
  have e4A : collapseSlashes (s.map bsSlash) = s.map bsSlash := by
    unfold collapseSlashes
    exact collapseRuns_id_of_noAdj _ _ _
      (fun c _ h => of_decide_eq_true h) hadjSM
  have e4B : collapseSlashes (s2.map bsSlash) = s2.map bsSlash := by
    unfold collapseSlashes
    exact collapseRuns_id_of_noAdj _ _ _
      (fun c _ h => of_decide_eq_true h) hadjSM2
  have e5A : (if b2 then stripBoth (fun c => c = '/') (s.map bsSlash)
      else s.map bsSlash) = s.map bsSlash := by
    cases b2
    · rfl
    · simp only [if_true, ite_true]
      apply stripBoth_id_of_edges
      · intro c hc
        exact decide_false_of_ne (edgebad_decomp c (hheadM c hc)).2.1
      · intro c hc
        exact decide_false_of_ne (edgebad_decomp c (hlastM c hc)).2.1
  have e5B : (if b2 then stripBoth (fun c => c = '/') (s2.map bsSlash)
      else s2.map bsSlash) = s2.map bsSlash := by
    cases b2
    · rfl
    · simp only [if_true, ite_true]
      apply stripBoth_id_of_edges
      · intro c hc
        exact decide_false_of_ne (edgebad_decomp c (hheadM2 c hc)).2.1
      · intro c hc
        exact decide_false_of_ne (edgebad_decomp c (hlastM2 c hc)).2.1
  have e6A : stripBoth isPyWsC (s.map bsSlash) = s.map bsSlash := by
    apply stripBoth_id_of_edges
    · intro c hc
      exact (edgebad_decomp c (hheadM c hc)).1
    · intro c hc
      exact (edgebad_decomp c (hlastM c hc)).1
  have e6B : stripBoth isPyWsC (s2.map bsSlash) = s2.map bsSlash := by
    apply stripBoth_id_of_edges
    · intro c hc
      exact (edgebad_decomp c (hheadM2 c hc)).1
    · intro c hc
      exact (edgebad_decomp c (hlastM2 c hc)).1
  have e7A : collapseWsRun (s.map bsSlash) = s.map bsSlash := by
    unfold collapseWsRun
    exact collapseRuns_id_of_noAdj _ _ _ hspM hadjWM
  have e7B : collapseWsRun (s2.map bsSlash) = s2.map bsSlash := by
    unfold collapseWsRun
    exact collapseRuns_id_of_noAdj _ _ _ hspM2 hadjWM2
  have hclean : clean_metadata_value (s.map bsSlash) =
      clean_metadata_value (s2.map bsSlash) := clean_eq_of_zwIns hzM
  unfold normalise_group_text
  rw [if_neg hs, if_neg hs2]
  rw [unquote_id_of_no_pct s hpct, unquote_id_of_no_pct s2 hpct2]
  simp only [nfcModel]
  rw [e4A, e4B, e5A, e5B, e6A, e6B, e7A, e7B, hclean]

/-- C2 (amended): group keys are invariant under the claimed rewritings
of folder components.  At the key level, two records with the same
nonempty audio hash whose folder sources and relative directories
normalise equally receive the same group key, and likewise two records
whose audio hash is missing (given equal titles and a nonempty
normalised path); for every record with a plain nonempty directory URL
(no scheme, query, fragment or authority part), the folder source is
exactly that URL, so these conjuncts cover the records the scanner
builds.  At the normalisation level the claimed invariances hold:
percent-encoding, backslash-versus-slash together with duplicated
slashes, ASCII casing, surrounding Python whitespace, substituting
no-break spaces for existing spaces, and inserting zero-width
characters (into percent-free text with clean edges, single plain
spaces and no doubled separators), which
`_normalise_invisible_whitespace` deletes.  The original claim fails
only for NBSP insertion (see the counterexample): an inserted NBSP
becomes a new space rather than disappearing. -/
theorem c2_group_key_invariances :
    (∀ (r r2 : TjaImportRecord) (h : Txt),
      r.audio_hash = some h → r2.audio_hash = some h → h ≠ [] →
      normalise_group_text (folder_source r) true true =
        normalise_group_text (folder_source r2) true true →
      normalise_group_text r.relative_dir true true =
        normalise_group_text r2.relative_dir true true →
      compute_group_key r = compute_group_key r2) ∧
    (∀ (r r2 : TjaImportRecord),
      (r.audio_hash = none ∨ r.audio_hash = some []) →
      (r2.audio_hash = none ∨ r2.audio_hash = some []) →
      normalise_group_text (folder_source r) true true =
        normalise_group_text (folder_source r2) true true →
      normalise_group_text r.relative_dir true true =
        normalise_group_text r2.relative_dir true true →
      normalise_group_text r.relative_path true false =
        normalise_group_text r2.relative_path true false →
      r.normalized_title = r2.normalized_title → r.title = r2.title →
      (normalise_group_text r.relative_dir true true ≠ [] ∨
        normalise_group_text r.relative_path true false ≠ []) →
      compute_group_key r = compute_group_key r2) ∧
    (∀ r : TjaImportRecord, r.dir_url ≠ [] → ('#') ∉ r.dir_url →
      ('?') ∉ r.dir_url → (':') ∉ r.dir_url →
      (∀ t, r.dir_url ≠ '/' :: '/' :: t) →
      folder_source r = r.dir_url) ∧
    (∀ (s s2 : Txt) (b1 b2 : Bool), s ≠ [] → s2 ≠ [] →
      unquoteModel s = unquoteModel s2 →
      normalise_group_text s b1 b2 = normalise_group_text s2 b1 b2) ∧
    (∀ (s s2 : Txt) (b1 b2 : Bool), ('%') ∉ s → ('%') ∉ s2 →
      s ≠ [] → s2 ≠ [] →
      collapseSlashes (s.map bsSlash) = collapseSlashes (s2.map bsSlash) →
      normalise_group_text s b1 b2 = normalise_group_text s2 b1 b2) ∧
    (∀ (s s2 : Txt) (b2 : Bool), ('%') ∉ s → ('%') ∉ s2 →
      s.map asciiCasefold = s2.map asciiCasefold →
      normalise_group_text s true b2 = normalise_group_text s2 true b2) ∧
    (∀ (s pre suf : Txt) (b1 b2 : Bool),
      (∀ c ∈ pre, isPyWsC c = true) → (∀ c ∈ suf, isPyWsC c = true) →
      ('%') ∉ s → s ≠ [] →
      (∀ c, s.head? = some c → isPyWsC c = false ∧ c ≠ '/' ∧ c ≠ '\\') →
      (∀ c, s.getLast? = some c →
        isPyWsC c = false ∧ c ≠ '/' ∧ c ≠ '\\') →
      normalise_group_text (pre ++ s ++ suf) b1 b2 =
        normalise_group_text s b1 b2) ∧
    (∀ (s s2 : Txt) (b1 b2 : Bool), ('%') ∉ s → ('%') ∉ s2 →
      List.Forall₂ nbspRel s s2 →
      normalise_group_text s b1 b2 = normalise_group_text s2 b1 b2) ∧
    (∀ (s s2 : Txt) (b1 b2 : Bool), zwIns s s2 → ('%') ∉ s → s ≠ [] →
      (∀ c, s.head? = some c → isEdgeBadC c = false) →
      (∀ c, s.getLast? = some c → isEdgeBadC c = false) →
      noAdjPair isSlashishC s = true → noAdjPair isPyWsC s = true →
      (∀ c ∈ s, isPyWsC c = true → c = ' ') →
      normalise_group_text s b1 b2 = normalise_group_text s2 b1 b2) := by
  refine ⟨?_, ?_, ?_, ?_, ?_, ?_, ?_, ?_, ?_⟩
  · intro r r2 h h1 h2 h3 h4 h5
    exact compute_group_key_eq_audio r r2 h h1 h2 h3 h4 h5
  · intro r r2 h1 h2 h3 h4 h5 h6 h7 h8
    exact compute_group_key_eq_missing r r2 h1 h2 h3 h4 h5 h6 h7 h8
  · intro r h1 h2 h3 h4 h5
    exact folder_source_eq_dir_url r h1
      (urlPathOf_id_of_plain r.dir_url h2 h3 h4 h5)
  · intro s s2 b1 b2 h1 h2 h3
    exact normalise_pct_invariant s s2 b1 b2 h1 h2 h3
  · intro s s2 b1 b2 h1 h2 h3 h4 h5
    exact normalise_slash_invariant s s2 b1 b2 h1 h2 h3 h4 h5
  · intro s s2 b2 h1 h2 h3
    exact normalise_casefold_invariant s s2 b2 h1 h2 h3
  · intro s pre suf b1 b2 h1 h2 h3 h4 h5 h6
    exact normalise_outer_ws_invariant s pre suf b1 b2 h1 h2 h3 h4 h5 h6
  · intro s s2 b1 b2 h1 h2 h3
    exact normalise_nbsp_sub_invariant s s2 b1 b2 h1 h2 h3
  · intro s s2 b1 b2 h1 h2 h3 h4 h5 h6 h7 h8
    exact normalise_zw_insert_invariant s s2 b1 b2 h1 h2 h3 h4 h5 h6 h7 h8

/-- Witness for C2: the nine invariances applied at concrete inputs — a
recased directory URL at the key level for an audio-hashed record and
for a missing-audio record, the folder source of the sample record, a
percent-encoded letter, backslash and doubled-slash variants, recased
text, whitespace-wrapped text, an NBSP substituted for a space, and a
zero-width space inserted into a folder name. -/
theorem c2_group_key_invariances_witness :
    (compute_group_key sampleRecord =
      compute_group_key
        { sampleRecord with dir_url := tx ("/songs/PACK/") }) ∧
    (compute_group_key { sampleRecord with audio_hash := none } =
      compute_group_key
        { sampleRecord with dir_url := tx ("/songs/PACK/"), audio_hash := some [] }) ∧
    (folder_source sampleRecord = sampleRecord.dir_url) ∧
    (normalise_group_text (tx ("%41")) true true =
      normalise_group_text (tx ("A")) true true) ∧
    (normalise_group_text (tx ("a\\b")) true true =
      normalise_group_text (tx ("a//b")) true true) ∧
    (normalise_group_text (tx ("Pack")) true true =
      normalise_group_text (tx ("PACK")) true true) ∧
    (normalise_group_text ((' ' :: []) ++ tx ("Pack") ++ (' ' :: []))
        true true =
      normalise_group_text (tx ("Pack")) true true) ∧
    (normalise_group_text (tx ("a b")) true true =
      normalise_group_text ('a' :: Char.ofNat 160 :: 'b' :: [])
        true true) ∧
    (normalise_group_text (tx ("Pack")) true true =
      normalise_group_text
        ('P' :: 'a' :: Char.ofNat 0x200B :: 'c' :: 'k' :: []) true true) := by
  refine ⟨?_, ?_, ?_, ?_, ?_, ?_, ?_, ?_, ?_⟩
  · exact c2_group_key_invariances.1 sampleRecord
      { sampleRecord with dir_url := tx ("/songs/PACK/") }
      (tx ("abcd1234")) (by decide) (by decide) (by decide) (by decide)
      (by decide)
  · exact c2_group_key_invariances.2.1
      { sampleRecord with audio_hash := none }
      { sampleRecord with dir_url := tx ("/songs/PACK/"), audio_hash := some [] }
      (by decide) (by decide) (by decide) (by decide) (by decide)
      (by decide) (by decide) (by decide)
  · refine c2_group_key_invariances.2.2.1 sampleRecord (by decide)
      (by decide) (by decide) (by decide) ?_
    intro t ht
    have h2 : sampleRecord.dir_url.take 2 = ('/' :: '/' :: t).take 2 := by
      rw [ht]
    have h3 : ('/' :: 's' :: []) = ('/' :: '/' :: []) := h2
    exact absurd h3 (by decide)
  · exact c2_group_key_invariances.2.2.2.1 (tx ("%41")) (tx ("A")) true true
      (by decide) (by decide) (by decide)
  · exact c2_group_key_invariances.2.2.2.2.1 (tx ("a\\b")) (tx ("a//b"))
      true true (by decide) (by decide) (by decide) (by decide) (by decide)
  · exact c2_group_key_invariances.2.2.2.2.2.1 (tx ("Pack")) (tx ("PACK"))
      true (by decide) (by decide) (by decide)
  · refine c2_group_key_invariances.2.2.2.2.2.2.1 (tx ("Pack")) (' ' :: [])
      (' ' :: []) true true ?_ ?_ (by decide) (by decide) ?_ ?_
    · intro c hc
      have hce : c = ' ' := by simpa using hc
      rw [hce]
      decide
    · intro c hc
      have hce : c = ' ' := by simpa using hc
      rw [hce]
      decide
    · intro c hc
      have h2 : some ('P') = some c := hc
      rw [← Option.some.inj h2]
      exact ⟨by decide, by decide, by decide⟩
    · intro c hc
      have h2 : some ('k') = some c := hc
      rw [← Option.some.inj h2]
      exact ⟨by decide, by decide, by decide⟩
  · refine c2_group_key_invariances.2.2.2.2.2.2.2.1 (tx ("a b"))
      ('a' :: Char.ofNat 160 :: 'b' :: []) true true (by decide) (by decide)
      ?_
    exact List.Forall₂.cons (Or.inl rfl)
      (List.Forall₂.cons (Or.inr ⟨rfl, by decide⟩)
        (List.Forall₂.cons (Or.inl rfl) List.Forall₂.nil))
  · refine c2_group_key_invariances.2.2.2.2.2.2.2.2 (tx ("Pack"))
      ('P' :: 'a' :: Char.ofNat 0x200B :: 'c' :: 'k' :: []) true true
      ?_ (by decide) (by decide) ?_ ?_ (by decide) (by decide) (by decide)
    · show zwIns ('P' :: 'a' :: 'c' :: 'k' :: [])
        ('P' :: 'a' :: Char.ofNat 0x200B :: 'c' :: 'k' :: [])
      exact zwIns.keep _ _ _ (zwIns.keep _ _ _ (zwIns.ins _ _ _ (by decide)
        (zwIns.keep _ _ _ (zwIns.keep _ _ _ zwIns.nil))))
    · intro c hc
      have h2 : some ('P') = some c := hc
      rw [← Option.some.inj h2]
      decide
    · intro c hc
      have h2 : some ('k') = some c := hc
      rw [← Option.some.inj h2]
      decide

/-- C1 counterexample: on the second of two successive full scans over
the unchanged sample filesystem, nothing is inserted but the existing
group is refreshed and counted, so the summary reports `updated = 1`,
not `updated = 0`: a full pass marks every group dirty and
`_upsert_song_document` increments `updated` for every dirty existing
group. -/
theorem c1_counterexample_second_full_scan :
    c1Run2.1.inserted = 0 ∧ c1Run2.1.updated = 1 ∧ c1Run2.1.updated ≠ 0 := by
  decide

theorem process_file_full_dirty (af : List (Txt × Nat × Nat))
    (sd : Option StateRowM) (f : FsFile) :
    (process_file true af sd f).wasDirty = true := by
  cases sd with
  | none => rfl
  | some s => rfl

theorem appendAggregated_keys (agg : List (Txt × List TjaImportRecord))
    (k : Txt) (r : TjaImportRecord) (k2 : Txt)
    (h : k2 ∈ (appendAggregated agg k r).map (·.1)) :
    k2 ∈ agg.map (·.1) ∨ k2 = k := by
  unfold appendAggregated at h
  by_cases hf : (agg.find? (fun kv => decide (kv.1 = k))).isSome
  · rw [if_pos hf] at h
    rcases List.mem_map.mp h with ⟨kv, hkv, hmap⟩
    rcases List.mem_map.mp hkv with ⟨kv0, hkv0, hmap0⟩
    by_cases hk : kv0.1 = k
    · rw [if_pos hk] at hmap0
      rw [← hmap0] at hmap
      refine Or.inr ?_
      rw [← hmap]
      exact hk
    · rw [if_neg hk] at hmap0
      rw [← hmap0] at hmap
      exact Or.inl (List.mem_map.mpr ⟨kv0, hkv0, hmap⟩)
  · rw [if_neg hf, List.map_append] at h
    rcases List.mem_append.mp h with h2 | h2
    · exact Or.inl h2
    · exact Or.inr (by simpa using h2)

theorem scan_file_step_dirty_inv (fs : FSModel) (stateDocs : List StateRowM)
    (acc : ScanAccum) (f : FsFile)
    (hinv : ∀ k ∈ acc.aggregated.map (·.1), k ∈ acc.dirtyGroups) :
    ∀ k ∈ (scan_file_step true fs stateDocs acc f).aggregated.map (·.1),
      k ∈ (scan_file_step true fs stateDocs acc f).dirtyGroups := by
  intro k hk
  have hdirty := process_file_full_dirty fs.audioFiles
    (stateDocs.find? (fun s => decide (s.tja_path = f.path))) f
  unfold scan_file_step at hk ⊢
  simp only [] at hk ⊢
  set key := compute_group_key (process_file true fs.audioFiles
    (stateDocs.find? (fun s => decide (s.tja_path = f.path))) f).record with hkey
  rcases appendAggregated_keys acc.aggregated key _ k hk with h2 | h2
  · have h3 := hinv k h2
    by_cases hmem : key ∈ acc.dirtyGroups
    · simp only [hdirty, hmem]
      simp [h3]
    · simp only [hdirty, hmem]
      simp [h3]
  · subst h2
    by_cases hmem : key ∈ acc.dirtyGroups
    · simp [hdirty, hmem]
    · simp [hdirty, hmem]

theorem scan_files_fold_dirty (fs : FSModel) (stateDocs : List StateRowM)
    (files : List FsFile) (acc : ScanAccum)
    (hinv : ∀ k ∈ acc.aggregated.map (·.1), k ∈ acc.dirtyGroups) :
    ∀ k ∈ (files.foldl (scan_file_step true fs stateDocs) acc).aggregated.map
        (·.1),
      k ∈ (files.foldl (scan_file_step true fs stateDocs) acc).dirtyGroups := by
  induction files generalizing acc with
  | nil => exact hinv
  | cons f rest ih =>
    rw [List.foldl_cons]
    exact ih _ (scan_file_step_dirty_inv fs stateDocs acc f hinv)

theorem scan_files_full_all_dirty (fs : FSModel) (stateDocs : List StateRowM) :
    ∀ k ∈ (scan_files true fs stateDocs).aggregated.map (·.1),
      k ∈ (scan_files true fs stateDocs).dirtyGroups := by
  unfold scan_files
  exact scan_files_fold_dirty fs stateDocs _ emptyScanAccum (by simp [emptyScanAccum])

theorem upsert_dirty_existing_counts (st : ScannerSt) (db : DBState)
    (summary : Summary) (key : Txt) (document : DocM)
    (payload : List ChartEntry) (dirty : List Txt) (now n : Nat) (d : DocM)
    (hk : key ≠ []) (hd : key ∈ dirty)
    (hf : db.songs.find? (rowMatches (RowFilter.byKey key)) = some d)
    (hid : getField d ("id") = some (Val.vNat n)) :
    (upsert_song_document st db summary key document payload dirty
      now).summary.updated = summary.updated + 1 ∧
    (upsert_song_document st db summary key document payload dirty
      now).summary.inserted = summary.inserted := by
  unfold upsert_song_document
  rw [if_neg hk]
  simp [hf, hid, hd]

/-- C1 (amended): on a full pass every aggregated group is marked dirty,
and `_upsert_song_document` increments `updated` (and leaves `inserted`
unchanged) for every dirty group whose catalog row already exists with a
numeric id — so the second of two successive full scans reports
`inserted = 0` but `updated` equal to the number of existing groups, not
`updated = 0`; the catalog rows do stay identical modulo `updatedAt`
stamps, as the concrete two-scan run shows. -/
theorem c1_full_rescan_updates_groups :
    (∀ (fs : FSModel) (stateDocs : List StateRowM) (k : Txt),
      k ∈ (scan_files true fs stateDocs).aggregated.map (·.1) →
      k ∈ (scan_files true fs stateDocs).dirtyGroups) ∧
    (∀ (st : ScannerSt) (db : DBState) (summary : Summary) (key : Txt)
       (document : DocM) (payload : List ChartEntry) (dirty : List Txt)
       (now n : Nat) (d : DocM),
      key ≠ [] → key ∈ dirty →
      db.songs.find? (rowMatches (RowFilter.byKey key)) = some d →
      getField d ("id") = some (Val.vNat n) →
      (upsert_song_document st db summary key document payload dirty
        now).summary.updated = summary.updated + 1 ∧
      (upsert_song_document st db summary key document payload dirty
        now).summary.inserted = summary.inserted) ∧
    (c1Run2.1.inserted = 0 ∧
     c1Run2.2.1.songs.map stripDocTimes =
       c1Run1.2.1.songs.map stripDocTimes) := by
  refine ⟨?_, ?_, ?_⟩
  · exact scan_files_full_all_dirty
  · intro st db summary key document payload dirty now n d h1 h2 h3 h4
    exact upsert_dirty_existing_counts st db summary key document payload
      dirty now n d h1 h2 h3 h4
  · constructor
    · decide
    · decide

/-- Witness for C1: the dirtiness theorem applied to the sample group
key, and the counting theorem applied to the concrete row written by the
first sample scan. -/
theorem c1_full_rescan_updates_groups_witness :
    (compute_group_key sampleRecord ∈
      (scan_files true sampleFs []).dirtyGroups) ∧
    ((upsert_song_document freshScanner c1Run1.2.1 emptySummary
        (compute_group_key sampleRecord) [] []
        [compute_group_key sampleRecord] 0).summary.updated =
      emptySummary.updated + 1 ∧
     (upsert_song_document freshScanner c1Run1.2.1 emptySummary
        (compute_group_key sampleRecord) [] []
        [compute_group_key sampleRecord] 0).summary.inserted =
      emptySummary.inserted) := by
  constructor
  · exact c1_full_rescan_updates_groups.1 sampleFs []
      (compute_group_key sampleRecord) (by decide)
  · exact c1_full_rescan_updates_groups.2.1 freshScanner c1Run1.2.1
      emptySummary (compute_group_key sampleRecord) [] []
      [compute_group_key sampleRecord] 0 1 c1Row (by decide) (by decide)
      (by decide) (by decide)
